import Mathlib

/-!
# Griesinger reverb (`griesinger_reverb.h`): model and verified properties

The C++ classes `OnePoleLP`, `DelayLine<max_size>`, `Comb<max_size>`,
`Allpass<max_size>` and `GriesingerReverb` are embedded as Lean structures with
explicit state passing: a member function that mutates the object becomes a
function returning the new object (and the returned value, if any).

Conventions of the embedding.

* `float`: the arithmetic of `Process` (of the filters and of the network) is
  written once, over any type `α` with `+`, `-`, `*`, unary minus, `0`, `1` and
  decimal literals, and is read in two arithmetics.  In an arbitrary linearly
  ordered field (`ℚ` for evaluation, `ℝ` for analysis) it is exact; this is
  used for the properties that are the code's own equations or that finite
  values keep exact.  In `F32`, IEEE 754 binary32 with rounding, infinities and
  NaN, it is the arithmetic of the target; this is used for the properties
  that rounding or a non-finite value decides (dry pass, width collapse, width
  preservation, allpass energy balance).  `Init` and the setters are read in
  exact arithmetic only.
* `size_t` is the 32-bit unsigned integer of the Cortex-M7 target: values are
  `Nat`, and `+`/`-` on them wrap modulo `SIZE_MOD = 2^32` (`uadd`, `usub`).
* `float buffer_[max_size]` is a function `Fin max_size → α`.  Indexing is done
  with a `Nat` index through `bufAt` / `bufSet`; an index outside the array
  (undefined behaviour in C++) reads `0` and writes nothing in the model, and
  the bounds theorems show it never happens.
* `expf` and `PI_F` come from headers outside the sources (`<cmath>`,
  `daisysp.h`); they are carried as the parameter `Daisysp α`.
-/

namespace griesinger

/-! ## Unsigned machine arithmetic -/

/-- Number of values of `size_t` on the 32-bit target. -/
def SIZE_MOD : Nat := 4294967296

/-- Unsigned addition `a + b` on `size_t`. -/
def uadd (a b : Nat) : Nat := (a + b) % SIZE_MOD

/-- Unsigned subtraction `a - b` on `size_t` (wraps below zero). -/
def usub (a b : Nat) : Nat := (a + SIZE_MOD - b) % SIZE_MOD

/-! ## External library -/

/-- What `OnePoleLP::SetCutoff` takes from outside the sources: `expf` of
`<cmath>` and the constant `PI_F` of `daisysp.h`. -/
structure Daisysp (α : Type) where
  /-- The exponential `expf`. -/
  expf : α → α
  /-- The constant `PI_F`. -/
  PI_F : α

/-- Modelled from the spec: `fclamp(in, min, max)` of `daisysp.h`, which is not
part of the sources.  The spec's setters "clamp before storing" and map values
outside the range "to the nearest boundary"; DaisySP computes it as
`fmin(fmax(in, min), max)`. -/
def fclamp {α : Type} [LinearOrderedField α] (x lo hi : α) : α :=
  min (max x lo) hi

/-! ## OnePoleLP -/

/-- State of `class OnePoleLP`. -/
structure OnePoleLP (α : Type) where
  sample_rate_ : α
  a_ : α
  b_ : α
  z_ : α

namespace OnePoleLP
variable {α : Type} [LinearOrderedField α]

/-- The default member initialisers of `OnePoleLP`. -/
def fresh : OnePoleLP α :=
  { sample_rate_ := 48000, a_ := 0, b_ := 1, z_ := 0 }

/-- Member function `OnePoleLP::SetCutoff`. -/
def SetCutoff (m : Daisysp α) (f : OnePoleLP α) (hz : α) : OnePoleLP α :=
  let x := m.expf (-2 * m.PI_F * hz / f.sample_rate_)
  { f with a_ := x, b_ := 1 - x }

/-- Member function `OnePoleLP::Init`. -/
def Init (m : Daisysp α) (f : OnePoleLP α) (sample_rate : α) : OnePoleLP α :=
  SetCutoff m { f with sample_rate_ := sample_rate, z_ := 0 } 6000

/-- Member function `OnePoleLP::Process`: the new state and the returned value. -/
def Process {α : Type} [Add α] [Mul α] (f : OnePoleLP α) (x : α) : OnePoleLP α × α :=
  let z := f.b_ * x + f.a_ * f.z_
  ({ f with z_ := z }, z)

end OnePoleLP

/-! ## DelayLine -/

/-- Array access `buffer[i]` for a `size_t` index `i`. -/
def bufAt {α : Type} [Zero α] {n : Nat} (buf : Fin n → α) (i : Nat) : α :=
  if h : i < n then buf ⟨i, h⟩ else 0

/-- Array access `buffer[i] = x` for a `size_t` index `i`. -/
def bufSet {α : Type} {n : Nat} (buf : Fin n → α) (i : Nat) (x : α) : Fin n → α :=
  fun j => if j.val = i then x else buf j

/-- The loop `for(i = 0; i < k; i++) buffer_[i] = 0.0f;`. -/
def zeroFill {α : Type} [Zero α] {n : Nat} (buf : Fin n → α) : Nat → (Fin n → α)
  | 0 => buf
  | k + 1 => bufSet (zeroFill buf k) k 0

/-- State of `class DelayLine<max_size>`. -/
structure DelayLine (α : Type) (max_size : Nat) where
  buffer_ : Fin max_size → α
  write_index_ : Nat
  delay_ : Nat

namespace DelayLine
variable {α : Type} [Zero α] {max_size : Nat}

/-- Member function `DelayLine::Init`. -/
def Init (d : DelayLine α max_size) : DelayLine α max_size :=
  { buffer_ := zeroFill d.buffer_ max_size, write_index_ := 0, delay_ := 1 }

/-- Member function `DelayLine::SetDelay`. -/
def SetDelay (d : DelayLine α max_size) (delay_samples : Nat) : DelayLine α max_size :=
  { d with
    delay_ :=
      if delay_samples < 1 then 1
      else if delay_samples ≥ max_size then usub max_size 1
      else delay_samples }

/-- The local `read_index` of `DelayLine::Read`. -/
def read_index (d : DelayLine α max_size) : Nat :=
  usub (uadd d.write_index_ max_size) d.delay_ % max_size

/-- Member function `DelayLine::Read`. -/
def Read (d : DelayLine α max_size) : α :=
  bufAt d.buffer_ d.read_index

/-- Member function `DelayLine::Write`. -/
def Write (d : DelayLine α max_size) (x : α) : DelayLine α max_size :=
  { d with
    buffer_ := bufSet d.buffer_ d.write_index_ x
    write_index_ := uadd d.write_index_ 1 % max_size }

/-- A run of consecutive `Write` calls, oldest value first. -/
def Writes (d : DelayLine α max_size) : List α → DelayLine α max_size
  | [] => d
  | y :: ys => Writes (d.Write y) ys

end DelayLine

/-! ## Comb -/

/-- State of `class Comb<max_size>`. -/
structure Comb (α : Type) (max_size : Nat) where
  delay_ : DelayLine α max_size
  damping_ : OnePoleLP α
  feedback_ : α

namespace Comb
variable {α : Type} [LinearOrderedField α] {max_size : Nat}

/-- Member function `Comb::Init`. -/
def Init (m : Daisysp α) (c : Comb α max_size) (sample_rate : α) : Comb α max_size :=
  { delay_ := c.delay_.Init
    damping_ := c.damping_.Init m sample_rate
    feedback_ := 0.75 }

/-- Member function `Comb::SetDelay`. -/
def SetDelay (c : Comb α max_size) (delay_samples : Nat) : Comb α max_size :=
  { c with delay_ := c.delay_.SetDelay delay_samples }

/-- Member function `Comb::SetFeedback`. -/
def SetFeedback (c : Comb α max_size) (feedback : α) : Comb α max_size :=
  { c with feedback_ := feedback }

/-- Member function `Comb::SetDamping`. -/
def SetDamping (m : Daisysp α) (c : Comb α max_size) (hz : α) : Comb α max_size :=
  { c with damping_ := c.damping_.SetCutoff m hz }

/-- Member function `Comb::Process`: the new state and the returned value. -/
def Process {α : Type} [Zero α] [Add α] [Mul α] (c : Comb α max_size) (x : α) :
    Comb α max_size × α :=
  let delayed := c.delay_.Read
  let filtered := c.damping_.Process delayed
  ({ c with
      delay_ := c.delay_.Write (x + filtered.2 * c.feedback_)
      damping_ := filtered.1 },
    delayed)

end Comb

/-! ## Allpass -/

/-- State of `class Allpass<max_size>`. -/
structure Allpass (α : Type) (max_size : Nat) where
  delay_ : DelayLine α max_size
  gain_ : α

namespace Allpass
variable {α : Type} [LinearOrderedField α] {max_size : Nat}

/-- Member function `Allpass::Init`. -/
def Init (p : Allpass α max_size) : Allpass α max_size :=
  { delay_ := p.delay_.Init, gain_ := 0.7 }

/-- Member function `Allpass::SetDelay`. -/
def SetDelay (p : Allpass α max_size) (delay_samples : Nat) : Allpass α max_size :=
  { p with delay_ := p.delay_.SetDelay delay_samples }

/-- Member function `Allpass::SetGain`. -/
def SetGain (p : Allpass α max_size) (gain : α) : Allpass α max_size :=
  { p with gain_ := gain }

/-- Member function `Allpass::Process`: the new state and the returned value. -/
def Process {α : Type} [Zero α] [Add α] [Mul α] [Neg α] (p : Allpass α max_size) (x : α) :
    Allpass α max_size × α :=
  let delayed := p.delay_.Read
  let out := -p.gain_ * x + delayed
  ({ p with delay_ := p.delay_.Write (x + p.gain_ * out) }, out)

end Allpass

/-! ## GriesingerReverb -/

/-- State of `class GriesingerReverb`. -/
structure GriesingerReverb (α : Type) where
  sample_rate_ : α
  decay_ : α
  damping_hz_ : α
  mix_ : α
  width_ : α
  in_diff_l_ : Allpass α 1024
  in_diff_r_ : Allpass α 1024
  comb_l_ : Fin 4 → Comb α 8192
  comb_r_ : Fin 4 → Comb α 8192
  ap_l_ : Fin 2 → Allpass α 2048
  ap_r_ : Fin 2 → Allpass α 2048
  prev_l_ : α
  prev_r_ : α

/-- The table `comb_l_delays` of `GriesingerReverb::Init`. -/
def comb_l_delays : Fin 4 → Nat := ![1557, 1617, 1491, 1422]

/-- The table `comb_r_delays` of `GriesingerReverb::Init`. -/
def comb_r_delays : Fin 4 → Nat := ![1277, 1356, 1188, 1116]

/-- The table `ap_l_delays` of `GriesingerReverb::Init`. -/
def ap_l_delays : Fin 2 → Nat := ![225, 556]

/-- The table `ap_r_delays` of `GriesingerReverb::Init`. -/
def ap_r_delays : Fin 2 → Nat := ![341, 441]

namespace GriesingerReverb
variable {α : Type} [LinearOrderedField α]

/-- Member function `GriesingerReverb::SetDecay`.  The loop over `i < 4`
updates each comb of both banks once. -/
def SetDecay (s : GriesingerReverb α) (decay : α) : GriesingerReverb α :=
  let decay_ := fclamp decay 0.1 0.98
  { s with
    decay_ := decay_
    comb_l_ := fun i => (s.comb_l_ i).SetFeedback decay_
    comb_r_ := fun i => (s.comb_r_ i).SetFeedback decay_ }

/-- Member function `GriesingerReverb::SetDamping`. -/
def SetDamping (m : Daisysp α) (s : GriesingerReverb α) (hz : α) : GriesingerReverb α :=
  let damping_hz_ := fclamp hz 800 12000
  { s with
    damping_hz_ := damping_hz_
    comb_l_ := fun i => (s.comb_l_ i).SetDamping m damping_hz_
    comb_r_ := fun i => (s.comb_r_ i).SetDamping m damping_hz_ }

/-- Member function `GriesingerReverb::SetMix`. -/
def SetMix (s : GriesingerReverb α) (mix : α) : GriesingerReverb α :=
  { s with mix_ := fclamp mix 0 1 }

/-- Member function `GriesingerReverb::SetWidth`. -/
def SetWidth (s : GriesingerReverb α) (width : α) : GriesingerReverb α :=
  { s with width_ := fclamp width 0 1 }

/-- Member function `GriesingerReverb::Init`.  The two loops initialise each
comb and each tail allpass once; `prev_l_` and `prev_r_` are not assigned. -/
def Init (m : Daisysp α) (s : GriesingerReverb α) (sample_rate : α) : GriesingerReverb α :=
  let s1 : GriesingerReverb α :=
    { s with
      sample_rate_ := sample_rate
      in_diff_l_ := ((s.in_diff_l_.Init).SetDelay 113).SetGain 0.65
      in_diff_r_ := ((s.in_diff_r_.Init).SetDelay 149).SetGain 0.65
      comb_l_ := fun i => ((s.comb_l_ i).Init m sample_rate).SetDelay (comb_l_delays i)
      comb_r_ := fun i => ((s.comb_r_ i).Init m sample_rate).SetDelay (comb_r_delays i)
      ap_l_ := fun i => (((s.ap_l_ i).Init).SetDelay (ap_l_delays i)).SetGain 0.7
      ap_r_ := fun i => (((s.ap_r_ i).Init).SetDelay (ap_r_delays i)).SetGain 0.7 }
  (((s1.SetDecay 0.82).SetDamping m 4800).SetMix 0.35).SetWidth 1.0

/-- Lines 204-222 of `GriesingerReverb::Process`: mono sum, cross-fed input
diffusers, comb banks and tail allpasses.  Returns the object with its filters
advanced and the pre-width `wet_l`, `wet_r`. -/
def tank {α : Type} [Zero α] [Add α] [Mul α] [Neg α] [OfScientific α]
    (s : GriesingerReverb α) (in_l in_r : α) : GriesingerReverb α × α × α :=
  let mono := 0.5 * (in_l + in_r)
  let dl := s.in_diff_l_.Process (mono + 0.2 * s.prev_r_)
  let dr := s.in_diff_r_.Process (mono + 0.2 * s.prev_l_)
  let cl := fun i => (s.comb_l_ i).Process dl.2
  let cr := fun i => (s.comb_r_ i).Process dr.2
  let comb_sum_l := (0 + (cl 0).2 + (cl 1).2 + (cl 2).2 + (cl 3).2) * 0.25
  let comb_sum_r := (0 + (cr 0).2 + (cr 1).2 + (cr 2).2 + (cr 3).2) * 0.25
  let al0 := (s.ap_l_ 0).Process comb_sum_l
  let al1 := (s.ap_l_ 1).Process al0.2
  let ar0 := (s.ap_r_ 0).Process comb_sum_r
  let ar1 := (s.ap_r_ 1).Process ar0.2
  ({ s with
      in_diff_l_ := dl.1
      in_diff_r_ := dr.1
      comb_l_ := fun i => (cl i).1
      comb_r_ := fun i => (cr i).1
      ap_l_ := ![al0.1, al1.1]
      ap_r_ := ![ar0.1, ar1.1] },
    al1.2, ar1.2)

/-- The mid/side width stage (lines 224-227): the post-width `wet_l`, `wet_r`. -/
def widen {α : Type} [Add α] [Sub α] [Mul α] [OfScientific α] (width wet_l wet_r : α) : α × α :=
  let mid := 0.5 * (wet_l + wet_r)
  let side := 0.5 * (wet_l - wet_r) * width
  (mid + side, mid - side)

/-- Member function `GriesingerReverb::Process`: the new state and `(out_l, out_r)`. -/
def Process {α : Type} [Zero α] [One α] [Add α] [Sub α] [Mul α] [Neg α] [OfScientific α]
    (s : GriesingerReverb α) (in_l in_r : α) : GriesingerReverb α × α × α :=
  let t := s.tank in_l in_r
  let w := widen s.width_ t.2.1 t.2.2
  let out_l := (1 - s.mix_) * in_l + s.mix_ * w.1
  let out_r := (1 - s.mix_) * in_r + s.mix_ * w.2
  ({ t.1 with prev_l_ := w.1, prev_r_ := w.2 }, out_l, out_r)

/-- The sample loop of `AudioCallback` (`main.cpp`): `Process` on each input
pair in order; returns the final state and the output pairs. -/
def ProcessBlock {α : Type} [Zero α] [One α] [Add α] [Sub α] [Mul α] [Neg α] [OfScientific α]
    (s : GriesingerReverb α) : List (α × α) → GriesingerReverb α × List (α × α)
  | [] => (s, [])
  | x :: xs =>
    let r := s.Process x.1 x.2
    let rest := ProcessBlock r.1 xs
    (rest.1, r.2 :: rest.2)

end GriesingerReverb

/-- One call of the public interface after `Init`. -/
inductive Call (α : Type) where
  | SetDecay (decay : α)
  | SetDamping (hz : α)
  | SetMix (mix : α)
  | SetWidth (width : α)
  | Process (in_l in_r : α)

namespace GriesingerReverb
variable {α : Type} [LinearOrderedField α]

/-- The state after one call. -/
def call (m : Daisysp α) (s : GriesingerReverb α) : Call α → GriesingerReverb α
  | .SetDecay v => s.SetDecay v
  | .SetDamping v => s.SetDamping m v
  | .SetMix v => s.SetMix v
  | .SetWidth v => s.SetWidth v
  | .Process l r => (s.Process l r).1

/-- The state after a sequence of calls, first call first. -/
def calls (m : Daisysp α) (s : GriesingerReverb α) : List (Call α) → GriesingerReverb α
  | [] => s
  | c :: cs => calls m (call m s c) cs

end GriesingerReverb

/-! ## Freshly constructed objects and concrete states -/

/-- A freshly constructed `DelayLine`: the default member initialisers, on the
zero-initialised storage of a namespace-scope object such as `reverb` in
`main.cpp`. -/
def DelayLine.fresh {α : Type} [Zero α] {max_size : Nat} : DelayLine α max_size :=
  { buffer_ := fun _ => 0, write_index_ := 0, delay_ := 1 }

/-- A freshly constructed `Comb`. -/
def Comb.fresh {α : Type} [LinearOrderedField α] {max_size : Nat} : Comb α max_size :=
  { delay_ := DelayLine.fresh, damping_ := OnePoleLP.fresh, feedback_ := 0.75 }

/-- A freshly constructed `Allpass`. -/
def Allpass.fresh {α : Type} [LinearOrderedField α] {max_size : Nat} : Allpass α max_size :=
  { delay_ := DelayLine.fresh, gain_ := 0.7 }

/-- A freshly constructed `GriesingerReverb`. -/
def GriesingerReverb.fresh {α : Type} [LinearOrderedField α] : GriesingerReverb α :=
  { sample_rate_ := 48000
    decay_ := 0.82
    damping_hz_ := 4800
    mix_ := 0.35
    width_ := 1.0
    in_diff_l_ := Allpass.fresh
    in_diff_r_ := Allpass.fresh
    comb_l_ := fun _ => Comb.fresh
    comb_r_ := fun _ => Comb.fresh
    ap_l_ := fun _ => Allpass.fresh
    ap_r_ := fun _ => Allpass.fresh
    prev_l_ := 0
    prev_r_ := 0 }

/-- A rational stand-in for the external library, used only to build concrete
states over `ℚ`: `1 / (1 - x)` in place of `expf x`, `355 / 113` for `PI_F`. -/
def exampleLib : Daisysp ℚ :=
  { expf := fun x => 1 / (1 - x), PI_F := 355 / 113 }

/-- A concrete delay line of capacity 4 over `ℚ` with arbitrary contents. -/
def exampleLine : DelayLine ℚ 4 :=
  { buffer_ := ![7, 8, 9, 10], write_index_ := 3, delay_ := 1 }

/-- A concrete network over `ℚ`: fresh, then `Init(48000)`. -/
def exampleReverb : GriesingerReverb ℚ :=
  GriesingerReverb.fresh.Init exampleLib 48000

/-! ## Specification-level notions -/

/-- The clamp of the spec's setter table, in the spec's words: a value below the
range is mapped to the lower bound, a value above it to the upper bound, and a
value inside the range is kept. -/
def clampTo {α : Type} [LinearOrderedField α] (lo hi v : α) : α :=
  if v < lo then lo else if hi < v then hi else v

/-- The clamp of a delay length to `[lo, hi]`, in the spec's words. -/
def clampNat (lo hi n : Nat) : Nat :=
  if n < lo then lo else if hi < n then hi else n

/-- The spec's stability invariant of a network state: every comb feedback
gain equals the stored decay, the decay lies in `[0.10, 0.98]`, and every comb
feedback gain is below 1 in magnitude. -/
def CombFeedbackStable {α : Type} [LinearOrderedField α] (s : GriesingerReverb α) : Prop :=
  (∀ i, (s.comb_l_ i).feedback_ = s.decay_) ∧
    (∀ i, (s.comb_r_ i).feedback_ = s.decay_) ∧
    0.1 ≤ s.decay_ ∧ s.decay_ ≤ 0.98 ∧
    (∀ i, |(s.comb_l_ i).feedback_| < 1) ∧ ∀ i, |(s.comb_r_ i).feedback_| < 1

/-- One call of the interface of `DelayLine` after `Init`. -/
inductive DelayCall (α : Type) where
  | SetDelay (delay_samples : Nat)
  | Read
  | Write (x : α)

/-- The delay line after one call (`Read` is `const`). -/
def DelayLine.call {α : Type} [Zero α] {max_size : Nat} (d : DelayLine α max_size) :
    DelayCall α → DelayLine α max_size
  | .SetDelay n => d.SetDelay n
  | .Read => d
  | .Write x => d.Write x

/-- The delay line after a sequence of calls, first call first. -/
def DelayLine.calls {α : Type} [Zero α] {max_size : Nat} (d : DelayLine α max_size) :
    List (DelayCall α) → DelayLine α max_size
  | [] => d
  | c :: cs => DelayLine.calls (d.call c) cs

/-- Bounds safety of a delay-line state: the cursor used by `Write` is inside
the array, the sum `write_index_ + max_size` does not wrap, the subtraction of
`delay_` from it does not go below zero, and the index computed by `Read` is
the unwrapped `(write_index_ + max_size - delay_) % max_size`, inside the
array. -/
def DelayLine.BoundsSafe {α : Type} [Zero α] {max_size : Nat} (d : DelayLine α max_size) :
    Prop :=
  d.write_index_ < max_size ∧
    uadd d.write_index_ max_size = d.write_index_ + max_size ∧
    d.delay_ ≤ uadd d.write_index_ max_size ∧
    d.read_index = (d.write_index_ + max_size - d.delay_) % max_size ∧
    d.read_index < max_size

/-- The invariant of a delay-line state: cursor inside the array and
`1 ≤ delay_ ≤ max_size - 1`. -/
def DelayLine.Valid {α : Type} [Zero α] {max_size : Nat} (d : DelayLine α max_size) : Prop :=
  d.write_index_ < max_size ∧ 1 ≤ d.delay_ ∧ d.delay_ ≤ max_size - 1

/-- A comb of the network during the first ticks after `Init`: silent damping
filter, cursor at tick `k`, delay `D`, and nothing written at or above the
cursor yet. -/
def CombQuiet {α : Type} [LinearOrderedField α] (k D : Nat) (c : Comb α 8192) : Prop :=
  c.damping_.z_ = 0 ∧ c.delay_.write_index_ = k ∧ c.delay_.delay_ = D ∧
    ∀ j : Fin 8192, k ≤ j.val → c.delay_.buffer_ j = 0

/-- An allpass whose delay buffer holds only zeros. -/
def AllpassSilent {α : Type} [LinearOrderedField α] {max_size : Nat}
    (p : Allpass α max_size) : Prop :=
  ∀ j, p.delay_.buffer_ j = 0

/-- The network `k` ticks after `Init`, while no comb has delivered a written
sample yet: zero cross-feedback values, quiet combs, silent tail allpasses. -/
def Quiet {α : Type} [LinearOrderedField α] (k : Nat) (s : GriesingerReverb α) : Prop :=
  s.prev_l_ = 0 ∧ s.prev_r_ = 0 ∧
    (∀ i, CombQuiet k (comb_l_delays i) (s.comb_l_ i)) ∧
    (∀ i, CombQuiet k (comb_r_delays i) (s.comb_r_ i)) ∧
    (∀ i, AllpassSilent (s.ap_l_ i)) ∧ ∀ i, AllpassSilent (s.ap_r_ i)

/-- The network of `main.cpp` at the moment of a second `Init`: fresh,
`Init(48000)`, then 1117 calls `Process(1, 1)`. -/
def staleReverb : GriesingerReverb ℚ :=
  exampleReverb.calls exampleLib (List.replicate 1117 (Call.Process 1 1))

/-- The reference topology of the spec's initialisation steps 2-5, as a
property of a network state: diffuser delays 113 / 149 with gain 0.65, the
comb delays of both banks, the tail delays with gain 0.7, each delay inside
`[1, capacity - 1]` of its line (so that clamping keeps it), and the default
parameters with every comb feedback equal to the decay 0.82. -/
def ReferenceTopology {α : Type} [LinearOrderedField α] (t : GriesingerReverb α) : Prop :=
  (t.in_diff_l_.delay_.delay_ = 113 ∧ t.in_diff_r_.delay_.delay_ = 149 ∧
      t.in_diff_l_.gain_ = 0.65 ∧ t.in_diff_r_.gain_ = 0.65) ∧
    ((t.comb_l_ 0).delay_.delay_ = 1557 ∧ (t.comb_l_ 1).delay_.delay_ = 1617 ∧
      (t.comb_l_ 2).delay_.delay_ = 1491 ∧ (t.comb_l_ 3).delay_.delay_ = 1422) ∧
    ((t.comb_r_ 0).delay_.delay_ = 1277 ∧ (t.comb_r_ 1).delay_.delay_ = 1356 ∧
      (t.comb_r_ 2).delay_.delay_ = 1188 ∧ (t.comb_r_ 3).delay_.delay_ = 1116) ∧
    ((t.ap_l_ 0).delay_.delay_ = 225 ∧ (t.ap_l_ 1).delay_.delay_ = 556 ∧
      (t.ap_r_ 0).delay_.delay_ = 341 ∧ (t.ap_r_ 1).delay_.delay_ = 441 ∧
      (∀ i, (t.ap_l_ i).gain_ = 0.7) ∧ ∀ i, (t.ap_r_ i).gain_ = 0.7) ∧
    (clampNat 1 (1024 - 1) 113 = 113 ∧ clampNat 1 (1024 - 1) 149 = 149 ∧
      (∀ i, clampNat 1 (8192 - 1) (comb_l_delays i) = comb_l_delays i) ∧
      (∀ i, clampNat 1 (8192 - 1) (comb_r_delays i) = comb_r_delays i) ∧
      (∀ i, clampNat 1 (2048 - 1) (ap_l_delays i) = ap_l_delays i) ∧
      ∀ i, clampNat 1 (2048 - 1) (ap_r_delays i) = ap_r_delays i) ∧
    (t.decay_ = 0.82 ∧ t.damping_hz_ = 4800 ∧ t.mix_ = 0.35 ∧ t.width_ = 1.0) ∧
    (∀ i, (t.comb_l_ i).feedback_ = 0.82) ∧ ∀ i, (t.comb_r_ i).feedback_ = 0.82

/-- What no setter touches (the frame of all four setters): the sample rate,
both input diffusers and all tail allpasses (buffers, cursors, delays, gains),
`prev_l_`, `prev_r_`, and of every comb the delay line (buffer, cursor, delay),
the damping accumulator `z_` and the damping filter's sample rate. -/
def SetterFrame {α : Type} [LinearOrderedField α] (s t : GriesingerReverb α) : Prop :=
  t.sample_rate_ = s.sample_rate_ ∧ t.in_diff_l_ = s.in_diff_l_ ∧ t.in_diff_r_ = s.in_diff_r_ ∧
    t.ap_l_ = s.ap_l_ ∧ t.ap_r_ = s.ap_r_ ∧ t.prev_l_ = s.prev_l_ ∧ t.prev_r_ = s.prev_r_ ∧
    (∀ i, (t.comb_l_ i).delay_ = (s.comb_l_ i).delay_ ∧
      (t.comb_l_ i).damping_.z_ = (s.comb_l_ i).damping_.z_ ∧
      (t.comb_l_ i).damping_.sample_rate_ = (s.comb_l_ i).damping_.sample_rate_) ∧
    ∀ i, (t.comb_r_ i).delay_ = (s.comb_r_ i).delay_ ∧
      (t.comb_r_ i).damping_.z_ = (s.comb_r_ i).damping_.z_ ∧
      (t.comb_r_ i).damping_.sample_rate_ = (s.comb_r_ i).damping_.sample_rate_

/-- A comb at rest: zero delay buffer and zero damping accumulator. -/
def CombSilent {α : Type} [LinearOrderedField α] {max_size : Nat} (c : Comb α max_size) : Prop :=
  (∀ j, c.delay_.buffer_ j = 0) ∧ c.damping_.z_ = 0

/-- A network at rest: every delay buffer, every damping accumulator and both
cross-feedback values are zero. -/
def Silent {α : Type} [LinearOrderedField α] (s : GriesingerReverb α) : Prop :=
  s.prev_l_ = 0 ∧ s.prev_r_ = 0 ∧ AllpassSilent s.in_diff_l_ ∧ AllpassSilent s.in_diff_r_ ∧
    (∀ i, CombSilent (s.comb_l_ i)) ∧ (∀ i, CombSilent (s.comb_r_ i)) ∧
    (∀ i, AllpassSilent (s.ap_l_ i)) ∧ ∀ i, AllpassSilent (s.ap_r_ i)

/-- A call that feeds no signal: one of the four setters, or `Process(0, 0)`. -/
inductive RestCall (α : Type) where
  | SetDecay (decay : α)
  | SetDamping (hz : α)
  | SetMix (mix : α)
  | SetWidth (width : α)
  | ProcessZero

/-- The interface call a `RestCall` stands for. -/
def RestCall.toCall {α : Type} [LinearOrderedField α] : RestCall α → Call α
  | .SetDecay v => .SetDecay v
  | .SetDamping v => .SetDamping v
  | .SetMix v => .SetMix v
  | .SetWidth v => .SetWidth v
  | .ProcessZero => .Process 0 0

/-- Number of samples a call consumes: 1 for `Process`, 0 for a setter. -/
def Call.tick {α : Type} : Call α → Nat
  | .Process _ _ => 1
  | _ => 0

/-- Number of `Process` calls in a sequence of calls. -/
def ticks {α : Type} : List (Call α) → Nat
  | [] => 0
  | c :: cs => c.tick + ticks cs

/-- The output pairs of the `Process` calls in a sequence of calls, in order. -/
def GriesingerReverb.outputs {α : Type} [LinearOrderedField α] (m : Daisysp α)
    (s : GriesingerReverb α) : List (Call α) → List (α × α)
  | [] => []
  | .Process l r :: cs => (s.Process l r).2 :: outputs m (s.Process l r).1 cs
  | .SetDecay v :: cs => outputs m (s.SetDecay v) cs
  | .SetDamping v :: cs => outputs m (s.SetDamping m v) cs
  | .SetMix v :: cs => outputs m (s.SetMix v) cs
  | .SetWidth v :: cs => outputs m (s.SetWidth v) cs

/-! ## Runs of a single filter on an input sequence -/

/-- The comb before tick `t` of a run on the input sequence `x`: `Process` has
been called on `x 0`, ..., `x (t - 1)`. -/
def Comb.stateAt {α : Type} [LinearOrderedField α] {max_size : Nat} (c : Comb α max_size)
    (x : Nat → α) : Nat → Comb α max_size
  | 0 => c
  | t + 1 => ((Comb.stateAt c x t).Process (x t)).1

/-- The value `Comb::Process` returns at tick `t` of the run. -/
def Comb.outAt {α : Type} [LinearOrderedField α] {max_size : Nat} (c : Comb α max_size)
    (x : Nat → α) (t : Nat) : α :=
  ((c.stateAt x t).Process (x t)).2

/-- The value `filtered` of `Comb::Process` at tick `t` of the run: what the
damping filter returns there. -/
def Comb.dampAt {α : Type} [LinearOrderedField α] {max_size : Nat} (c : Comb α max_size)
    (x : Nat → α) (t : Nat) : α :=
  ((c.stateAt x t).damping_.Process (c.stateAt x t).delay_.Read).2

/-- The allpass before tick `t` of a run on the input sequence `x`. -/
def Allpass.stateAt {α : Type} [LinearOrderedField α] {max_size : Nat}
    (p : Allpass α max_size) (x : Nat → α) : Nat → Allpass α max_size
  | 0 => p
  | t + 1 => ((Allpass.stateAt p x t).Process (x t)).1

/-- The value `Allpass::Process` returns at tick `t` of the run. -/
def Allpass.outAt {α : Type} [LinearOrderedField α] {max_size : Nat}
    (p : Allpass α max_size) (x : Nat → α) (t : Nat) : α :=
  ((p.stateAt x t).Process (x t)).2

/-- A delay line that was initialised and has since been written `T` times,
the `t`-th written value being `w t`: the cursor is `T % max_size`, the last
`max_size` written values are in place, and the entries not written yet are
still zero. -/
def DelayLine.Tracks {α : Type} [Zero α] {max_size : Nat} (d : DelayLine α max_size)
    (w : Nat → α) (T : Nat) : Prop :=
  d.write_index_ = T % max_size ∧
    (∀ t, t < T → T ≤ t + max_size → bufAt d.buffer_ (t % max_size) = w t) ∧
    ∀ j, T ≤ j → j < max_size → bufAt d.buffer_ j = 0

/-- A concrete comb of capacity 4 over `ℚ`: fresh, `Init(48000)`,
`SetDelay(2)`, `SetFeedback(1/2)`, `SetDamping(1000)`. -/
def exampleComb : Comb ℚ 4 :=
  (((((Comb.fresh : Comb ℚ 4)).Init exampleLib 48000).SetDelay 2).SetFeedback
    (1 / 2)).SetDamping exampleLib 1000

/-- A concrete allpass of capacity 4 over `ℚ`: fresh, `Init()`, `SetDelay(2)`,
`SetGain(1/2)`. -/
def exampleAllpass : Allpass ℚ 4 :=
  ((((Allpass.fresh : Allpass ℚ 4)).Init).SetDelay 2).SetGain (1 / 2)

/-- A concrete input sequence: the ramp 1, 2, 3, ... -/
def exampleRamp : Nat → ℚ := fun t => (t : ℚ) + 1

/-- The coefficient invariant of a one-pole filter: `0 ≤ a < 1`, `b = 1 - a`,
hence `0 < b ≤ 1` and `a + b = 1`. -/
def OnePoleLP.CoeffOK {α : Type} [LinearOrderedField α] (f : OnePoleLP α) : Prop :=
  0 ≤ f.a_ ∧ f.a_ < 1 ∧ f.b_ = 1 - f.a_ ∧ 0 < f.b_ ∧ f.b_ ≤ 1 ∧ f.a_ + f.b_ = 1

/-- Modelled from the spec: the external `expf` (`<cmath>`) and `PI_F`
(`daisysp.h`) are the real exponential and `π`, as in the spec's formula
`a = exp(-2π·cutoff/sampleRate)`. -/
def Daisysp.IsReal (m : Daisysp ℝ) : Prop :=
  m.expf = Real.exp ∧ m.PI_F = Real.pi

/-- The damping filters of all 8 combs satisfy the coefficient invariant and
have a positive sample rate. -/
def DampingOK {α : Type} [LinearOrderedField α] (s : GriesingerReverb α) : Prop :=
  (∀ i, (s.comb_l_ i).damping_.CoeffOK ∧ 0 < (s.comb_l_ i).damping_.sample_rate_) ∧
    ∀ i, (s.comb_r_ i).damping_.CoeffOK ∧ 0 < (s.comb_r_ i).damping_.sample_rate_

/-- A network state that hums at level `c`: both cross-feedback values are
`c`, every comb holds `c` in its whole delay buffer and in its damping
accumulator, every diffuser buffer holds `0.2·c·(1 + gain)` and every tail
allpass buffer `c·(1 + gain)`, with comb feedback 0.8 and `b = 1 - a` in every
damping filter. -/
def Humming {α : Type} [LinearOrderedField α] (c : α) (s : GriesingerReverb α) : Prop :=
  s.prev_l_ = c ∧ s.prev_r_ = c ∧
    (∀ j, s.in_diff_l_.delay_.buffer_ j = 0.2 * c * (1 + s.in_diff_l_.gain_)) ∧
    (∀ j, s.in_diff_r_.delay_.buffer_ j = 0.2 * c * (1 + s.in_diff_r_.gain_)) ∧
    (∀ i, (∀ j, (s.comb_l_ i).delay_.buffer_ j = c) ∧ (s.comb_l_ i).damping_.z_ = c ∧
      (s.comb_l_ i).feedback_ = 0.8 ∧
      (s.comb_l_ i).damping_.b_ = 1 - (s.comb_l_ i).damping_.a_) ∧
    (∀ i, (∀ j, (s.comb_r_ i).delay_.buffer_ j = c) ∧ (s.comb_r_ i).damping_.z_ = c ∧
      (s.comb_r_ i).feedback_ = 0.8 ∧
      (s.comb_r_ i).damping_.b_ = 1 - (s.comb_r_ i).damping_.a_) ∧
    (∀ i j, (s.ap_l_ i).delay_.buffer_ j = c * (1 + (s.ap_l_ i).gain_)) ∧
    ∀ i j, (s.ap_r_ i).delay_.buffer_ j = c * (1 + (s.ap_r_ i).gain_)

/-- The same delay line with every buffer entry set to `v`. -/
def DelayLine.filled {α : Type} {max_size : Nat} (d : DelayLine α max_size) (v : α) :
    DelayLine α max_size :=
  { d with buffer_ := fun _ => v }

/-- A concrete humming state over `ℚ`: the network after `Init(48000)` and
`SetDecay(0.8)` (all parameters, gains, delay lengths and cursors as the
interface leaves them), with the buffers, damping accumulators and
cross-feedback values at the hum level 1. -/
def humReverb : GriesingerReverb ℚ :=
  { exampleReverb.SetDecay (4 / 5) with
    in_diff_l_ :=
      { (exampleReverb.SetDecay (4 / 5)).in_diff_l_ with
        delay_ := (exampleReverb.SetDecay (4 / 5)).in_diff_l_.delay_.filled (33 / 100) }
    in_diff_r_ :=
      { (exampleReverb.SetDecay (4 / 5)).in_diff_r_ with
        delay_ := (exampleReverb.SetDecay (4 / 5)).in_diff_r_.delay_.filled (33 / 100) }
    comb_l_ := fun i =>
      { (exampleReverb.SetDecay (4 / 5)).comb_l_ i with
        delay_ := ((exampleReverb.SetDecay (4 / 5)).comb_l_ i).delay_.filled 1
        damping_ := { ((exampleReverb.SetDecay (4 / 5)).comb_l_ i).damping_ with z_ := 1 } }
    comb_r_ := fun i =>
      { (exampleReverb.SetDecay (4 / 5)).comb_r_ i with
        delay_ := ((exampleReverb.SetDecay (4 / 5)).comb_r_ i).delay_.filled 1
        damping_ := { ((exampleReverb.SetDecay (4 / 5)).comb_r_ i).damping_ with z_ := 1 } }
    ap_l_ := fun i =>
      { (exampleReverb.SetDecay (4 / 5)).ap_l_ i with
        delay_ := ((exampleReverb.SetDecay (4 / 5)).ap_l_ i).delay_.filled (17 / 10) }
    ap_r_ := fun i =>
      { (exampleReverb.SetDecay (4 / 5)).ap_r_ i with
        delay_ := ((exampleReverb.SetDecay (4 / 5)).ap_r_ i).delay_.filled (17 / 10) }
    prev_l_ := 1
    prev_r_ := 1 }

/-! ## Runs of the network and decay of sequences -/

/-- The network before tick `t` of a run on the input sequence `u`: `Process`
has been called on `u 0`, ..., `u (t - 1)`. -/
def GriesingerReverb.stateAt {α : Type} [LinearOrderedField α] (s : GriesingerReverb α)
    (u : Nat → α × α) : Nat → GriesingerReverb α
  | 0 => s
  | t + 1 => ((GriesingerReverb.stateAt s u t).Process (u t).1 (u t).2).1

/-- The output pair of `Process` at tick `t` of the run. -/
def GriesingerReverb.outputAt {α : Type} [LinearOrderedField α] (s : GriesingerReverb α)
    (u : Nat → α × α) (t : Nat) : α × α :=
  ((s.stateAt u t).Process (u t).1 (u t).2).2

/-- The sequence `f` tends to zero. -/
def TendsToZero {α : Type} [LinearOrderedField α] (f : Nat → α) : Prop :=
  ∀ ε, 0 < ε → ∃ N, ∀ n, N ≤ n → |f n| < ε

/-- The sum of the first `T` values of a sequence. -/
def psum {α : Type} [LinearOrderedField α] (f : Nat → α) (T : Nat) : α :=
  (Finset.range T).sum f

/-- The sum of the last `n` of the first `T` values of a sequence (of all of
them when `T < n`). -/
def wsum {α : Type} [LinearOrderedField α] (f : Nat → α) (n T : Nat) : α :=
  psum f T - psum f (T - n)

/-- The sequence `f` delayed by `n` ticks, zero before. -/
def delayed {α : Type} [LinearOrderedField α] (f : Nat → α) (n : Nat) : Nat → α :=
  fun t => if t < n then 0 else f (t - n)

/-- The unit impulse on both channels: `(1, 1)` at tick 0, silence after. -/
def impulse : Nat → ℚ × ℚ := fun t => if t = 0 then (1, 1) else (0, 0)

/-- A delay line as `Init` and `SetDelay(n)` leave it, for a delay `n` that the
clamp keeps: cursor 0, delay `n`, zero buffer (with the size conditions under
which the index arithmetic does not wrap). -/
def DelayLine.AtRest {α : Type} [Zero α] {max_size : Nat} (n : Nat)
    (d : DelayLine α max_size) : Prop :=
  d.write_index_ = 0 ∧ d.delay_ = n ∧ (∀ j, d.buffer_ j = 0) ∧
    1 ≤ n ∧ n ≤ max_size - 1 ∧ 2 * max_size ≤ SIZE_MOD

/-- The value `Allpass::Process` writes into its delay line at tick `t`. -/
def Allpass.wrAt {α : Type} [LinearOrderedField α] {max_size : Nat}
    (p : Allpass α max_size) (x : Nat → α) (t : Nat) : α :=
  x t + p.gain_ * p.outAt x t

/-- The value `Comb::Process` writes into its delay line at tick `t`. -/
def Comb.wrAt {α : Type} [LinearOrderedField α] {max_size : Nat}
    (c : Comb α max_size) (x : Nat → α) (t : Nat) : α :=
  x t + c.dampAt x t * c.feedback_

namespace GriesingerReverb
variable {α : Type} [LinearOrderedField α]

/-- Input of the left input diffuser at tick `t` of a run. -/
def xlAt (s : GriesingerReverb α) (u : Nat → α × α) (t : Nat) : α :=
  0.5 * ((u t).1 + (u t).2) + 0.2 * (s.stateAt u t).prev_r_

/-- Input of the right input diffuser at tick `t` of a run. -/
def xrAt (s : GriesingerReverb α) (u : Nat → α × α) (t : Nat) : α :=
  0.5 * ((u t).1 + (u t).2) + 0.2 * (s.stateAt u t).prev_l_

/-- The local `diff_l` at tick `t` of a run. -/
def dlAt (s : GriesingerReverb α) (u : Nat → α × α) : Nat → α :=
  s.in_diff_l_.outAt (s.xlAt u)

/-- The local `diff_r` at tick `t` of a run. -/
def drAt (s : GriesingerReverb α) (u : Nat → α × α) : Nat → α :=
  s.in_diff_r_.outAt (s.xrAt u)

/-- Output of the left comb `i` at tick `t` of a run. -/
def clAt (s : GriesingerReverb α) (u : Nat → α × α) (i : Fin 4) : Nat → α :=
  (s.comb_l_ i).outAt (s.dlAt u)

/-- Output of the right comb `i` at tick `t` of a run. -/
def crAt (s : GriesingerReverb α) (u : Nat → α × α) (i : Fin 4) : Nat → α :=
  (s.comb_r_ i).outAt (s.drAt u)

/-- The local `comb_sum_l` (after scaling) at tick `t` of a run. -/
def cslAt (s : GriesingerReverb α) (u : Nat → α × α) (t : Nat) : α :=
  (0 + s.clAt u 0 t + s.clAt u 1 t + s.clAt u 2 t + s.clAt u 3 t) * 0.25

/-- The local `comb_sum_r` (after scaling) at tick `t` of a run. -/
def csrAt (s : GriesingerReverb α) (u : Nat → α × α) (t : Nat) : α :=
  (0 + s.crAt u 0 t + s.crAt u 1 t + s.crAt u 2 t + s.crAt u 3 t) * 0.25

/-- Output of the first left tail allpass at tick `t` of a run. -/
def tlAt (s : GriesingerReverb α) (u : Nat → α × α) : Nat → α :=
  (s.ap_l_ 0).outAt (s.cslAt u)

/-- Output of the first right tail allpass at tick `t` of a run. -/
def trAt (s : GriesingerReverb α) (u : Nat → α × α) : Nat → α :=
  (s.ap_r_ 0).outAt (s.csrAt u)

/-- The pre-width `wet_l` at tick `t` of a run. -/
def wetLAt (s : GriesingerReverb α) (u : Nat → α × α) : Nat → α :=
  (s.ap_l_ 1).outAt (s.tlAt u)

/-- The pre-width `wet_r` at tick `t` of a run. -/
def wetRAt (s : GriesingerReverb α) (u : Nat → α × α) : Nat → α :=
  (s.ap_r_ 1).outAt (s.trAt u)

end GriesingerReverb

/-- An allpass as `Init`, `SetDelay` and `SetGain` leave it, with a gain below
1 in magnitude. -/
def AllpassReady {α : Type} [LinearOrderedField α] {max_size : Nat}
    (p : Allpass α max_size) : Prop :=
  (∃ n, p.delay_.AtRest n) ∧ |p.gain_| < 1

/-- A comb as `Init`, `SetDelay` and the setters leave it when the decay is
0.8: delay line at rest, zero damping accumulator, `b = 1 - a` with
`0 ≤ a < 1`, feedback 0.8. -/
def CombReady {α : Type} [LinearOrderedField α] {max_size : Nat}
    (c : Comb α max_size) : Prop :=
  (∃ n, c.delay_.AtRest n) ∧ c.damping_.z_ = 0 ∧ c.damping_.b_ = 1 - c.damping_.a_ ∧
    0 ≤ c.damping_.a_ ∧ c.damping_.a_ < 1 ∧ c.feedback_ = 0.8

/-- A network as `Init` and the setters leave it when the decay is set to 0.8,
the width is 1 and the mix is not 0: every filter ready, no cross-feedback
yet. -/
def Primed {α : Type} [LinearOrderedField α] (s : GriesingerReverb α) : Prop :=
  s.width_ = 1 ∧ s.mix_ ≠ 0 ∧ s.prev_l_ = 0 ∧ s.prev_r_ = 0 ∧
    AllpassReady s.in_diff_l_ ∧ AllpassReady s.in_diff_r_ ∧
    (∀ i, AllpassReady (s.ap_l_ i)) ∧ (∀ i, AllpassReady (s.ap_r_ i)) ∧
    (∀ i, CombReady (s.comb_l_ i)) ∧ ∀ i, CombReady (s.comb_r_ i)

/-- The network of `main.cpp` after `Init(48000)` and `SetDecay(0.8)`. -/
def primedReverb : GriesingerReverb ℚ :=
  exampleReverb.SetDecay (4 / 5)

/-! ## binary32 arithmetic

The type `F32` models the C++ type `float` of the target, IEEE 754 binary32
with the default rounding: round to nearest, ties to even, with gradual
underflow, overflow to an infinity, and NaN.  Every operation is rounded once
(no fused multiply-add).  A finite value is carried as the rational number it
denotes.  The two zeros are one value: they compare equal, and through `+`,
`-` and `*` the sign of a zero decides nothing but the sign of a zero.  All
NaNs are one value. -/

/-- The values of a `float`: a finite value, `+inf`, `-inf` or NaN. -/
inductive F32 where
  | fin (q : ℚ)
  | pinf
  | ninf
  | nan
deriving DecidableEq

namespace F32

/-- Rounding of a rational to the nearest integer, ties to the even one. -/
def roundEven (m : ℚ) : ℤ :=
  if m - ⌊m⌋ < 1 / 2 then ⌊m⌋
  else if 1 / 2 < m - ⌊m⌋ then ⌊m⌋ + 1
  else if ⌊m⌋ % 2 = 0 then ⌊m⌋ else ⌊m⌋ + 1

/-- The binary exponent of `q` as a binary32 value: `⌊log2 |q|⌋`, but not below
`-126`, the exponent of the subnormal range. -/
def expo (q : ℚ) : ℤ := max (Int.log 2 |q|) (-126)

/-- The spacing of the binary32 values around `q`: 24 significant bits. -/
def ulp (q : ℚ) : ℚ := 2 ^ (expo q - 23)

/-- The binary32 result of an operation whose exact result is `q`: the nearest
multiple of `ulp q`, ties to even, and an infinity when that multiple reaches
`2^128` in magnitude. -/
def rnd (q : ℚ) : F32 :=
  let r := (roundEven (q / ulp q) : ℚ) * ulp q
  if 2 ^ 128 ≤ r then pinf else if r ≤ -2 ^ 128 then ninf else fin r

/-- Unary minus on `float`. -/
def neg : F32 → F32
  | fin a => fin (-a)
  | pinf => ninf
  | ninf => pinf
  | nan => nan

/-- The sum `x + y` on `float`; `inf + -inf` is NaN. -/
def add : F32 → F32 → F32
  | fin a, fin b => rnd (a + b)
  | fin _, pinf => pinf
  | fin _, ninf => ninf
  | pinf, fin _ => pinf
  | ninf, fin _ => ninf
  | pinf, pinf => pinf
  | ninf, ninf => ninf
  | pinf, ninf => nan
  | ninf, pinf => nan
  | nan, _ => nan
  | _, nan => nan

/-- The product `x * y` on `float`; `0 * inf` is NaN. -/
def mul : F32 → F32 → F32
  | fin a, fin b => rnd (a * b)
  | fin a, pinf => if 0 < a then pinf else if a < 0 then ninf else nan
  | fin a, ninf => if 0 < a then ninf else if a < 0 then pinf else nan
  | pinf, fin b => if 0 < b then pinf else if b < 0 then ninf else nan
  | ninf, fin b => if 0 < b then ninf else if b < 0 then pinf else nan
  | pinf, pinf => pinf
  | ninf, ninf => pinf
  | pinf, ninf => ninf
  | ninf, pinf => ninf
  | nan, _ => nan
  | _, nan => nan

instance : Zero F32 := ⟨fin 0⟩

instance : One F32 := ⟨fin 1⟩

instance : Neg F32 := ⟨neg⟩

instance : Add F32 := ⟨add⟩

instance : Sub F32 := ⟨fun a b => add a (neg b)⟩

instance : Mul F32 := ⟨mul⟩

/-- A decimal literal such as `0.65f` is the binary32 value nearest to it. -/
instance : OfScientific F32 := ⟨fun m s e => rnd (OfScientific.ofScientific m s e)⟩

/-- The rational `q` is a binary32 value: rounding leaves it unchanged. -/
def Exact (q : ℚ) : Prop := rnd q = fin q

/-- The value is what a `float` can hold: a finite value is a binary32 value;
the infinities and NaN are. -/
def IsValue : F32 → Prop
  | fin q => Exact q
  | _ => True

/-- The value is finite: neither an infinity nor NaN. -/
def IsFinite : F32 → Prop
  | fin _ => True
  | _ => False

/-- The comparison `x == y` of C++ on `float`: NaN compares unequal to
everything, itself included. -/
def feq (x y : F32) : Prop := x ≠ nan ∧ y ≠ nan ∧ x = y

end F32

/-! ## Concrete binary32 states -/

/-- A damping filter between calls, with the binary32 coefficients 0.5 and 0.5
standing in for `expf(...)` and `1 - expf(...)`. -/
def restDamping32 : OnePoleLP F32 :=
  { sample_rate_ := F32.fin 48000, a_ := 0.5, b_ := 0.5, z_ := 0 }

/-- The binary32 network as `Init(48000)` leaves a freshly constructed object:
the delay lengths, gains and parameters of `Init`, every buffer, accumulator
and `prev` value zero, every cursor 0.  The damping coefficients, which `Init`
takes from `expf`, are the stand-ins of `restDamping32`. -/
def restReverb32 : GriesingerReverb F32 :=
  { sample_rate_ := F32.fin 48000
    decay_ := 0.82
    damping_hz_ := F32.fin 4800
    mix_ := 0.35
    width_ := 1
    in_diff_l_ := { delay_ := DelayLine.fresh.SetDelay 113, gain_ := 0.65 }
    in_diff_r_ := { delay_ := DelayLine.fresh.SetDelay 149, gain_ := 0.65 }
    comb_l_ := fun i =>
      { delay_ := DelayLine.fresh.SetDelay (comb_l_delays i)
        damping_ := restDamping32
        feedback_ := 0.82 }
    comb_r_ := fun i =>
      { delay_ := DelayLine.fresh.SetDelay (comb_r_delays i)
        damping_ := restDamping32
        feedback_ := 0.82 }
    ap_l_ := fun i => { delay_ := DelayLine.fresh.SetDelay (ap_l_delays i), gain_ := 0.7 }
    ap_r_ := fun i => { delay_ := DelayLine.fresh.SetDelay (ap_r_delays i), gain_ := 0.7 }
    prev_l_ := 0
    prev_r_ := 0 }

/-- The network `restReverb32` with the given mix and width, in which the delay
buffers of the last tail allpasses `ap_l_[1]` and `ap_r_[1]` hold `wl` and `wr`
in every slot: the next call has the pre-width wet pair `(wl, wr)`. -/
def tailReverb32 (mix width wl wr : F32) : GriesingerReverb F32 :=
  { restReverb32 with
    mix_ := mix
    width_ := width
    ap_l_ := ![restReverb32.ap_l_ 0,
      { restReverb32.ap_l_ 1 with delay_ := (restReverb32.ap_l_ 1).delay_.filled wl }]
    ap_r_ := ![restReverb32.ap_r_ 0,
      { restReverb32.ap_r_ 1 with delay_ := (restReverb32.ap_r_ 1).delay_.filled wr }] }

/-- The network `restReverb32` with the given mix and width: the state after
`Init(48000)`, `SetMix(mix)` and `SetWidth(width)` for `mix`, `width` in
`[0, 1]`. -/
def startReverb32 (mix width : F32) : GriesingerReverb F32 :=
  { restReverb32 with mix_ := mix, width_ := width }

/-- A block of 1116 finite input pairs whose first pair `(2^127, 2^127)`
overflows the mono sum `in_l + in_r`; the other pairs are `(0, 0)`. -/
def overflowBlock : List (F32 × F32) :=
  (F32.fin (2 ^ 127), F32.fin (2 ^ 127)) :: List.replicate 1115 (0, 0)

/-- The network `startReverb32 mix width` after the block `overflowBlock`. -/
def overflowReverb32 (mix width : F32) : GriesingerReverb F32 :=
  ((startReverb32 mix width).ProcessBlock overflowBlock).1

/-- A comb of the binary32 network during the first ticks after `Init`: zero
damping accumulator, finite coefficients and feedback, cursor at tick `k`,
delay `D`, and nothing written at or above the cursor yet. -/
def CombQuiet32 (k D : Nat) (c : Comb F32 8192) : Prop :=
  c.damping_.z_ = 0 ∧ F32.IsFinite c.damping_.a_ ∧ F32.IsFinite c.damping_.b_ ∧
    F32.IsFinite c.feedback_ ∧ c.delay_.write_index_ = k ∧ c.delay_.delay_ = D ∧
    ∀ j : Fin 8192, k ≤ j.val → c.delay_.buffer_ j = 0

/-- A tail allpass of the binary32 network with gain `0.7f` whose delay buffer
holds only zeros. -/
def AllpassSilent32 (p : Allpass F32 2048) : Prop :=
  p.gain_ = 0.7 ∧ ∀ j, p.delay_.buffer_ j = 0

/-- The binary32 network `k` ticks after `Init`, while no comb has delivered a
written sample yet: finite width, zero cross-feedback values, quiet combs,
silent tail allpasses.  The input diffusers are not constrained. -/
def Quiet32 (k : Nat) (s : GriesingerReverb F32) : Prop :=
  F32.IsFinite s.width_ ∧ s.prev_l_ = 0 ∧ s.prev_r_ = 0 ∧
    (∀ i, CombQuiet32 k (comb_l_delays i) (s.comb_l_ i)) ∧
    (∀ i, CombQuiet32 k (comb_r_delays i) (s.comb_r_ i)) ∧
    (∀ i, AllpassSilent32 (s.ap_l_ i)) ∧ ∀ i, AllpassSilent32 (s.ap_r_ i)

/-- The left input diffuser as `Init` leaves it: gain `0.65f`, delay 113, empty
delay line. -/
def roundingAllpass32 : Allpass F32 1024 :=
  restReverb32.in_diff_l_

/-- An input diffuser after `SetGain(0.5f)` whose delay line holds 1 in every
slot. -/
def dyadicAllpass32 : Allpass F32 1024 :=
  { delay_ := restReverb32.in_diff_l_.delay_.filled 1, gain_ := 0.5 }

namespace GriesingerReverb

/-- Every call of the block has a finite post-width wet pair: the values
`Process` stores in `prev_l_` and `prev_r_` are finite after each call. -/
def WetFiniteAlong (s : GriesingerReverb F32) : List (F32 × F32) → Prop
  | [] => True
  | x :: xs =>
    F32.IsFinite (s.Process x.1 x.2).1.prev_l_ ∧ F32.IsFinite (s.Process x.1 x.2).1.prev_r_ ∧
      WetFiniteAlong (s.Process x.1 x.2).1 xs

end GriesingerReverb

/-! ## Lemmas on unsigned arithmetic and buffers -/

theorem uadd_eq {a b : Nat} (h : a + b < SIZE_MOD) : uadd a b = a + b := by
  unfold uadd
  exact Nat.mod_eq_of_lt h

theorem usub_eq {a b : Nat} (hb : b ≤ a) (ha : a < SIZE_MOD) : usub a b = a - b := by
  unfold usub SIZE_MOD at *
  omega

theorem bufAt_bufSet_same {α : Type} [Zero α] {n : Nat} (buf : Fin n → α) {i : Nat}
    (x : α) (h : i < n) : bufAt (bufSet buf i x) i = x := by
  simp [bufAt, bufSet, h]

theorem bufAt_bufSet_ne {α : Type} [Zero α] {n : Nat} (buf : Fin n → α) {i j : Nat}
    (x : α) (h : j ≠ i) : bufAt (bufSet buf i x) j = bufAt buf j := by
  unfold bufAt bufSet
  by_cases hj : j < n
  · simp [hj, h]
  · simp [hj]

theorem zeroFill_apply {α : Type} [Zero α] {n : Nat} (buf : Fin n → α) (k : Nat)
    (j : Fin n) : zeroFill buf k j = if j.val < k then 0 else buf j := by
  induction k with
  | zero => simp [zeroFill]
  | succ k ih =>
    simp only [zeroFill, bufSet, ih]
    by_cases h1 : j.val = k
    · simp [h1]
    · by_cases h2 : j.val < k
      · have : j.val < k + 1 := by omega
        simp [h1, h2, this]
      · have : ¬ j.val < k + 1 := by omega
        simp [h1, h2, this]

theorem zeroFill_full {α : Type} [Zero α] {n : Nat} (buf : Fin n → α) :
    zeroFill buf n = fun _ => 0 := by
  funext j
  simp [zeroFill_apply, j.isLt]

namespace DelayLine
variable {α : Type} [Zero α] {max_size : Nat}

omit [Zero α] in
theorem Write_write_index (d : DelayLine α max_size) (x : α)
    (hw : d.write_index_ < max_size) (hsz : max_size < SIZE_MOD) :
    (d.Write x).write_index_ = (d.write_index_ + 1) % max_size := by
  have h : d.write_index_ + 1 < SIZE_MOD := by omega
  simp [Write, uadd_eq h]

omit [Zero α] in
theorem Writes_delay (d : DelayLine α max_size) (ys : List α) :
    (d.Writes ys).delay_ = d.delay_ := by
  induction ys generalizing d with
  | nil => rfl
  | cons y ys ih => simp [Writes, ih, Write]

omit [Zero α] in
theorem Writes_write_index (d : DelayLine α max_size) (ys : List α)
    (hw : d.write_index_ < max_size) (hsz : max_size < SIZE_MOD) :
    (d.Writes ys).write_index_ = (d.write_index_ + ys.length) % max_size := by
  induction ys generalizing d with
  | nil => simp [Writes, Nat.mod_eq_of_lt hw]
  | cons y ys ih =>
    have h1 := Write_write_index d y hw hsz
    have h2 : (d.Write y).write_index_ < max_size := by
      rw [h1]; exact Nat.mod_lt _ (by omega)
    simp only [Writes, List.length_cons]
    rw [ih (d.Write y) h2, h1, Nat.mod_add_mod]
    congr 1
    omega

theorem Writes_buffer_other (d : DelayLine α max_size) (ys : List α) (j : Nat)
    (hw : d.write_index_ < max_size) (hsz : max_size < SIZE_MOD)
    (hj : ∀ k, k < ys.length → (d.write_index_ + k) % max_size ≠ j) :
    bufAt (d.Writes ys).buffer_ j = bufAt d.buffer_ j := by
  induction ys generalizing d with
  | nil => rfl
  | cons y ys ih =>
    have h1 := Write_write_index d y hw hsz
    have h2 : (d.Write y).write_index_ < max_size := by
      rw [h1]; exact Nat.mod_lt _ (by omega)
    simp only [Writes]
    rw [ih (d.Write y) h2]
    · have h0 := hj 0 (by simp)
      simp only [Nat.add_zero, Nat.mod_eq_of_lt hw] at h0
      exact bufAt_bufSet_ne _ _ (Ne.symm h0)
    · intro k hk
      rw [h1, Nat.mod_add_mod]
      have := hj (k + 1) (by simp; omega)
      rwa [show d.write_index_ + (k + 1) = d.write_index_ + 1 + k by omega] at this

end DelayLine

theorem mod_of_lt_two_mul {a c : Nat} (h : a < 2 * c) :
    a % c = if a < c then a else a - c := by
  split
  · next h1 => exact Nat.mod_eq_of_lt h1
  · next h1 =>
    rw [Nat.mod_eq_sub_mod (by omega)]
    exact Nat.mod_eq_of_lt (by omega)

/-! ## Delay line -/

/-- C1 (delay-line fidelity).  For a delay line of capacity `max_size ≥ 2` whose
array fits the address space, any valid cursor and any buffer contents: after
`SetDelay(n)` with `1 ≤ n ≤ max_size - 1`, `Write(x)` and `n - 1` further
writes of arbitrary values, `Read()` returns exactly `x`. -/
theorem delay_line_fidelity {α : Type} [Zero α] {max_size : Nat}
    (d : DelayLine α max_size) (n : Nat) (x : α) (ys : List α)
    (hC : 2 ≤ max_size) (hsz : 2 * max_size ≤ SIZE_MOD)
    (hw : d.write_index_ < max_size)
    (hn1 : 1 ≤ n) (hn2 : n ≤ max_size - 1) (hys : ys.length = n - 1) :
    (((d.SetDelay n).Write x).Writes ys).Read = x := by
  have hlt : max_size < SIZE_MOD := by omega
  have hd : (d.SetDelay n).delay_ = n := by
    have h1 : ¬ n < 1 := by omega
    have h2 : ¬ n ≥ max_size := by omega
    simp [DelayLine.SetDelay, h1, h2]
  have hw1 : (d.SetDelay n).write_index_ = d.write_index_ := rfl
  have hw2 : ((d.SetDelay n).Write x).write_index_ = (d.write_index_ + 1) % max_size :=
    DelayLine.Write_write_index _ x hw hlt
  have hw2lt : ((d.SetDelay n).Write x).write_index_ < max_size := by
    rw [hw2]; exact Nat.mod_lt _ (by omega)
  have hw3 : (((d.SetDelay n).Write x).Writes ys).write_index_
      = (d.write_index_ + n) % max_size := by
    rw [DelayLine.Writes_write_index _ ys hw2lt hlt, hw2, Nat.mod_add_mod, hys]
    congr 1
    omega
  have hd3 : (((d.SetDelay n).Write x).Writes ys).delay_ = n := by
    rw [DelayLine.Writes_delay]
    exact hd
  have hidx : (((d.SetDelay n).Write x).Writes ys).read_index = d.write_index_ := by
    unfold DelayLine.read_index
    rw [hw3, hd3]
    have hm := @mod_of_lt_two_mul (d.write_index_ + n) max_size (by omega)
    have hmlt : (d.write_index_ + n) % max_size < max_size := Nat.mod_lt _ (by omega)
    rw [uadd_eq (by omega), usub_eq (by omega) (by omega)]
    split at hm
    · rw [hm, show d.write_index_ + n + max_size - n = d.write_index_ + max_size by omega,
        Nat.add_mod_right]
      exact Nat.mod_eq_of_lt hw
    · rw [hm, show d.write_index_ + n - max_size + max_size - n = d.write_index_ by omega]
      exact Nat.mod_eq_of_lt hw
  unfold DelayLine.Read
  rw [hidx, DelayLine.Writes_buffer_other _ ys d.write_index_ hw2lt hlt]
  · exact bufAt_bufSet_same _ x hw
  · intro k hk
    rw [hw2, Nat.mod_add_mod]
    have hm := @mod_of_lt_two_mul (d.write_index_ + 1 + k) max_size (by omega)
    split at hm <;> omega

/-- C1 at capacity 4, cursor 3, `n = 3`: the sample 5 written first is read back
after two more writes. -/
theorem delay_line_fidelity_witness :
    (((exampleLine.SetDelay 3).Write 5).Writes [6, 11]).Read = 5 :=
  delay_line_fidelity exampleLine 3 5 [6, 11] (by decide) (by decide) (by decide)
    (by decide) (by decide) (by decide)

/-! ## Mix and width stages of `Process` -/

namespace GriesingerReverb
variable {α : Type} [LinearOrderedField α]

theorem tank_mix (s : GriesingerReverb α) (in_l in_r : α) :
    (s.tank in_l in_r).1.mix_ = s.mix_ := rfl

theorem Process_mix (s : GriesingerReverb α) (in_l in_r : α) :
    (s.Process in_l in_r).1.mix_ = s.mix_ := rfl

theorem Process_width (s : GriesingerReverb α) (in_l in_r : α) :
    (s.Process in_l in_r).1.width_ = s.width_ := rfl

theorem Process_prev (s : GriesingerReverb α) (in_l in_r : α) :
    (s.Process in_l in_r).1.prev_l_
        = (widen s.width_ (s.tank in_l in_r).2.1 (s.tank in_l in_r).2.2).1 ∧
      (s.Process in_l in_r).1.prev_r_
        = (widen s.width_ (s.tank in_l in_r).2.1 (s.tank in_l in_r).2.2).2 :=
  ⟨rfl, rfl⟩

theorem Process_out_of_mix_zero (s : GriesingerReverb α) (in_l in_r : α)
    (hmix : s.mix_ = 0) : (s.Process in_l in_r).2 = (in_l, in_r) := by
  simp [Process, hmix]

end GriesingerReverb

/-- Dry pass in exact arithmetic: with the stored mix equal to 0, from every
state `Process` returns its input pair, and a whole block of input pairs is
returned sample for sample.  (In binary32 this needs a finite wet pair, see the
binary32 sections below.) -/
theorem dry_pass_exact {α : Type} [LinearOrderedField α] (s : GriesingerReverb α)
    (hmix : s.mix_ = 0) :
    (∀ in_l in_r : α, (s.Process in_l in_r).2 = (in_l, in_r)) ∧
      ∀ ins : List (α × α), (s.ProcessBlock ins).2 = ins := by
  refine ⟨fun in_l in_r => GriesingerReverb.Process_out_of_mix_zero s in_l in_r hmix, ?_⟩
  intro ins
  induction ins generalizing s with
  | nil => rfl
  | cons x xs ih =>
    have h1 : (s.Process x.1 x.2).1.mix_ = 0 := by
      rw [GriesingerReverb.Process_mix]; exact hmix
    simp only [GriesingerReverb.ProcessBlock]
    rw [ih _ h1, GriesingerReverb.Process_out_of_mix_zero s x.1 x.2 hmix]

/-- Width collapse in exact arithmetic: with the stored width equal to 0, from
every state and for every input pair the post-width `wet_l` and `wet_r` (the
values stored in `prev_l_`, `prev_r_`) both equal the arithmetic mean of the
pre-width pair; and if moreover the mix is 1 the two outputs are equal.  (In
binary32 this needs a finite difference and the mean is a rounded one, see
the binary32 sections below.) -/
theorem width_collapse_exact {α : Type} [LinearOrderedField α] (s : GriesingerReverb α)
    (in_l in_r : α) (hwidth : s.width_ = 0) :
    (s.Process in_l in_r).1.prev_l_
        = ((s.tank in_l in_r).2.1 + (s.tank in_l in_r).2.2) / 2 ∧
      (s.Process in_l in_r).1.prev_r_
        = ((s.tank in_l in_r).2.1 + (s.tank in_l in_r).2.2) / 2 ∧
      (s.Process in_l in_r).1.prev_l_ = (s.Process in_l in_r).1.prev_r_ ∧
      (s.mix_ = 1 → (s.Process in_l in_r).2.1 = (s.Process in_l in_r).2.2) := by
  have h5 : (0.5 : α) = 1 / 2 := by norm_num
  refine ⟨?_, ?_, ?_, ?_⟩
  · simp only [GriesingerReverb.Process, GriesingerReverb.widen, hwidth, h5]; ring
  · simp only [GriesingerReverb.Process, GriesingerReverb.widen, hwidth, h5]; ring
  · simp only [GriesingerReverb.Process, GriesingerReverb.widen, hwidth, h5]; ring
  · intro hmix
    simp only [GriesingerReverb.Process, GriesingerReverb.widen, hwidth, hmix, h5]; ring

/-- Width preservation in exact arithmetic: with the stored width equal to 1,
from every state and for every input pair the post-width `wet_l`, `wet_r`
(`mid + side` and `mid - side`, stored in `prev_l_`, `prev_r_`) equal the
pre-width `wet_l`, `wet_r` delivered by the tail allpass chains.  (In binary32
the sums are rounded, see the binary32 sections below.) -/
theorem width_preservation_exact {α : Type} [LinearOrderedField α] (s : GriesingerReverb α)
    (in_l in_r : α) (hwidth : s.width_ = 1) :
    GriesingerReverb.widen s.width_ (s.tank in_l in_r).2.1 (s.tank in_l in_r).2.2
        = ((s.tank in_l in_r).2.1, (s.tank in_l in_r).2.2) ∧
      (s.Process in_l in_r).1.prev_l_ = (s.tank in_l in_r).2.1 ∧
      (s.Process in_l in_r).1.prev_r_ = (s.tank in_l in_r).2.2 := by
  have h5 : (0.5 : α) = 1 / 2 := by norm_num
  have hl : ∀ a b : α, 1 / 2 * (a + b) + 1 / 2 * (a - b) * 1 = a := by intro a b; ring
  have hr : ∀ a b : α, 1 / 2 * (a + b) - 1 / 2 * (a - b) * 1 = b := by intro a b; ring
  refine ⟨?_, ?_, ?_⟩
  · simp only [GriesingerReverb.widen, hwidth, h5, hl, hr]
  · simp only [GriesingerReverb.Process, GriesingerReverb.widen, hwidth, h5, hl]
  · simp only [GriesingerReverb.Process, GriesingerReverb.widen, hwidth, h5, hr]

/-! ## Parameter setters -/

theorem fclamp_eq_clampTo {α : Type} [LinearOrderedField α] {lo hi : α} (h : lo ≤ hi)
    (v : α) : fclamp v lo hi = clampTo lo hi v := by
  unfold fclamp clampTo
  split
  · next h1 => rw [max_eq_right (le_of_lt h1), min_eq_left h]
  · next h1 =>
    rw [max_eq_left (not_lt.mp h1)]
    split
    · next h2 => exact min_eq_right (le_of_lt h2)
    · next h2 => exact min_eq_left (not_lt.mp h2)

theorem fclamp_fclamp {α : Type} [LinearOrderedField α] {lo hi : α} (h : lo ≤ hi)
    (v : α) : fclamp (fclamp v lo hi) lo hi = fclamp v lo hi := by
  unfold fclamp
  have h1 : lo ≤ min (max v lo) hi := le_min (le_max_right _ _) h
  rw [max_eq_left h1, min_eq_left (min_le_right _ _)]

theorem fclamp_mem {α : Type} [LinearOrderedField α] {lo hi : α} (h : lo ≤ hi)
    (v : α) : lo ≤ fclamp v lo hi ∧ fclamp v lo hi ≤ hi :=
  ⟨le_min (le_max_right _ _) h, min_le_right _ _⟩

/-- C6 (setter clamping).  For every state and every argument `v`: `SetDecay`
stores `v` clamped to `[0.10, 0.98]`, `SetDamping` to `[800, 12000]`, `SetMix`
and `SetWidth` to `[0, 1]` (below the range: the lower bound; above it: the
upper bound; inside it: `v` itself); and calling a setter again with the value
it stored leaves the whole state unchanged. -/
theorem setter_clamping {α : Type} [LinearOrderedField α] (m : Daisysp α)
    (s : GriesingerReverb α) (v : α) :
    ((s.SetDecay v).decay_ = clampTo 0.1 0.98 v ∧
        (s.SetDamping m v).damping_hz_ = clampTo 800 12000 v ∧
        (s.SetMix v).mix_ = clampTo 0 1 v ∧
        (s.SetWidth v).width_ = clampTo 0 1 v) ∧
      ((s.SetDecay v).SetDecay (s.SetDecay v).decay_ = s.SetDecay v ∧
        (s.SetDamping m v).SetDamping m (s.SetDamping m v).damping_hz_ = s.SetDamping m v ∧
        (s.SetMix v).SetMix (s.SetMix v).mix_ = s.SetMix v ∧
        (s.SetWidth v).SetWidth (s.SetWidth v).width_ = s.SetWidth v) := by
  have hd : (0.1 : α) ≤ 0.98 := by norm_num
  have hz : (800 : α) ≤ 12000 := by norm_num
  have h1 : (0 : α) ≤ 1 := zero_le_one
  refine ⟨⟨fclamp_eq_clampTo hd v, fclamp_eq_clampTo hz v, fclamp_eq_clampTo h1 v,
    fclamp_eq_clampTo h1 v⟩, ?_, ?_, ?_, ?_⟩
  · simp only [GriesingerReverb.SetDecay, Comb.SetFeedback, fclamp_fclamp hd]
  · simp only [GriesingerReverb.SetDamping, Comb.SetDamping, OnePoleLP.SetCutoff,
      fclamp_fclamp hz]
  · simp only [GriesingerReverb.SetMix, fclamp_fclamp h1]
  · simp only [GriesingerReverb.SetWidth, fclamp_fclamp h1]

namespace GriesingerReverb
variable {α : Type} [LinearOrderedField α]

theorem CombFeedbackStable_SetDecay (s : GriesingerReverb α) (v : α) :
    CombFeedbackStable (s.SetDecay v) := by
  have hd : (0.1 : α) ≤ 0.98 := by norm_num
  obtain ⟨hlo, hhi⟩ := fclamp_mem hd v
  have habs : |fclamp v (0.1 : α) 0.98| < 1 := by
    rw [abs_lt]
    constructor
    · have : (-1 : α) < 0.1 := by norm_num
      exact lt_of_lt_of_le this hlo
    · have : (0.98 : α) < 1 := by norm_num
      exact lt_of_le_of_lt hhi this
  exact ⟨fun _ => rfl, fun _ => rfl, hlo, hhi, fun _ => habs, fun _ => habs⟩

theorem CombFeedbackStable_call (m : Daisysp α) (s : GriesingerReverb α) (c : Call α)
    (h : CombFeedbackStable s) : CombFeedbackStable (s.call m c) := by
  cases c with
  | SetDecay v => exact CombFeedbackStable_SetDecay s v
  | SetDamping v => exact h
  | SetMix v => exact h
  | SetWidth v => exact h
  | Process l r => exact h

theorem CombFeedbackStable_Init (m : Daisysp α) (s : GriesingerReverb α) (sample_rate : α) :
    CombFeedbackStable (s.Init m sample_rate) := by
  unfold Init
  exact CombFeedbackStable_call m _ (.SetWidth 1.0)
    (CombFeedbackStable_call m _ (.SetMix 0.35)
      (CombFeedbackStable_call m _ (.SetDamping 4800) (CombFeedbackStable_SetDecay _ 0.82)))

theorem CombFeedbackStable_calls (m : Daisysp α) (s : GriesingerReverb α)
    (cs : List (Call α)) (h : CombFeedbackStable s) : CombFeedbackStable (s.calls m cs) := by
  induction cs generalizing s with
  | nil => exact h
  | cons c cs ih => exact ih _ (CombFeedbackStable_call m s c h)

end GriesingerReverb

/-- C7 (comb-feedback stability invariant).  After `Init` from any prior state
and any sequence of `SetDecay`, `SetDamping`, `SetMix`, `SetWidth` and
`Process` calls, each of the 8 comb feedback gains equals the stored decay,
the decay lies in `[0.10, 0.98]`, and each gain is below 1 in magnitude. -/
theorem comb_feedback_invariant {α : Type} [LinearOrderedField α] (m : Daisysp α)
    (s0 : GriesingerReverb α) (sample_rate : α) (cs : List (Call α)) :
    CombFeedbackStable ((s0.Init m sample_rate).calls m cs) :=
  GriesingerReverb.CombFeedbackStable_calls m _ cs
    (GriesingerReverb.CombFeedbackStable_Init m s0 sample_rate)

/-! ## Delay length and buffer bounds -/

namespace DelayLine
variable {α : Type} [Zero α] {max_size : Nat}

omit [Zero α] in
theorem SetDelay_delay (d : DelayLine α max_size) (n : Nat)
    (hC : 1 ≤ max_size) (hsz : max_size < SIZE_MOD) :
    (d.SetDelay n).delay_ = clampNat 1 (max_size - 1) n := by
  have hsub : usub max_size 1 = max_size - 1 := usub_eq hC hsz
  unfold SetDelay clampNat
  simp only [hsub]
  by_cases h1 : n < 1
  · simp [h1]
  · by_cases h2 : n ≥ max_size
    · have h3 : max_size - 1 < n := by omega
      simp [h1, h2, h3]
    · have h3 : ¬ max_size - 1 < n := by omega
      simp [h1, h2, h3]

theorem clampNat_mem {lo hi : Nat} (h : lo ≤ hi) (n : Nat) :
    lo ≤ clampNat lo hi n ∧ clampNat lo hi n ≤ hi := by
  unfold clampNat
  split
  · exact ⟨le_refl _, h⟩
  · split <;> omega

theorem Valid_Init (d : DelayLine α max_size) (hC : 2 ≤ max_size) : d.Init.Valid := by
  refine ⟨?_, ?_, ?_⟩ <;> simp only [Init] <;> omega

theorem Valid_SetDelay (d : DelayLine α max_size) (n : Nat)
    (hC : 2 ≤ max_size) (hsz : max_size < SIZE_MOD) (h : d.Valid) : (d.SetDelay n).Valid := by
  have hm := clampNat_mem (show 1 ≤ max_size - 1 by omega) n
  rw [← SetDelay_delay d n (by omega) hsz] at hm
  exact ⟨h.1, hm.1, hm.2⟩

theorem Valid_Write (d : DelayLine α max_size) (x : α)
    (hC : 2 ≤ max_size) (hsz : max_size < SIZE_MOD) (h : d.Valid) : (d.Write x).Valid := by
  refine ⟨?_, h.2.1, h.2.2⟩
  rw [Write_write_index d x h.1 hsz]
  exact Nat.mod_lt _ (by omega)

theorem Valid_call (d : DelayLine α max_size) (c : DelayCall α)
    (hC : 2 ≤ max_size) (hsz : max_size < SIZE_MOD) (h : d.Valid) : (d.call c).Valid := by
  cases c with
  | SetDelay n => exact Valid_SetDelay d n hC hsz h
  | Read => exact h
  | Write x => exact Valid_Write d x hC hsz h

theorem Valid_calls (d : DelayLine α max_size) (cs : List (DelayCall α))
    (hC : 2 ≤ max_size) (hsz : max_size < SIZE_MOD) (h : d.Valid) : (d.calls cs).Valid := by
  induction cs generalizing d with
  | nil => exact h
  | cons c cs ih => exact ih _ (Valid_call d c hC hsz h)

theorem read_index_eq (d : DelayLine α max_size) (hsz : 2 * max_size ≤ SIZE_MOD)
    (h : d.Valid) : d.read_index = (d.write_index_ + max_size - d.delay_) % max_size := by
  obtain ⟨h1, h2, h3⟩ := h
  unfold read_index
  rw [uadd_eq (by omega), usub_eq (by omega) (by omega)]

theorem BoundsSafe_of_Valid (d : DelayLine α max_size) (hsz : 2 * max_size ≤ SIZE_MOD)
    (h : d.Valid) : d.BoundsSafe := by
  have hidx := read_index_eq d hsz h
  obtain ⟨h1, h2, h3⟩ := h
  have hadd : uadd d.write_index_ max_size = d.write_index_ + max_size :=
    uadd_eq (by omega)
  refine ⟨h1, hadd, ?_, hidx, ?_⟩
  · rw [hadd]; omega
  · rw [hidx]; exact Nat.mod_lt _ (by omega)

end DelayLine

/-- C8 (delay-length invariant).  For a delay line of capacity `max_size ≥ 2`
(a `size_t` value): `SetDelay(n)` stores `n` clamped to `[1, max_size - 1]` for
every `n` (0 becomes 1, every `n ≥ max_size` becomes `max_size - 1`, other `n`
are kept); and after `Init` and any sequence of `SetDelay`, `Read` and `Write`
calls the stored delay satisfies `1 ≤ delay_ ≤ max_size - 1`. -/
theorem delay_length_invariant {α : Type} [Zero α] {max_size : Nat}
    (hC : 2 ≤ max_size) (hsz : max_size < SIZE_MOD) :
    (∀ (d : DelayLine α max_size) (n : Nat),
        (d.SetDelay n).delay_ = clampNat 1 (max_size - 1) n) ∧
      ∀ (d0 : DelayLine α max_size) (cs : List (DelayCall α)),
        1 ≤ (d0.Init.calls cs).delay_ ∧ (d0.Init.calls cs).delay_ ≤ max_size - 1 := by
  refine ⟨fun d n => DelayLine.SetDelay_delay d n (by omega) hsz, fun d0 cs => ?_⟩
  exact (DelayLine.Valid_calls _ cs hC hsz (DelayLine.Valid_Init d0 hC)).2

/-- C8 at capacity 4: the value `2^32 - 1` (what `-1` converts to) is stored as
3, and the delay stays within `[1, 3]` along a run of calls. -/
theorem delay_length_invariant_witness :
    (exampleLine.SetDelay 4294967295).delay_ = clampNat 1 (4 - 1) 4294967295 ∧
      1 ≤ (exampleLine.Init.calls [.SetDelay 0, .Write 5, .SetDelay 9, .Read]).delay_ ∧
      (exampleLine.Init.calls [.SetDelay 0, .Write 5, .SetDelay 9, .Read]).delay_ ≤ 4 - 1 :=
  ⟨(delay_length_invariant (by decide) (by decide)).1 exampleLine 4294967295,
    (delay_length_invariant (by decide) (by decide)).2 exampleLine _⟩

/-- C9 (bounds safety of buffer indexing).  For a delay line of capacity
`max_size ≥ 2` whose array fits the address space, in every state reached from
`Init` by `SetDelay`, `Read` and `Write` calls: the cursor used by `Write` is
below `max_size`; `write_index_ + max_size` does not wrap and subtracting
`delay_` from it does not go below zero; and the index computed by `Read` is
`(write_index_ + max_size - delay_) % max_size`, below `max_size`. -/
theorem bounds_safety {α : Type} [Zero α] {max_size : Nat}
    (hC : 2 ≤ max_size) (hsz : 2 * max_size ≤ SIZE_MOD)
    (d0 : DelayLine α max_size) (cs : List (DelayCall α)) :
    (d0.Init.calls cs).BoundsSafe :=
  DelayLine.BoundsSafe_of_Valid _ hsz
    (DelayLine.Valid_calls _ cs hC (by omega) (DelayLine.Valid_Init d0 hC))

/-- C9 at capacity 4 along a run of calls that wraps the cursor. -/
theorem bounds_safety_witness :
    (exampleLine.Init.calls
      [.SetDelay 7, .Write 1, .Write 2, .Read, .Write 3, .Write 4, .Write 5]).BoundsSafe :=
  bounds_safety (by decide) (by decide) exampleLine _

/-! ## The first ticks after `Init` -/

theorem bufAt_of_zero {α : Type} [Zero α] {n : Nat} (buf : Fin n → α)
    (h : ∀ j, buf j = 0) (i : Nat) : bufAt buf i = 0 := by
  unfold bufAt
  split
  · exact h _
  · rfl

theorem bufSet_zero_of_zero {α : Type} [Zero α] {n : Nat} (buf : Fin n → α)
    (h : ∀ j, buf j = 0) (i : Nat) (j : Fin n) : bufSet buf i 0 j = 0 := by
  unfold bufSet
  split
  · rfl
  · exact h j

theorem comb_l_delays_range (i : Fin 4) :
    1116 < comb_l_delays i ∧ comb_l_delays i ≤ 1617 := by
  fin_cases i <;> simp [comb_l_delays]

theorem comb_r_delays_range (i : Fin 4) :
    1116 ≤ comb_r_delays i ∧ comb_r_delays i ≤ 1617 ∧ (i ≠ 3 → 1116 < comb_r_delays i) := by
  fin_cases i <;> simp [comb_r_delays]

namespace Comb
variable {α : Type} [LinearOrderedField α]

theorem Process_quiet (c : Comb α 8192) (x : α) {k D : Nat} (h : CombQuiet k D c)
    (hk : k < D) (hD : D ≤ 1617) :
    (c.Process x).2 = 0 ∧ CombQuiet (k + 1) D (c.Process x).1 ∧
      bufAt (c.Process x).1.delay_.buffer_ k = x + 0 * c.feedback_ ∧
      ∀ j, j ≠ k → bufAt (c.Process x).1.delay_.buffer_ j = bufAt c.delay_.buffer_ j := by
  obtain ⟨hz, hw, hd, hb⟩ := h
  have hidx : c.delay_.read_index = k + 8192 - D := by
    unfold DelayLine.read_index uadd usub SIZE_MOD
    rw [hw, hd]
    omega
  have hread : c.delay_.Read = 0 := by
    unfold DelayLine.Read bufAt
    rw [hidx]
    split
    · exact hb _ (by simp only; omega)
    · rfl
  have hf : (c.damping_.Process c.delay_.Read).2 = 0 := by
    simp [OnePoleLP.Process, hread, hz]
  have hf1 : (c.damping_.Process c.delay_.Read).1.z_ = 0 := hf
  refine ⟨hread, ⟨hf1, ?_, hd, ?_⟩, ?_, ?_⟩
  · show uadd c.delay_.write_index_ 1 % 8192 = k + 1
    unfold uadd SIZE_MOD
    rw [hw]
    omega
  · intro j hj
    show bufSet c.delay_.buffer_ c.delay_.write_index_ _ j = 0
    unfold bufSet
    rw [hw]
    have : ¬ j.val = k := by omega
    simp only [this, if_false]
    exact hb j (by omega)
  · show bufAt (bufSet c.delay_.buffer_ c.delay_.write_index_ _) k = _
    rw [hw, hf]
    exact bufAt_bufSet_same _ _ (by omega)
  · intro j hj
    show bufAt (bufSet c.delay_.buffer_ c.delay_.write_index_ _) j = _
    rw [hw]
    exact bufAt_bufSet_ne _ _ hj

theorem Process_first_echo (c : Comb α 8192) (x : α) {D : Nat} (h : CombQuiet D D c) :
    (c.Process x).2 = bufAt c.delay_.buffer_ 0 := by
  obtain ⟨_, hw, hd, _⟩ := h
  have hidx : c.delay_.read_index = 0 := by
    unfold DelayLine.read_index uadd usub SIZE_MOD
    rw [hw, hd]
    omega
  show bufAt c.delay_.buffer_ c.delay_.read_index = _
  rw [hidx]

theorem Init_quiet (m : Daisysp α) (c : Comb α 8192) (sample_rate : α) {D : Nat}
    (hD1 : 1 ≤ D) (hD : D ≤ 1617) : CombQuiet 0 D ((c.Init m sample_rate).SetDelay D) := by
  refine ⟨rfl, rfl, ?_, ?_⟩
  · show (c.delay_.Init.SetDelay D).delay_ = D
    rw [DelayLine.SetDelay_delay _ _ (by omega) (by unfold SIZE_MOD; omega)]
    unfold clampNat
    split
    · omega
    · split <;> omega
  · intro j _
    show zeroFill c.delay_.buffer_ 8192 j = 0
    rw [zeroFill_full]

end Comb

namespace Allpass
variable {α : Type} [LinearOrderedField α] {max_size : Nat}

theorem Process_silent (p : Allpass α max_size) (x : α) (h : AllpassSilent p) :
    (p.Process x).2 = -p.gain_ * x ∧ (x = 0 → AllpassSilent (p.Process x).1) := by
  have hread : p.delay_.Read = 0 := bufAt_of_zero _ h _
  have hout : (p.Process x).2 = -p.gain_ * x := by
    simp [Process, hread]
  refine ⟨hout, ?_⟩
  intro hx j
  show bufSet p.delay_.buffer_ p.delay_.write_index_ (x + p.gain_ * (-p.gain_ * x + p.delay_.Read)) j
    = 0
  rw [hread, hx]
  simp only [mul_zero, add_zero]
  exact bufSet_zero_of_zero _ h _ j

theorem Init_silent (p : Allpass α max_size) (n : Nat) (g : α) :
    AllpassSilent ((p.Init.SetDelay n).SetGain g) := by
  intro j
  show zeroFill p.delay_.buffer_ max_size j = 0
  rw [zeroFill_full]

end Allpass

namespace GriesingerReverb
variable {α : Type} [LinearOrderedField α]

theorem widen_zero (width : α) : widen width 0 0 = (0, 0) := by
  simp [widen]

theorem Quiet_Init (m : Daisysp α) (s : GriesingerReverb α) (sample_rate : α)
    (hl : s.prev_l_ = 0) (hr : s.prev_r_ = 0) : Quiet 0 (s.Init m sample_rate) := by
  refine ⟨hl, hr, ?_, ?_, ?_, ?_⟩
  · intro i
    have h := comb_l_delays_range i
    exact Comb.Init_quiet m (s.comb_l_ i) sample_rate (by omega) h.2
  · intro i
    have h := comb_r_delays_range i
    exact Comb.Init_quiet m (s.comb_r_ i) sample_rate (by omega) h.2.1
  · intro i
    exact Allpass.Init_silent (s.ap_l_ i) (ap_l_delays i) 0.7
  · intro i
    exact Allpass.Init_silent (s.ap_r_ i) (ap_r_delays i) 0.7

/-- While every comb is still quiet, a `Process` call has zero pre-width wet
signal and keeps the tail allpasses silent. -/
theorem tank_quiet (s : GriesingerReverb α) (in_l in_r : α) {k : Nat} (h : Quiet k s)
    (hk : k < 1116) :
    (s.tank in_l in_r).2 = (0, 0) ∧
      (∀ i, AllpassSilent ((s.tank in_l in_r).1.ap_l_ i)) ∧
      ∀ i, AllpassSilent ((s.tank in_l in_r).1.ap_r_ i) := by
  obtain ⟨_, _, hcl, hcr, hal, har⟩ := h
  have hl : ∀ i x, ((s.comb_l_ i).Process x).2 = 0 := fun i x =>
    (Comb.Process_quiet _ x (hcl i) (by have := comb_l_delays_range i; omega)
      (comb_l_delays_range i).2).1
  have hr : ∀ i x, ((s.comb_r_ i).Process x).2 = 0 := fun i x =>
    (Comb.Process_quiet _ x (hcr i) (by have := comb_r_delays_range i; omega)
      (comb_r_delays_range i).2.1).1
  have hsl : (s.tank in_l in_r).1.ap_l_ 0 = ((s.ap_l_ 0).Process 0).1 := by
    simp [tank, hl]
  have hsr : (s.tank in_l in_r).1.ap_r_ 0 = ((s.ap_r_ 0).Process 0).1 := by
    simp [tank, hr]
  have h0l := Allpass.Process_silent (s.ap_l_ 0) 0 (hal 0)
  have h0r := Allpass.Process_silent (s.ap_r_ 0) 0 (har 0)
  have h1l := Allpass.Process_silent (s.ap_l_ 1) 0 (hal 1)
  have h1r := Allpass.Process_silent (s.ap_r_ 1) 0 (har 1)
  have hsl1 : (s.tank in_l in_r).1.ap_l_ 1 = ((s.ap_l_ 1).Process 0).1 := by
    simp [tank, hl, h0l.1]
  have hsr1 : (s.tank in_l in_r).1.ap_r_ 1 = ((s.ap_r_ 1).Process 0).1 := by
    simp [tank, hr, h0r.1]
  refine ⟨?_, ?_, ?_⟩
  · simp [tank, hl, hr, h0l.1, h0r.1, h1l.1, h1r.1]
  · intro i
    fin_cases i
    · show AllpassSilent ((s.tank in_l in_r).1.ap_l_ 0)
      rw [hsl]; exact h0l.2 rfl
    · show AllpassSilent ((s.tank in_l in_r).1.ap_l_ 1)
      rw [hsl1]; exact h1l.2 rfl
  · intro i
    fin_cases i
    · show AllpassSilent ((s.tank in_l in_r).1.ap_r_ 0)
      rw [hsr]; exact h0r.2 rfl
    · show AllpassSilent ((s.tank in_l in_r).1.ap_r_ 1)
      rw [hsr1]; exact h1r.2 rfl

theorem Quiet_Process (s : GriesingerReverb α) (in_l in_r : α) {k : Nat} (h : Quiet k s)
    (hk : k < 1116) : Quiet (k + 1) (s.Process in_l in_r).1 := by
  have ht := tank_quiet s in_l in_r h hk
  obtain ⟨_, _, hcl, hcr, _, _⟩ := h
  have hp := Process_prev s in_l in_r
  rw [ht.1, widen_zero] at hp
  refine ⟨hp.1, hp.2, ?_, ?_, ht.2.1, ht.2.2⟩
  · intro i
    exact (Comb.Process_quiet _ _ (hcl i) (by have := comb_l_delays_range i; omega)
      (comb_l_delays_range i).2).2.1
  · intro i
    exact (Comb.Process_quiet _ _ (hcr i) (by have := comb_r_delays_range i; omega)
      (comb_r_delays_range i).2.1).2.1

/-- The `Process` call at tick 0 stores the right diffuser's output in slot 0
of the shortest comb, `comb_r_[3]`. -/
theorem slot_first (s : GriesingerReverb α) (in_l in_r : α) (h : Quiet 0 s) :
    bufAt ((s.Process in_l in_r).1.comb_r_ 3).delay_.buffer_ 0
      = (s.in_diff_r_.Process (0.5 * (in_l + in_r) + 0.2 * s.prev_l_)).2
          + 0 * (s.comb_r_ 3).feedback_ :=
  (Comb.Process_quiet _ _ (h.2.2.2.1 3) (by simp [comb_r_delays]) (by simp [comb_r_delays])).2.2.1

/-- Later quiet ticks leave slot 0 of `comb_r_[3]` alone. -/
theorem slot_keep (s : GriesingerReverb α) (in_l in_r : α) {k : Nat} (h : Quiet k s)
    (hk0 : 0 < k) (hk : k < 1116) :
    bufAt ((s.Process in_l in_r).1.comb_r_ 3).delay_.buffer_ 0
      = bufAt (s.comb_r_ 3).delay_.buffer_ 0 :=
  (Comb.Process_quiet _ _ (h.2.2.2.1 3) (by simp [comb_r_delays]; omega)
    (by simp [comb_r_delays])).2.2.2 0 (by omega)

theorem Quiet_run (m : Daisysp α) (ins : List (α × α)) (s : GriesingerReverb α) (k : Nat)
    (h : Quiet k s) (hk0 : 0 < k) (hk : k + ins.length ≤ 1116) :
    Quiet (k + ins.length) (s.calls m (ins.map fun x => Call.Process x.1 x.2)) ∧
      bufAt ((s.calls m (ins.map fun x => Call.Process x.1 x.2)).comb_r_ 3).delay_.buffer_ 0
        = bufAt (s.comb_r_ 3).delay_.buffer_ 0 ∧
      (s.calls m (ins.map fun x => Call.Process x.1 x.2)).width_ = s.width_ ∧
      ((s.calls m (ins.map fun x => Call.Process x.1 x.2)).ap_r_ 0).gain_
        = (s.ap_r_ 0).gain_ ∧
      ((s.calls m (ins.map fun x => Call.Process x.1 x.2)).ap_r_ 1).gain_
        = (s.ap_r_ 1).gain_ := by
  induction ins generalizing s k with
  | nil => exact ⟨h, rfl, rfl, rfl, rfl⟩
  | cons x xs ih =>
    simp only [List.length_cons] at hk
    have h1 := Quiet_Process s x.1 x.2 h (by omega)
    have h2 := slot_keep s x.1 x.2 h hk0 (by omega)
    obtain ⟨i1, i2, i3, i4, i5⟩ := ih (s.Process x.1 x.2).1 (k + 1) h1 (by omega) (by omega)
    simp only [List.map_cons, calls, call, List.length_cons]
    refine ⟨?_, ?_, ?_, ?_, ?_⟩
    · rw [show k + (xs.length + 1) = k + 1 + xs.length by omega]; exact i1
    · rw [i2, h2]
    · rw [i3]; rfl
    · rw [i4]; rfl
    · rw [i5]; rfl

/-- At tick 1116 the sample stored at tick 0 leaves `comb_r_[3]` and passes the
right tail allpasses; the left wet signal is still zero. -/
theorem tank_first_echo (s : GriesingerReverb α) (in_l in_r : α) (h : Quiet 1116 s) :
    (s.tank in_l in_r).2.1 = 0 ∧
      (s.tank in_l in_r).2.2
        = -(s.ap_r_ 1).gain_ * (-(s.ap_r_ 0).gain_
            * (bufAt (s.comb_r_ 3).delay_.buffer_ 0 * 0.25)) := by
  obtain ⟨_, _, hcl, hcr, hal, har⟩ := h
  have hl : ∀ i x, ((s.comb_l_ i).Process x).2 = 0 := fun i x =>
    (Comb.Process_quiet _ x (hcl i) (comb_l_delays_range i).1 (comb_l_delays_range i).2).1
  have hr : ∀ i x, i ≠ 3 → ((s.comb_r_ i).Process x).2 = 0 := fun i x hi =>
    (Comb.Process_quiet _ x (hcr i) ((comb_r_delays_range i).2.2 hi)
      (comb_r_delays_range i).2.1).1
  have hr3 : ∀ x, ((s.comb_r_ 3).Process x).2 = bufAt (s.comb_r_ 3).delay_.buffer_ 0 :=
    fun x => Comb.Process_first_echo _ x (hcr 3)
  have h0l := Allpass.Process_silent (s.ap_l_ 0) 0 (hal 0)
  have h1l := Allpass.Process_silent (s.ap_l_ 1) 0 (hal 1)
  have h0r := fun x => (Allpass.Process_silent (s.ap_r_ 0) x (har 0)).1
  have h1r := fun x => (Allpass.Process_silent (s.ap_r_ 1) x (har 1)).1
  constructor
  · simp [tank, hl, h0l.1, h1l.1]
  · have e0 := hr 0 (s.in_diff_r_.Process (0.5 * (in_l + in_r) + 0.2 * s.prev_l_)).2
      (by decide)
    have e1 := hr 1 (s.in_diff_r_.Process (0.5 * (in_l + in_r) + 0.2 * s.prev_l_)).2
      (by decide)
    have e2 := hr 2 (s.in_diff_r_.Process (0.5 * (in_l + in_r) + 0.2 * s.prev_l_)).2
      (by decide)
    simp only [tank, e0, e1, e2, hr3, h0r, h1r, zero_add]

theorem calls_append (m : Daisysp α) (s : GriesingerReverb α) (as bs : List (Call α)) :
    s.calls m (as ++ bs) = (s.calls m as).calls m bs := by
  induction as generalizing s with
  | nil => rfl
  | cons a as ih => exact ih (call m s a)

theorem Init_prev (m : Daisysp α) (s : GriesingerReverb α) (sample_rate : α) :
    (s.Init m sample_rate).prev_l_ = s.prev_l_ ∧ (s.Init m sample_rate).prev_r_ = s.prev_r_ :=
  ⟨rfl, rfl⟩

/-- The function `Init` overwrites every member except `prev_l_` and `prev_r_`: the states
after `Init(sample_rate)` from two prior states agree up to these two values. -/
theorem Init_eq_up_to_prev (m : Daisysp α) (s t : GriesingerReverb α) (sample_rate : α) :
    s.Init m sample_rate
      = { t.Init m sample_rate with prev_l_ := s.prev_l_, prev_r_ := s.prev_r_ } := by
  simp only [Init, SetDecay, SetDamping, SetMix, SetWidth, Comb.Init, Comb.SetDelay,
    Comb.SetFeedback, Comb.SetDamping, Allpass.Init, Allpass.SetDelay, Allpass.SetGain,
    DelayLine.Init, DelayLine.SetDelay, OnePoleLP.Init, OnePoleLP.SetCutoff, zeroFill_full]

end GriesingerReverb

/-! ## Re-initialisation -/

theorem staleReverb_prev_r : staleReverb.prev_r_ = -637 / 8000 := by
  have q0 : Quiet 0 exampleReverb :=
    GriesingerReverb.Quiet_Init exampleLib GriesingerReverb.fresh 48000 rfl rfl
  have q1 := GriesingerReverb.Quiet_Process exampleReverb 1 1 q0 (by decide)
  have hdiff : (exampleReverb.in_diff_r_.Process
      (0.5 * (1 + 1) + 0.2 * exampleReverb.prev_l_)).2 = -0.65 := by
    have hs : AllpassSilent exampleReverb.in_diff_r_ :=
      Allpass.Init_silent (GriesingerReverb.fresh (α := ℚ)).in_diff_r_ 149 0.65
    rw [(Allpass.Process_silent _ _ hs).1]
    have hg : exampleReverb.in_diff_r_.gain_ = 0.65 := rfl
    have hp : exampleReverb.prev_l_ = 0 := rfl
    rw [hg, hp]
    norm_num
  have hslot := GriesingerReverb.slot_first exampleReverb 1 1 q0
  rw [hdiff] at hslot
  obtain ⟨q, hs, hw, hg0, hg1⟩ := GriesingerReverb.Quiet_run exampleLib
    (List.replicate 1115 ((1 : ℚ), (1 : ℚ))) (exampleReverb.Process 1 1).1 1 q1
    (by decide) (by rw [List.length_replicate])
  rw [List.length_replicate] at q
  have hlist : List.replicate 1117 (Call.Process (1 : ℚ) 1)
      = [Call.Process 1 1]
        ++ ((List.replicate 1115 ((1 : ℚ), (1 : ℚ))).map fun x => Call.Process x.1 x.2)
        ++ [Call.Process 1 1] := by
    rw [List.map_replicate, List.append_assoc, ← List.replicate_succ',
      List.singleton_append, ← List.replicate_succ]
  have hstale : staleReverb
      = (((exampleReverb.Process 1 1).1.calls exampleLib
          ((List.replicate 1115 ((1 : ℚ), (1 : ℚ))).map
            fun x => Call.Process x.1 x.2)).Process 1 1).1 := by
    unfold staleReverb
    rw [hlist, GriesingerReverb.calls_append, GriesingerReverb.calls_append]
    rfl
  have ht := GriesingerReverb.tank_first_echo _ 1 1 q
  have hp := (GriesingerReverb.Process_prev
    ((exampleReverb.Process 1 1).1.calls exampleLib
      ((List.replicate 1115 ((1 : ℚ), (1 : ℚ))).map fun x => Call.Process x.1 x.2)) 1 1).2
  have hw1 : (exampleReverb.Process 1 1).1.width_ = 1 := by
    show exampleReverb.width_ = 1
    norm_num [exampleReverb, GriesingerReverb.Init, GriesingerReverb.SetWidth, fclamp]
  have hge0 : ((exampleReverb.Process 1 1).1.ap_r_ 0).gain_ = 0.7 := rfl
  have hge1 : ((exampleReverb.Process 1 1).1.ap_r_ 1).gain_ = 0.7 := rfl
  rw [hstale, hp, ht.1, ht.2, hs, hslot, hw, hg0, hg1, hw1, hge0, hge1]
  norm_num [GriesingerReverb.widen]

/-- C10 at its failing input.  After `Init(48000)` and 1117 calls
`Process(1, 1)` the cross-feedback value `prev_r_` is `-637/8000`; a second
`Init(48000)` leaves it there, whereas `Init(48000)` of a freshly constructed
network has `prev_r_ = 0`: the two states after `Init` differ. -/
theorem reinit_keeps_feedback :
    (staleReverb.Init exampleLib 48000).prev_r_ = -637 / 8000 ∧
      (GriesingerReverb.fresh.Init exampleLib 48000).prev_r_ = 0 ∧
      staleReverb.Init exampleLib 48000 ≠ GriesingerReverb.fresh.Init exampleLib 48000 := by
  have h1 : (staleReverb.Init exampleLib 48000).prev_r_ = -637 / 8000 :=
    (GriesingerReverb.Init_prev exampleLib staleReverb 48000).2.trans staleReverb_prev_r
  have h2 : (GriesingerReverb.fresh.Init exampleLib 48000).prev_r_ = 0 := rfl
  refine ⟨h1, h2, ?_⟩
  intro h
  rw [h, h2] at h1
  norm_num at h1

/-! ## Initialisation -/

theorem fclamp_of_mem {α : Type} [LinearOrderedField α] {lo hi v : α} (h1 : lo ≤ v)
    (h2 : v ≤ hi) : fclamp v lo hi = v := by
  unfold fclamp
  rw [max_eq_left h1, min_eq_left h2]

theorem clampNat_of_mem {lo hi n : Nat} (h1 : lo ≤ n) (h2 : n ≤ hi) :
    clampNat lo hi n = n := by
  unfold clampNat
  split
  · omega
  · split <;> omega

theorem DelayLine.Init_SetDelay_delay {α : Type} [Zero α] {max_size : Nat}
    (d : DelayLine α max_size) {n : Nat} (h1 : 1 ≤ n) (h2 : n ≤ max_size - 1)
    (hsz : max_size < SIZE_MOD) : (d.Init.SetDelay n).delay_ = n := by
  rw [DelayLine.SetDelay_delay _ _ (by omega) hsz]
  exact clampNat_of_mem h1 h2

theorem ap_l_delays_range (i : Fin 2) : 1 ≤ ap_l_delays i ∧ ap_l_delays i ≤ 2047 := by
  fin_cases i <;> simp [ap_l_delays]

theorem ap_r_delays_range (i : Fin 2) : 1 ≤ ap_r_delays i ∧ ap_r_delays i ≤ 2047 := by
  fin_cases i <;> simp [ap_r_delays]

/-- C12 (reference topology).  After `Init(sample_rate)` from any prior state
the network has the reference topology: diffuser delays 113 and 149 with gain
0.65, comb delays 1557, 1617, 1491, 1422 (left) and 1277, 1356, 1188, 1116
(right), tail delays 225, 556 (left) and 341, 441 (right) with gain 0.7, every
delay within `[1, capacity - 1]` and hence kept by the clamp of `SetDelay`,
and parameters decay 0.82, damping 4800, mix 0.35, width 1.0 with all comb
feedbacks 0.82. -/
theorem init_reference_topology {α : Type} [LinearOrderedField α] (m : Daisysp α)
    (s : GriesingerReverb α) (sample_rate : α) :
    ReferenceTopology (s.Init m sample_rate) := by
  have hdecay : fclamp (0.82 : α) 0.1 0.98 = 0.82 :=
    fclamp_of_mem (by norm_num) (by norm_num)
  have hdamp : fclamp (4800 : α) 800 12000 = 4800 :=
    fclamp_of_mem (by norm_num) (by norm_num)
  have hmix : fclamp (0.35 : α) 0 1 = 0.35 := fclamp_of_mem (by norm_num) (by norm_num)
  have hwidth : fclamp (1.0 : α) 0 1 = 1.0 := fclamp_of_mem (by norm_num) (by norm_num)
  have h8 : (8192 : Nat) < SIZE_MOD := by decide
  have h2 : (2048 : Nat) < SIZE_MOD := by decide
  have h1 : (1024 : Nat) < SIZE_MOD := by decide
  have hl : ∀ i, ((s.Init m sample_rate).comb_l_ i).delay_.delay_ = comb_l_delays i :=
    fun i => DelayLine.Init_SetDelay_delay _ (by have := comb_l_delays_range i; omega)
      (by have := comb_l_delays_range i; omega) h8
  have hr : ∀ i, ((s.Init m sample_rate).comb_r_ i).delay_.delay_ = comb_r_delays i :=
    fun i => DelayLine.Init_SetDelay_delay _ (by have := comb_r_delays_range i; omega)
      (by have := comb_r_delays_range i; omega) h8
  have hal : ∀ i, ((s.Init m sample_rate).ap_l_ i).delay_.delay_ = ap_l_delays i :=
    fun i => DelayLine.Init_SetDelay_delay _ (ap_l_delays_range i).1 (ap_l_delays_range i).2 h2
  have har : ∀ i, ((s.Init m sample_rate).ap_r_ i).delay_.delay_ = ap_r_delays i :=
    fun i => DelayLine.Init_SetDelay_delay _ (ap_r_delays_range i).1 (ap_r_delays_range i).2 h2
  refine ⟨⟨?_, ?_, rfl, rfl⟩, ⟨hl 0, hl 1, hl 2, hl 3⟩, ⟨hr 0, hr 1, hr 2, hr 3⟩,
    ⟨hal 0, hal 1, har 0, har 1, fun _ => rfl, fun _ => rfl⟩, ⟨?_, ?_, ?_, ?_, ?_, ?_⟩,
    ⟨hdecay, hdamp, hmix, hwidth⟩, fun _ => hdecay, fun _ => hdecay⟩
  · exact DelayLine.Init_SetDelay_delay _ (by omega) (by omega) h1
  · exact DelayLine.Init_SetDelay_delay _ (by omega) (by omega) h1
  · exact clampNat_of_mem (by omega) (by omega)
  · exact clampNat_of_mem (by omega) (by omega)
  · intro i
    exact clampNat_of_mem (by have := comb_l_delays_range i; omega)
      (by have := comb_l_delays_range i; omega)
  · intro i
    exact clampNat_of_mem (by have := comb_r_delays_range i; omega)
      (by have := comb_r_delays_range i; omega)
  · intro i
    exact clampNat_of_mem (ap_l_delays_range i).1 (ap_l_delays_range i).2
  · intro i
    exact clampNat_of_mem (ap_r_delays_range i).1 (ap_r_delays_range i).2

/-! ## Allpass energy balance in exact arithmetic -/

/-- Allpass energy balance in exact arithmetic: for every allpass state, every
input `x` and every gain `g` with `g² ≠ 1`, with `d` the sample `Process`
reads, `out` the value it returns and `w = x + g·out` the value it writes into
the line, `out² + w²/(1 - g²) = x² + d²/(1 - g²)`.  (In binary32 `out` and `w`
are rounded, see the binary32 sections below.) -/
theorem allpass_energy_balance_exact {α : Type} [LinearOrderedField α] {max_size : Nat}
    (p : Allpass α max_size) (x : α) (hg : p.gain_ ^ 2 ≠ 1) :
    (p.Process x).1.delay_ = p.delay_.Write (x + p.gain_ * (p.Process x).2) ∧
      (p.Process x).2 = -p.gain_ * x + p.delay_.Read ∧
      (p.Process x).2 ^ 2 + (x + p.gain_ * (p.Process x).2) ^ 2 / (1 - p.gain_ ^ 2)
        = x ^ 2 + p.delay_.Read ^ 2 / (1 - p.gain_ ^ 2) := by
  have h1 : (1 : α) - p.gain_ ^ 2 ≠ 0 := fun h => hg (by linear_combination -h)
  refine ⟨rfl, rfl, ?_⟩
  show (-p.gain_ * x + p.delay_.Read) ^ 2
      + (x + p.gain_ * (-p.gain_ * x + p.delay_.Read)) ^ 2 / (1 - p.gain_ ^ 2)
    = x ^ 2 + p.delay_.Read ^ 2 / (1 - p.gain_ ^ 2)
  field_simp
  ring

/-! ## Frame conditions of the setters -/

/-- C20 (setter frame conditions).  For every state and argument: no setter
changes any delay-line buffer, cursor or delay length, any damping
accumulator, any allpass gain, `prev_l_` or `prev_r_`; `SetMix` changes
nothing but `mix_`, `SetWidth` nothing but `width_`, `SetDecay` nothing but
`decay_` and the comb feedback gains, `SetDamping` nothing but `damping_hz_`
and the coefficients `a_`, `b_` of the comb damping filters. -/
theorem setter_frame {α : Type} [LinearOrderedField α] (m : Daisysp α)
    (s : GriesingerReverb α) (v : α) :
    (SetterFrame s (s.SetMix v) ∧ (s.SetMix v).decay_ = s.decay_ ∧
        (s.SetMix v).damping_hz_ = s.damping_hz_ ∧ (s.SetMix v).width_ = s.width_ ∧
        (s.SetMix v).comb_l_ = s.comb_l_ ∧ (s.SetMix v).comb_r_ = s.comb_r_) ∧
      (SetterFrame s (s.SetWidth v) ∧ (s.SetWidth v).decay_ = s.decay_ ∧
        (s.SetWidth v).damping_hz_ = s.damping_hz_ ∧ (s.SetWidth v).mix_ = s.mix_ ∧
        (s.SetWidth v).comb_l_ = s.comb_l_ ∧ (s.SetWidth v).comb_r_ = s.comb_r_) ∧
      (SetterFrame s (s.SetDecay v) ∧ (s.SetDecay v).damping_hz_ = s.damping_hz_ ∧
        (s.SetDecay v).mix_ = s.mix_ ∧ (s.SetDecay v).width_ = s.width_ ∧
        (∀ i, ((s.SetDecay v).comb_l_ i).damping_ = (s.comb_l_ i).damping_) ∧
        ∀ i, ((s.SetDecay v).comb_r_ i).damping_ = (s.comb_r_ i).damping_) ∧
      (SetterFrame s (s.SetDamping m v) ∧ (s.SetDamping m v).decay_ = s.decay_ ∧
        (s.SetDamping m v).mix_ = s.mix_ ∧ (s.SetDamping m v).width_ = s.width_ ∧
        (∀ i, ((s.SetDamping m v).comb_l_ i).feedback_ = (s.comb_l_ i).feedback_) ∧
        ∀ i, ((s.SetDamping m v).comb_r_ i).feedback_ = (s.comb_r_ i).feedback_) := by
  refine ⟨⟨?_, rfl, rfl, rfl, rfl, rfl⟩, ⟨?_, rfl, rfl, rfl, rfl, rfl⟩,
    ⟨?_, rfl, rfl, rfl, fun _ => rfl, fun _ => rfl⟩,
    ⟨?_, rfl, rfl, rfl, fun _ => rfl, fun _ => rfl⟩⟩ <;>
  exact ⟨rfl, rfl, rfl, rfl, rfl, rfl, rfl, fun _ => ⟨rfl, rfl, rfl⟩, fun _ => ⟨rfl, rfl, rfl⟩⟩

/-! ## Silence from rest -/

theorem Comb.Process_rest {α : Type} [LinearOrderedField α] {max_size : Nat}
    (c : Comb α max_size) (h : CombSilent c) :
    (c.Process 0).2 = 0 ∧ CombSilent (c.Process 0).1 := by
  obtain ⟨hb, hz⟩ := h
  have hread : c.delay_.Read = 0 := bufAt_of_zero _ hb _
  have hf : (c.damping_.Process c.delay_.Read).2 = 0 := by
    simp [OnePoleLP.Process, hread, hz]
  refine ⟨hread, ?_, hf⟩
  intro j
  show bufSet c.delay_.buffer_ c.delay_.write_index_
    (0 + (c.damping_.Process c.delay_.Read).2 * c.feedback_) j = 0
  rw [hf, zero_mul, add_zero]
  exact bufSet_zero_of_zero _ hb _ j

theorem Comb.Init_rest {α : Type} [LinearOrderedField α] {max_size : Nat} (m : Daisysp α)
    (c : Comb α max_size) (sample_rate : α) (n : Nat) :
    CombSilent ((c.Init m sample_rate).SetDelay n) := by
  refine ⟨?_, rfl⟩
  intro j
  show zeroFill c.delay_.buffer_ max_size j = 0
  rw [zeroFill_full]

namespace GriesingerReverb
variable {α : Type} [LinearOrderedField α]

theorem Silent_Init (m : Daisysp α) (s : GriesingerReverb α) (sample_rate : α)
    (hl : s.prev_l_ = 0) (hr : s.prev_r_ = 0) : Silent (s.Init m sample_rate) :=
  ⟨hl, hr, Allpass.Init_silent _ _ _, Allpass.Init_silent _ _ _,
    fun i => Comb.Init_rest m (s.comb_l_ i) sample_rate _,
    fun i => Comb.Init_rest m (s.comb_r_ i) sample_rate _,
    fun i => Allpass.Init_silent (s.ap_l_ i) _ _, fun i => Allpass.Init_silent (s.ap_r_ i) _ _⟩

/-- From a network at rest a `Process` call whose inputs cancel in the mono sum
has zero wet signal and leaves the network at rest. -/
theorem Silent_Process (s : GriesingerReverb α) (in_l in_r : α) (h : Silent s)
    (hin : in_l + in_r = 0) :
    (s.tank in_l in_r).2 = (0, 0) ∧ Silent (s.Process in_l in_r).1 := by
  obtain ⟨hpl, hpr, hdl, hdr, hcl, hcr, hal, har⟩ := h
  have hxl : (0.5 : α) * (in_l + in_r) + 0.2 * s.prev_r_ = 0 := by rw [hin, hpr]; simp
  have hxr : (0.5 : α) * (in_l + in_r) + 0.2 * s.prev_l_ = 0 := by rw [hin, hpl]; simp
  have hdl' := Allpass.Process_silent s.in_diff_l_ 0 hdl
  have hdr' := Allpass.Process_silent s.in_diff_r_ 0 hdr
  have hdl0 : (s.in_diff_l_.Process 0).2 = 0 := by rw [hdl'.1, mul_zero]
  have hdr0 : (s.in_diff_r_.Process 0).2 = 0 := by rw [hdr'.1, mul_zero]
  have hl := fun i => Comb.Process_rest (s.comb_l_ i) (hcl i)
  have hr := fun i => Comb.Process_rest (s.comb_r_ i) (hcr i)
  have h0l := Allpass.Process_silent (s.ap_l_ 0) 0 (hal 0)
  have h0r := Allpass.Process_silent (s.ap_r_ 0) 0 (har 0)
  have h1l := Allpass.Process_silent (s.ap_l_ 1) 0 (hal 1)
  have h1r := Allpass.Process_silent (s.ap_r_ 1) 0 (har 1)
  have hl2 := fun i => (hl i).1
  have hr2 := fun i => (hr i).1
  have ht : (s.tank in_l in_r).2 = (0, 0) := by
    simp [tank, hxl, hxr, hdl0, hdr0, hl2, hr2, h0l.1, h0r.1, h1l.1, h1r.1]
  have hp := Process_prev s in_l in_r
  rw [ht, widen_zero] at hp
  refine ⟨ht, hp.1, hp.2, ?_, ?_, ?_, ?_, ?_, ?_⟩
  · show AllpassSilent (s.tank in_l in_r).1.in_diff_l_
    have e : (s.tank in_l in_r).1.in_diff_l_ = (s.in_diff_l_.Process 0).1 := by
      simp [tank, hxl]
    rw [e]; exact hdl'.2 rfl
  · show AllpassSilent (s.tank in_l in_r).1.in_diff_r_
    have e : (s.tank in_l in_r).1.in_diff_r_ = (s.in_diff_r_.Process 0).1 := by
      simp [tank, hxr]
    rw [e]; exact hdr'.2 rfl
  · intro i
    show CombSilent ((s.tank in_l in_r).1.comb_l_ i)
    have e : (s.tank in_l in_r).1.comb_l_ i = ((s.comb_l_ i).Process 0).1 := by
      simp [tank, hxl, hdl0]
    rw [e]; exact (hl i).2
  · intro i
    show CombSilent ((s.tank in_l in_r).1.comb_r_ i)
    have e : (s.tank in_l in_r).1.comb_r_ i = ((s.comb_r_ i).Process 0).1 := by
      simp [tank, hxr, hdr0]
    rw [e]; exact (hr i).2
  · intro i
    show AllpassSilent ((s.tank in_l in_r).1.ap_l_ i)
    fin_cases i
    · have e : (s.tank in_l in_r).1.ap_l_ 0 = ((s.ap_l_ 0).Process 0).1 := by
        simp [tank, hxl, hdl0, hl2]
      show AllpassSilent ((s.tank in_l in_r).1.ap_l_ 0)
      rw [e]; exact h0l.2 rfl
    · have e : (s.tank in_l in_r).1.ap_l_ 1 = ((s.ap_l_ 1).Process 0).1 := by
        simp [tank, hxl, hdl0, hl2, h0l.1]
      show AllpassSilent ((s.tank in_l in_r).1.ap_l_ 1)
      rw [e]; exact h1l.2 rfl
  · intro i
    show AllpassSilent ((s.tank in_l in_r).1.ap_r_ i)
    fin_cases i
    · have e : (s.tank in_l in_r).1.ap_r_ 0 = ((s.ap_r_ 0).Process 0).1 := by
        simp [tank, hxr, hdr0, hr2]
      show AllpassSilent ((s.tank in_l in_r).1.ap_r_ 0)
      rw [e]; exact h0r.2 rfl
    · have e : (s.tank in_l in_r).1.ap_r_ 1 = ((s.ap_r_ 1).Process 0).1 := by
        simp [tank, hxr, hdr0, hr2, h0r.1]
      show AllpassSilent ((s.tank in_l in_r).1.ap_r_ 1)
      rw [e]; exact h1r.2 rfl

/-- With zero wet signal the outputs of `Process` are the dry terms. -/
theorem Process_out_of_tank_zero (s : GriesingerReverb α) (in_l in_r : α)
    (ht : (s.tank in_l in_r).2 = (0, 0)) :
    (s.Process in_l in_r).2 = ((1 - s.mix_) * in_l, (1 - s.mix_) * in_r) := by
  have h1 : (s.tank in_l in_r).2.1 = 0 := by rw [ht]
  have h2 : (s.tank in_l in_r).2.2 = 0 := by rw [ht]
  simp [Process, widen, h1, h2]

theorem Silent_rest_call (m : Daisysp α) (s : GriesingerReverb α) (c : RestCall α)
    (h : Silent s) : Silent (s.call m c.toCall) := by
  cases c with
  | SetDecay v => exact h
  | SetDamping v => exact h
  | SetMix v => exact h
  | SetWidth v => exact h
  | ProcessZero => exact (Silent_Process s 0 0 h (add_zero 0)).2

theorem Silent_rest_calls (m : Daisysp α) (cs : List (RestCall α)) (s : GriesingerReverb α)
    (h : Silent s) :
    Silent (s.calls m (cs.map RestCall.toCall)) ∧
      ∀ o ∈ s.outputs m (cs.map RestCall.toCall), o = (0, 0) := by
  induction cs generalizing s with
  | nil => exact ⟨h, fun o ho => by simp [outputs] at ho⟩
  | cons c cs ih =>
    have h1 := Silent_rest_call m s c h
    obtain ⟨i1, i2⟩ := ih _ h1
    refine ⟨i1, ?_⟩
    cases c with
    | SetDecay v => exact i2
    | SetDamping v => exact i2
    | SetMix v => exact i2
    | SetWidth v => exact i2
    | ProcessZero =>
      intro o ho
      simp only [List.map_cons, RestCall.toCall, outputs, List.mem_cons] at ho
      rcases ho with ho | ho
      · rw [ho, Process_out_of_tank_zero s 0 0 (Silent_Process s 0 0 h (add_zero 0)).1]
        simp
      · exact i2 o ho

end GriesingerReverb

/-- C17 (silence from rest).  From a freshly constructed network after
`Init(sample_rate)`, along every sequence of setter calls and `Process(0, 0)`
calls: every output pair is `(0, 0)`, and all delay buffers, all damping
accumulators and `prev_l_`, `prev_r_` are still zero at the end. -/
theorem silence_from_rest {α : Type} [LinearOrderedField α] (m : Daisysp α)
    (sample_rate : α) (cs : List (RestCall α)) :
    Silent ((GriesingerReverb.fresh.Init m sample_rate).calls m (cs.map RestCall.toCall)) ∧
      ∀ o ∈ (GriesingerReverb.fresh.Init m sample_rate).outputs m (cs.map RestCall.toCall),
        o = (0, 0) :=
  GriesingerReverb.Silent_rest_calls m cs _
    (GriesingerReverb.Silent_Init m GriesingerReverb.fresh sample_rate rfl rfl)

/-! ## The wet path sees the mono sum only -/

namespace GriesingerReverb
variable {α : Type} [LinearOrderedField α]

theorem tank_of_sum_eq (s : GriesingerReverb α) {a b a' b' : α} (h : a + b = a' + b') :
    s.tank a b = s.tank a' b' := by
  simp only [tank, h]

/-- A block of pure side inputs `(x, -x)` leaves a network at rest at rest and
returns the dry terms only. -/
theorem Silent_side_block (xs : List α) (s : GriesingerReverb α) (h : Silent s) :
    Silent (s.ProcessBlock (xs.map fun x => (x, -x))).1 ∧
      (s.ProcessBlock (xs.map fun x => (x, -x))).2
        = xs.map fun x => ((1 - s.mix_) * x, (1 - s.mix_) * -x) := by
  induction xs generalizing s with
  | nil => exact ⟨h, rfl⟩
  | cons x xs ih =>
    have hs := Silent_Process s x (-x) h (add_neg_cancel x)
    obtain ⟨i1, i2⟩ := ih _ hs.2
    simp only [List.map_cons, ProcessBlock]
    refine ⟨i1, ?_⟩
    rw [i2, Process_out_of_tank_zero s x (-x) hs.1, Process_mix]

end GriesingerReverb

/-- C18 (the wet path sees only the mono sum).  For every state and any two
input pairs with `a + b = a' + b'`, `Process` yields the same new state, the
same pre- and post-width wet pair, and outputs that differ only in the dry
terms `(1 - mix)·a` versus `(1 - mix)·a'` and `(1 - mix)·b` versus
`(1 - mix)·b'`.  In particular a block of pure side inputs `(x, -x)` into a
freshly initialised network has zero wet signal: the network stays at rest and
returns the dry terms. -/
theorem wet_path_mono_sum {α : Type} [LinearOrderedField α] (m : Daisysp α)
    (sample_rate : α) (s : GriesingerReverb α) (a b a' b' : α) (xs : List α)
    (h : a + b = a' + b') :
    (s.Process a b).1 = (s.Process a' b').1 ∧
      (s.tank a b).2 = (s.tank a' b').2 ∧
      ((s.Process a b).1.prev_l_, (s.Process a b).1.prev_r_)
        = ((s.Process a' b').1.prev_l_, (s.Process a' b').1.prev_r_) ∧
      (s.Process a b).2.1 - (1 - s.mix_) * a = (s.Process a' b').2.1 - (1 - s.mix_) * a' ∧
      (s.Process a b).2.2 - (1 - s.mix_) * b = (s.Process a' b').2.2 - (1 - s.mix_) * b' ∧
      Silent ((GriesingerReverb.fresh.Init m sample_rate).ProcessBlock
        (xs.map fun x => (x, -x))).1 ∧
      ((GriesingerReverb.fresh.Init m sample_rate).ProcessBlock (xs.map fun x => (x, -x))).2
        = xs.map fun x =>
            ((1 - (GriesingerReverb.fresh.Init m sample_rate).mix_) * x,
              (1 - (GriesingerReverb.fresh.Init m sample_rate).mix_) * -x) := by
  have ht := GriesingerReverb.tank_of_sum_eq s h
  have hs : (s.Process a b).1 = (s.Process a' b').1 := by
    simp only [GriesingerReverb.Process, ht]
  have hside := GriesingerReverb.Silent_side_block xs _
    (GriesingerReverb.Silent_Init m GriesingerReverb.fresh sample_rate rfl rfl)
  refine ⟨hs, by rw [ht], by rw [hs], ?_, ?_, hside.1, hside.2⟩
  · simp only [GriesingerReverb.Process, ht]; ring
  · simp only [GriesingerReverb.Process, ht]; ring

/-- C18 on the concrete network: the input pairs `(3, -4)` and `(-2, 1)` have
the same sum and lead to the same state. -/
theorem wet_path_mono_sum_witness :
    (3 : ℚ) + -4 = -2 + 1 ∧
      (exampleReverb.Process 3 (-4)).1 = (exampleReverb.Process (-2) 1).1 :=
  ⟨by norm_num,
    (wet_path_mono_sum exampleLib 48000 exampleReverb 3 (-4) (-2) 1 [] (by norm_num)).1⟩

/-! ## Initial wet latency -/

theorem ticks_replicate_Process {α : Type} (n : Nat) (l r : α) :
    ticks (List.replicate n (Call.Process l r)) = n := by
  induction n with
  | zero => rfl
  | succ n ih =>
    rw [List.replicate_succ]
    simp only [ticks, Call.tick, ih]
    omega

namespace GriesingerReverb
variable {α : Type} [LinearOrderedField α]

theorem Quiet_call (m : Daisysp α) (s : GriesingerReverb α) (c : Call α) {k : Nat}
    (h : Quiet k s) (hk : k + c.tick ≤ 1116) :
    Quiet (k + c.tick) (s.call m c) ∧
      (0 < k → bufAt ((s.call m c).comb_r_ 3).delay_.buffer_ 0
        = bufAt (s.comb_r_ 3).delay_.buffer_ 0) := by
  cases c with
  | SetDecay v => exact ⟨h, fun _ => rfl⟩
  | SetDamping v => exact ⟨h, fun _ => rfl⟩
  | SetMix v => exact ⟨h, fun _ => rfl⟩
  | SetWidth v => exact ⟨h, fun _ => rfl⟩
  | Process l r =>
    simp only [Call.tick] at hk
    exact ⟨Quiet_Process s l r h (by omega), fun hk0 => slot_keep s l r h hk0 (by omega)⟩

theorem Quiet_calls (m : Daisysp α) (cs : List (Call α)) (s : GriesingerReverb α) {k : Nat}
    (h : Quiet k s) (hk : k + ticks cs ≤ 1116) :
    Quiet (k + ticks cs) (s.calls m cs) ∧
      (0 < k → bufAt ((s.calls m cs).comb_r_ 3).delay_.buffer_ 0
        = bufAt (s.comb_r_ 3).delay_.buffer_ 0) := by
  induction cs generalizing s k with
  | nil => exact ⟨h, fun _ => rfl⟩
  | cons c cs ih =>
    simp only [ticks] at hk
    obtain ⟨h1, h2⟩ := Quiet_call m s c h (by omega)
    obtain ⟨i1, i2⟩ := ih (s.call m c) h1 (by omega)
    simp only [ticks, calls]
    refine ⟨?_, ?_⟩
    · rw [← Nat.add_assoc]; exact i1
    · intro hk0
      rw [i2 (by omega), h2 hk0]

theorem call_ap_r_gain (m : Daisysp α) (s : GriesingerReverb α) (c : Call α) :
    ((s.call m c).ap_r_ 0).gain_ = (s.ap_r_ 0).gain_ ∧
      ((s.call m c).ap_r_ 1).gain_ = (s.ap_r_ 1).gain_ := by
  cases c <;> exact ⟨rfl, rfl⟩

theorem calls_ap_r_gain (m : Daisysp α) (cs : List (Call α)) (s : GriesingerReverb α) :
    ((s.calls m cs).ap_r_ 0).gain_ = (s.ap_r_ 0).gain_ ∧
      ((s.calls m cs).ap_r_ 1).gain_ = (s.ap_r_ 1).gain_ := by
  induction cs generalizing s with
  | nil => exact ⟨rfl, rfl⟩
  | cons c cs ih =>
    obtain ⟨i1, i2⟩ := ih (s.call m c)
    obtain ⟨h1, h2⟩ := call_ap_r_gain m s c
    exact ⟨i1.trans h1, i2.trans h2⟩

/-- Setter calls leave the right input diffuser and `prev_l_` alone. -/
theorem calls_of_ticks_zero (m : Daisysp α) (cs : List (Call α)) (s : GriesingerReverb α)
    (h : ticks cs = 0) :
    (s.calls m cs).in_diff_r_ = s.in_diff_r_ ∧ (s.calls m cs).prev_l_ = s.prev_l_ := by
  induction cs generalizing s with
  | nil => exact ⟨rfl, rfl⟩
  | cons c cs ih =>
    simp only [ticks] at h
    have hc : ticks cs = 0 := by omega
    obtain ⟨i1, i2⟩ := ih (s.call m c) hc
    cases c with
    | SetDecay v => exact ⟨i1, i2⟩
    | SetDamping v => exact ⟨i1, i2⟩
    | SetMix v => exact ⟨i1, i2⟩
    | SetWidth v => exact ⟨i1, i2⟩
    | Process l r => simp [Call.tick] at h

/-- In the quiet phase `Process` returns the dry terms and leaves the
cross-feedback values zero. -/
theorem Process_in_quiet_phase (s : GriesingerReverb α) (in_l in_r : α) {k : Nat}
    (h : Quiet k s)
    (hk : k < 1116) :
    (s.Process in_l in_r).2 = ((1 - s.mix_) * in_l, (1 - s.mix_) * in_r) ∧
      (s.Process in_l in_r).1.prev_l_ = 0 ∧ (s.Process in_l in_r).1.prev_r_ = 0 := by
  have hq := Quiet_Process s in_l in_r h hk
  exact ⟨Process_out_of_tank_zero s in_l in_r (tank_quiet s in_l in_r h hk).1, hq.1, hq.2.1⟩

end GriesingerReverb

/-- C19 (initial wet latency).  From a freshly constructed network after
`Init`, with setter calls interleaved anywhere: every `Process` call preceded
by fewer than 1116 `Process` calls returns the dry terms `(1 - mix)·in` only
and leaves `prev_l_ = prev_r_ = 0`; and at call index 1116 the pre-width wet
pair is `(0, -(637/8000)·mono₀)`, where `mono₀ = 0.5·(l0 + r0)` is the mono sum
of the input of call 0. -/
theorem initial_wet_latency {α : Type} [LinearOrderedField α] (m : Daisysp α)
    (sample_rate : α) (pre mid : List (Call α)) (l0 r0 l r : α)
    (hpre : ticks pre = 0) (hmid : ticks mid = 1115) :
    (∀ (cs : List (Call α)) (x y : α), ticks cs < 1116 →
        (((GriesingerReverb.fresh.Init m sample_rate).calls m cs).Process x y).2
            = ((1 - ((GriesingerReverb.fresh.Init m sample_rate).calls m cs).mix_) * x,
                (1 - ((GriesingerReverb.fresh.Init m sample_rate).calls m cs).mix_) * y) ∧
          (((GriesingerReverb.fresh.Init m sample_rate).calls m cs).Process x y).1.prev_l_ = 0 ∧
          (((GriesingerReverb.fresh.Init m sample_rate).calls m cs).Process x y).1.prev_r_
            = 0) ∧
      (((((GriesingerReverb.fresh.Init m sample_rate).calls m pre).Process l0 r0).1.calls
          m mid).tank l r).2 = (0, -(637 / 8000) * (0.5 * (l0 + r0))) := by
  have q0 : Quiet 0 (GriesingerReverb.fresh.Init m sample_rate) :=
    GriesingerReverb.Quiet_Init m GriesingerReverb.fresh sample_rate rfl rfl
  constructor
  · intro cs x y hcs
    have hq := (GriesingerReverb.Quiet_calls m cs _ q0 (by omega)).1
    exact GriesingerReverb.Process_in_quiet_phase _ x y hq (by omega)
  · have qpre := (GriesingerReverb.Quiet_calls m pre _ q0 (by omega)).1
    rw [hpre] at qpre
    obtain ⟨hd, hp⟩ := GriesingerReverb.calls_of_ticks_zero m pre
      (GriesingerReverb.fresh.Init m sample_rate) hpre
    have q1 := GriesingerReverb.Quiet_Process _ l0 r0 qpre (by decide)
    have hslot := GriesingerReverb.slot_first _ l0 r0 qpre
    have hsil : AllpassSilent (GriesingerReverb.fresh.Init m sample_rate).in_diff_r_ :=
      Allpass.Init_silent (GriesingerReverb.fresh (α := α)).in_diff_r_ 149 0.65
    have hgd : (GriesingerReverb.fresh.Init m sample_rate).in_diff_r_.gain_ = 0.65 := rfl
    have hp0 : (GriesingerReverb.fresh.Init m sample_rate).prev_l_ = 0 := rfl
    rw [hd, hp, (Allpass.Process_silent _ _ hsil).1, hgd, hp0] at hslot
    obtain ⟨q, hs⟩ := GriesingerReverb.Quiet_calls m mid _ q1 (by omega)
    rw [hmid] at q
    have ht := GriesingerReverb.tank_first_echo _ l r q
    obtain ⟨g0, g1⟩ := GriesingerReverb.calls_ap_r_gain m mid
      (((GriesingerReverb.fresh.Init m sample_rate).calls m pre).Process l0 r0).1
    obtain ⟨g0', g1'⟩ := GriesingerReverb.call_ap_r_gain m
      ((GriesingerReverb.fresh.Init m sample_rate).calls m pre) (.Process l0 r0)
    obtain ⟨g0'', g1''⟩ := GriesingerReverb.calls_ap_r_gain m pre
      (GriesingerReverb.fresh.Init m sample_rate)
    have e0 : ((GriesingerReverb.fresh.Init m sample_rate).ap_r_ 0).gain_ = 0.7 := rfl
    have e1 : ((GriesingerReverb.fresh.Init m sample_rate).ap_r_ 1).gain_ = 0.7 := rfl
    simp only [GriesingerReverb.call] at g0' g1'
    rw [Prod.ext_iff]
    refine ⟨ht.1, ?_⟩
    rw [ht.2, hs (by decide), hslot, g0, g1, g0', g1', g0'', g1'', e0, e1]
    norm_num
    ring

/-- C19 on the concrete network: after `SetMix(1)` and `SetWidth(1/2)`, a first
call `Process(1, 1)` and 1115 further calls `Process(2, 3)`, the pre-width wet
pair of call 1116 is `(0, -637/8000)`. -/
theorem initial_wet_latency_witness :
    (((((GriesingerReverb.fresh.Init exampleLib 48000).calls exampleLib
        [Call.SetMix 1, Call.SetWidth (1 / 2)]).Process 1 1).1.calls exampleLib
          (List.replicate 1115 (Call.Process 2 3))).tank 5 7).2
      = (0, -(637 / 8000) * (0.5 * (1 + 1))) :=
  (initial_wet_latency exampleLib 48000 [Call.SetMix 1, Call.SetWidth (1 / 2)]
    (List.replicate 1115 (Call.Process 2 3)) 1 1 5 7 rfl
    (ticks_replicate_Process 1115 2 3)).2

/-! ## Delay lines as histories of written values -/

namespace DelayLine
variable {α : Type} [Zero α] {max_size : Nat}

theorem Tracks_Init (d : DelayLine α max_size) (n : Nat) (w : Nat → α) :
    (d.Init.SetDelay n).Tracks w 0 := by
  refine ⟨by simp [Init, SetDelay], fun t ht => absurd ht (Nat.not_lt_zero t), ?_⟩
  intro j _ _
  exact bufAt_of_zero _ (fun i => by show zeroFill d.buffer_ max_size i = 0; rw [zeroFill_full]) j

theorem Tracks_Write (d : DelayLine α max_size) (w : Nat → α) (T : Nat)
    (hC : 1 ≤ max_size) (hsz : max_size < SIZE_MOD) (h : d.Tracks w T) :
    (d.Write (w T)).Tracks w (T + 1) := by
  obtain ⟨hw, hb, hz⟩ := h
  have hlt : T % max_size < max_size := Nat.mod_lt _ (by omega)
  refine ⟨?_, ?_, ?_⟩
  · rw [Write_write_index d _ (by rw [hw]; exact hlt) hsz, hw, Nat.mod_add_mod]
  · intro t ht hT
    show bufAt (bufSet d.buffer_ d.write_index_ (w T)) (t % max_size) = w t
    rw [hw]
    by_cases h0 : t = T
    · rw [h0]; exact bufAt_bufSet_same _ _ hlt
    · have hne : t % max_size ≠ T % max_size := by
        intro he
        have h0 := Nat.sub_mod_eq_zero_of_mod_eq he.symm
        rw [Nat.mod_eq_of_lt (by omega)] at h0
        omega
      rw [bufAt_bufSet_ne _ _ hne]
      exact hb t (by omega) (by omega)
  · intro j hj hjC
    show bufAt (bufSet d.buffer_ d.write_index_ (w T)) j = 0
    rw [hw]
    have hle : T % max_size ≤ T := Nat.mod_le _ _
    rw [bufAt_bufSet_ne _ _ (by omega)]
    exact hz j (by omega) hjC

theorem Read_of_Tracks (d : DelayLine α max_size) (w : Nat → α) (T n : Nat)
    (hsz : 2 * max_size ≤ SIZE_MOD) (hn1 : 1 ≤ n) (hn2 : n ≤ max_size - 1)
    (hd : d.delay_ = n) (h : d.Tracks w T) :
    d.Read = if T < n then 0 else w (T - n) := by
  obtain ⟨hw, hb, hz⟩ := h
  have hlt : T % max_size < max_size := Nat.mod_lt _ (by omega)
  have hv : d.Valid := ⟨by rw [hw]; exact hlt, by omega, by omega⟩
  unfold Read
  rw [read_index_eq d hsz hv, hw, hd]
  split
  · next h1 =>
    have hT : T % max_size = T := Nat.mod_eq_of_lt (by omega)
    rw [hT, Nat.mod_eq_of_lt (by omega)]
    exact hz _ (by omega) (by omega)
  · next h1 =>
    have e : (T % max_size + max_size - n) % max_size = (T - n) % max_size := by
      rw [Nat.add_sub_assoc (by omega), Nat.mod_add_mod,
        show T + (max_size - n) = T - n + max_size by omega, Nat.add_mod_right]
    rw [e]
    exact hb (T - n) (by omega) (by omega)

end DelayLine

/-! ## Input/output relation of the comb -/

namespace Comb
variable {α : Type} [LinearOrderedField α] {max_size : Nat}

theorem comb_stateAt_params (c : Comb α max_size) (x : Nat → α) (t : Nat) :
    (c.stateAt x t).feedback_ = c.feedback_ ∧ (c.stateAt x t).damping_.a_ = c.damping_.a_ ∧
      (c.stateAt x t).damping_.b_ = c.damping_.b_ ∧
      (c.stateAt x t).delay_.delay_ = c.delay_.delay_ := by
  induction t with
  | zero => exact ⟨rfl, rfl, rfl, rfl⟩
  | succ t ih => exact ih

theorem comb_stateAt_Tracks (c : Comb α max_size) (x : Nat → α) (t : Nat)
    (hC : 1 ≤ max_size) (hsz : max_size < SIZE_MOD)
    (h0 : c.delay_.Tracks (fun s => x s + c.dampAt x s * c.feedback_) 0) :
    (c.stateAt x t).delay_.Tracks (fun s => x s + c.dampAt x s * c.feedback_) t := by
  induction t with
  | zero => exact h0
  | succ t ih =>
    have h := DelayLine.Tracks_Write _ _ t hC hsz ih
    have e : (c.stateAt x (t + 1)).delay_
        = (c.stateAt x t).delay_.Write (x t + c.dampAt x t * c.feedback_) := by
      show (c.stateAt x t).delay_.Write (x t + c.dampAt x t * (c.stateAt x t).feedback_) = _
      rw [(comb_stateAt_params c x t).1]
    rw [e]
    exact h

theorem stateAt_congr (c : Comb α max_size) (x x' : Nat → α) (t : Nat)
    (h : ∀ s, s < t → x s = x' s) : c.stateAt x t = c.stateAt x' t := by
  induction t with
  | zero => rfl
  | succ t ih =>
    simp only [stateAt]
    rw [ih (fun s hs => h s (by omega)), h t (by omega)]

theorem dampAt_zero (c : Comb α max_size) (x : Nat → α) :
    c.dampAt x 0 = c.damping_.b_ * c.outAt x 0 + c.damping_.a_ * c.damping_.z_ := rfl

theorem dampAt_succ (c : Comb α max_size) (x : Nat → α) (t : Nat) :
    c.dampAt x (t + 1) = c.damping_.b_ * c.outAt x (t + 1) + c.damping_.a_ * c.dampAt x t := by
  have hp := comb_stateAt_params c x (t + 1)
  show (c.stateAt x (t + 1)).damping_.b_ * (c.stateAt x (t + 1)).delay_.Read
      + (c.stateAt x (t + 1)).damping_.a_ * (c.stateAt x (t + 1)).damping_.z_ = _
  rw [hp.2.1, hp.2.2.1]
  rfl

end Comb

/-- C13 (comb input/output relation).  For a comb of capacity `max_size ≥ 2`
after `Init`, `SetDelay(n)` with `1 ≤ n ≤ max_size - 1`, `SetFeedback(g)` and
`SetDamping(hz)`, and every input sequence `x`: the returned values `y` satisfy
`y t = 0` for `t < n` and `y (t + n) = x t + g · f t`, where `f` is the damping
filter's output, `f 0 = b · y 0` and `f (t + 1) = b · y (t + 1) + a · f t`; and
`y t` does not depend on `x t` or any later input. -/
theorem comb_io_relation {α : Type} [LinearOrderedField α] {max_size : Nat} (m : Daisysp α)
    (c : Comb α max_size) (sample_rate g hz : α) (n : Nat) (x : Nat → α)
    (hC : 2 ≤ max_size) (hsz : 2 * max_size ≤ SIZE_MOD) (hn1 : 1 ≤ n)
    (hn2 : n ≤ max_size - 1) :
    (∀ t, t < n →
        ((((c.Init m sample_rate).SetDelay n).SetFeedback g).SetDamping m hz).outAt x t = 0) ∧
      (∀ t, ((((c.Init m sample_rate).SetDelay n).SetFeedback g).SetDamping m hz).outAt x (t + n)
        = x t
          + g * ((((c.Init m sample_rate).SetDelay n).SetFeedback g).SetDamping m hz).dampAt x t) ∧
      ((((c.Init m sample_rate).SetDelay n).SetFeedback g).SetDamping m hz).dampAt x 0
        = ((((c.Init m sample_rate).SetDelay n).SetFeedback g).SetDamping m hz).damping_.b_
          * ((((c.Init m sample_rate).SetDelay n).SetFeedback g).SetDamping m hz).outAt x 0 ∧
      (∀ t, ((((c.Init m sample_rate).SetDelay n).SetFeedback g).SetDamping m hz).dampAt x (t + 1)
        = ((((c.Init m sample_rate).SetDelay n).SetFeedback g).SetDamping m hz).damping_.b_
            * ((((c.Init m sample_rate).SetDelay n).SetFeedback g).SetDamping m hz).outAt x
                (t + 1)
          + ((((c.Init m sample_rate).SetDelay n).SetFeedback g).SetDamping m hz).damping_.a_
            * ((((c.Init m sample_rate).SetDelay n).SetFeedback g).SetDamping m hz).dampAt x t) ∧
      ∀ (x' : Nat → α) (t : Nat), (∀ s, s < t → x s = x' s) →
        ((((c.Init m sample_rate).SetDelay n).SetFeedback g).SetDamping m hz).outAt x t
          = ((((c.Init m sample_rate).SetDelay n).SetFeedback g).SetDamping m hz).outAt x' t := by
  generalize hc0 : (((c.Init m sample_rate).SetDelay n).SetFeedback g).SetDamping m hz = c0
  have hfb : c0.feedback_ = g := by rw [← hc0]; rfl
  have hz0 : c0.damping_.z_ = 0 := by rw [← hc0]; rfl
  have hdel : c0.delay_.delay_ = n := by
    rw [← hc0]
    exact DelayLine.Init_SetDelay_delay c.delay_ hn1 hn2 (by omega)
  have h0 : c0.delay_.Tracks (fun s => x s + c0.dampAt x s * c0.feedback_) 0 := by
    rw [← hc0]
    exact DelayLine.Tracks_Init c.delay_ n _
  have hread : ∀ t, c0.outAt x t
      = if t < n then 0 else x (t - n) + c0.dampAt x (t - n) * c0.feedback_ := by
    intro t
    have ht := Comb.comb_stateAt_Tracks c0 x t (by omega) (by omega) h0
    have hd : (c0.stateAt x t).delay_.delay_ = n := by
      rw [(Comb.comb_stateAt_params c0 x t).2.2.2, hdel]
    exact DelayLine.Read_of_Tracks _ _ t n hsz hn1 hn2 hd ht
  refine ⟨?_, ?_, ?_, ?_, ?_⟩
  · intro t ht
    rw [hread t, if_pos ht]
  · intro t
    rw [hread (t + n), if_neg (by omega), Nat.add_sub_cancel, hfb, mul_comm]
  · rw [Comb.dampAt_zero, hz0, mul_zero, add_zero]
  · intro t
    exact Comb.dampAt_succ c0 x t
  · intro x' t hx
    show ((c0.stateAt x t).Process (x t)).2 = ((c0.stateAt x' t).Process (x' t)).2
    rw [Comb.stateAt_congr c0 x x' t hx]
    rfl

/-- C13 on a concrete comb of capacity 4 with delay 2 and feedback 1/2, fed
the ramp 1, 2, 3, ...: the value returned at tick 5 is the input of tick 3
plus half the damping output of tick 3. -/
theorem comb_io_relation_witness :
    exampleComb.outAt exampleRamp (3 + 2)
      = exampleRamp 3 + 1 / 2 * exampleComb.dampAt exampleRamp 3 :=
  (comb_io_relation exampleLib Comb.fresh 48000 (1 / 2) 1000 2 exampleRamp (by decide)
    (by decide) (by decide) (by decide)).2.1 3

/-! ## Input/output relation of the allpass -/

namespace Allpass
variable {α : Type} [LinearOrderedField α] {max_size : Nat}

theorem ap_stateAt_params (p : Allpass α max_size) (x : Nat → α) (t : Nat) :
    (p.stateAt x t).gain_ = p.gain_ ∧ (p.stateAt x t).delay_.delay_ = p.delay_.delay_ := by
  induction t with
  | zero => exact ⟨rfl, rfl⟩
  | succ t ih => exact ih

theorem outAt_eq (p : Allpass α max_size) (x : Nat → α) (t : Nat) :
    p.outAt x t = -p.gain_ * x t + (p.stateAt x t).delay_.Read := by
  show -(p.stateAt x t).gain_ * x t + (p.stateAt x t).delay_.Read = _
  rw [(ap_stateAt_params p x t).1]

theorem ap_stateAt_Tracks (p : Allpass α max_size) (x : Nat → α) (t : Nat)
    (hC : 1 ≤ max_size) (hsz : max_size < SIZE_MOD)
    (h0 : p.delay_.Tracks (fun s => x s + p.gain_ * p.outAt x s) 0) :
    (p.stateAt x t).delay_.Tracks (fun s => x s + p.gain_ * p.outAt x s) t := by
  induction t with
  | zero => exact h0
  | succ t ih =>
    have h := DelayLine.Tracks_Write _ _ t hC hsz ih
    have e : (p.stateAt x (t + 1)).delay_
        = (p.stateAt x t).delay_.Write (x t + p.gain_ * p.outAt x t) := by
      show (p.stateAt x t).delay_.Write (x t + (p.stateAt x t).gain_ * p.outAt x t) = _
      rw [(ap_stateAt_params p x t).1]
    rw [e]
    exact h

end Allpass

/-- C14 (allpass input/output relation).  For an allpass of capacity
`max_size ≥ 2` after `Init`, `SetDelay(n)` with `1 ≤ n ≤ max_size - 1` and
`SetGain(g)`, and every input sequence `x`: the returned values `y` satisfy
`y t = -g · x t` for `t < n` and `y (t + n) = -g · x (t + n) + x t + g · y t`. -/
theorem allpass_io_relation {α : Type} [LinearOrderedField α] {max_size : Nat}
    (p : Allpass α max_size) (g : α) (n : Nat) (x : Nat → α)
    (hC : 2 ≤ max_size) (hsz : 2 * max_size ≤ SIZE_MOD) (hn1 : 1 ≤ n)
    (hn2 : n ≤ max_size - 1) :
    (∀ t, t < n → ((p.Init.SetDelay n).SetGain g).outAt x t = -g * x t) ∧
      ∀ t, ((p.Init.SetDelay n).SetGain g).outAt x (t + n)
        = -g * x (t + n) + x t + g * ((p.Init.SetDelay n).SetGain g).outAt x t := by
  generalize hp0 : (p.Init.SetDelay n).SetGain g = p0
  have hg : p0.gain_ = g := by rw [← hp0]; rfl
  have hdel : p0.delay_.delay_ = n := by
    rw [← hp0]
    exact DelayLine.Init_SetDelay_delay p.delay_ hn1 hn2 (by omega)
  have h0 : p0.delay_.Tracks (fun s => x s + p0.gain_ * p0.outAt x s) 0 := by
    rw [← hp0]
    exact DelayLine.Tracks_Init p.delay_ n _
  have hread : ∀ t, (p0.stateAt x t).delay_.Read
      = if t < n then 0 else x (t - n) + p0.gain_ * p0.outAt x (t - n) := by
    intro t
    have ht := Allpass.ap_stateAt_Tracks p0 x t (by omega) (by omega) h0
    have hd : (p0.stateAt x t).delay_.delay_ = n := by
      rw [(Allpass.ap_stateAt_params p0 x t).2, hdel]
    exact DelayLine.Read_of_Tracks _ _ t n hsz hn1 hn2 hd ht
  constructor
  · intro t ht
    rw [Allpass.outAt_eq, hread t, if_pos ht, hg, add_zero]
  · intro t
    rw [Allpass.outAt_eq p0 x (t + n), hread (t + n), if_neg (by omega), Nat.add_sub_cancel,
      hg, add_assoc]

/-- C14 on a concrete allpass of capacity 4 with delay 2 and gain 1/2, fed the
ramp 1, 2, 3, ... -/
theorem allpass_io_relation_witness :
    exampleAllpass.outAt exampleRamp (3 + 2)
      = -(1 / 2) * exampleRamp (3 + 2) + exampleRamp 3
        + 1 / 2 * exampleAllpass.outAt exampleRamp 3 :=
  (allpass_io_relation Allpass.fresh (1 / 2) 2 exampleRamp (by decide) (by decide)
    (by decide) (by decide)).2 3

/-! ## Coefficients of the one-pole filter -/

namespace OnePoleLP

theorem CoeffOK_of_a {α : Type} [LinearOrderedField α] (f : OnePoleLP α) (h0 : 0 ≤ f.a_)
    (h1 : f.a_ < 1) (hb : f.b_ = 1 - f.a_) : f.CoeffOK := by
  refine ⟨h0, h1, hb, ?_, ?_, ?_⟩ <;> rw [hb] <;> linarith

theorem SetCutoff_real (m : Daisysp ℝ) (hm : m.IsReal) (f : OnePoleLP ℝ) (hz : ℝ)
    (hsr : 0 < f.sample_rate_) (hhz : 0 < hz) :
    (f.SetCutoff m hz).a_ = Real.exp (-2 * Real.pi * hz / f.sample_rate_) ∧
      (f.SetCutoff m hz).b_ = 1 - (f.SetCutoff m hz).a_ ∧ (f.SetCutoff m hz).CoeffOK ∧
      (f.SetCutoff m hz).sample_rate_ = f.sample_rate_ := by
  have ha : (f.SetCutoff m hz).a_ = Real.exp (-2 * Real.pi * hz / f.sample_rate_) := by
    show m.expf (-2 * m.PI_F * hz / f.sample_rate_) = _
    rw [hm.1, hm.2]
  have hneg : -2 * Real.pi * hz / f.sample_rate_ < 0 := by
    apply div_neg_of_neg_of_pos _ hsr
    have := mul_pos Real.pi_pos hhz
    linarith
  refine ⟨ha, rfl, ?_, rfl⟩
  apply CoeffOK_of_a _ _ _ rfl
  · rw [ha]; exact (Real.exp_pos _).le
  · rw [ha]; exact Real.exp_lt_one_iff.mpr hneg

theorem Init_real (m : Daisysp ℝ) (hm : m.IsReal) (f : OnePoleLP ℝ) (sample_rate : ℝ)
    (hsr : 0 < sample_rate) :
    (f.Init m sample_rate).CoeffOK ∧ (f.Init m sample_rate).sample_rate_ = sample_rate := by
  have h := SetCutoff_real m hm { f with sample_rate_ := sample_rate, z_ := 0 } 6000 hsr
    (by norm_num)
  exact ⟨h.2.2.1, h.2.2.2⟩

end OnePoleLP

namespace GriesingerReverb

theorem DampingOK_SetDamping (m : Daisysp ℝ) (hm : m.IsReal) (s : GriesingerReverb ℝ) (v : ℝ)
    (h : DampingOK s) : DampingOK (s.SetDamping m v) := by
  have hpos : (0 : ℝ) < fclamp v 800 12000 :=
    lt_of_lt_of_le (by norm_num) (fclamp_mem (by norm_num) v).1
  constructor
  · intro i
    have h1 := OnePoleLP.SetCutoff_real m hm (s.comb_l_ i).damping_ _ (h.1 i).2 hpos
    exact ⟨h1.2.2.1, by rw [← h1.2.2.2] at *; exact (h.1 i).2⟩
  · intro i
    have h1 := OnePoleLP.SetCutoff_real m hm (s.comb_r_ i).damping_ _ (h.2 i).2 hpos
    exact ⟨h1.2.2.1, by rw [← h1.2.2.2] at *; exact (h.2 i).2⟩

theorem DampingOK_call (m : Daisysp ℝ) (hm : m.IsReal) (s : GriesingerReverb ℝ) (c : Call ℝ)
    (h : DampingOK s) : DampingOK (s.call m c) := by
  cases c with
  | SetDecay v => exact h
  | SetDamping v => exact DampingOK_SetDamping m hm s v h
  | SetMix v => exact h
  | SetWidth v => exact h
  | Process l r => exact h

theorem DampingOK_calls (m : Daisysp ℝ) (hm : m.IsReal) (cs : List (Call ℝ))
    (s : GriesingerReverb ℝ) (h : DampingOK s) : DampingOK (s.calls m cs) := by
  induction cs generalizing s with
  | nil => exact h
  | cons c cs ih => exact ih _ (DampingOK_call m hm s c h)

theorem DampingOK_Init (m : Daisysp ℝ) (hm : m.IsReal) (s : GriesingerReverb ℝ)
    (sample_rate : ℝ) (hsr : 0 < sample_rate) : DampingOK (s.Init m sample_rate) := by
  have h0 : DampingOK
      ({ s with
        comb_l_ := fun i => ((s.comb_l_ i).Init m sample_rate).SetDelay (comb_l_delays i)
        comb_r_ := fun i => ((s.comb_r_ i).Init m sample_rate).SetDelay (comb_r_delays i) } :
        GriesingerReverb ℝ) := by
    constructor
    · intro i
      have h := OnePoleLP.Init_real m hm (s.comb_l_ i).damping_ sample_rate hsr
      exact ⟨h.1, by rw [← h.2] at hsr; exact hsr⟩
    · intro i
      have h := OnePoleLP.Init_real m hm (s.comb_r_ i).damping_ sample_rate hsr
      exact ⟨h.1, by rw [← h.2] at hsr; exact hsr⟩
  exact DampingOK_SetDamping m hm _ 4800 h0

end GriesingerReverb

/-- C15 (one-pole coefficient invariant).  With `expf` the real exponential and
`PI_F = π`, for every positive sample rate: `SetCutoff(hz)` with `hz > 0` stores
`a = exp(-2π·hz/sampleRate)` and `b = 1 - a` with `0 ≤ a < 1`, `0 < b ≤ 1`,
`a + b = 1`; the same invariant holds for the default-constructed filter and
after `Init`, and for the damping filter of every comb in every state the
network reaches from `Init` by setter and `Process` calls. -/
theorem one_pole_coefficients (m : Daisysp ℝ) (sample_rate : ℝ) (hm : m.IsReal)
    (hsr : 0 < sample_rate) :
    (∀ (f : OnePoleLP ℝ) (hz : ℝ), f.sample_rate_ = sample_rate → 0 < hz →
        (f.SetCutoff m hz).a_ = Real.exp (-2 * Real.pi * hz / sample_rate) ∧
          (f.SetCutoff m hz).b_ = 1 - (f.SetCutoff m hz).a_ ∧ (f.SetCutoff m hz).CoeffOK) ∧
      (OnePoleLP.fresh (α := ℝ)).CoeffOK ∧
      (∀ f : OnePoleLP ℝ, (f.Init m sample_rate).CoeffOK) ∧
      ∀ (s0 : GriesingerReverb ℝ) (cs : List (Call ℝ)),
        DampingOK ((s0.Init m sample_rate).calls m cs) := by
  refine ⟨?_, ?_, ?_, ?_⟩
  · intro f hz hf hhz
    have h := OnePoleLP.SetCutoff_real m hm f hz (by rw [hf]; exact hsr) hhz
    rw [hf] at h
    exact ⟨h.1, h.2.1, h.2.2.1⟩
  · exact OnePoleLP.CoeffOK_of_a _ (le_refl _) zero_lt_one (by simp [OnePoleLP.fresh])
  · intro f
    exact (OnePoleLP.Init_real m hm f sample_rate hsr).1
  · intro s0 cs
    exact GriesingerReverb.DampingOK_calls m hm cs _
      (GriesingerReverb.DampingOK_Init m hm s0 sample_rate hsr)

/-- C15 at 48 kHz with the real exponential and `π`: the filter after `Init`
satisfies the coefficient invariant. -/
theorem one_pole_coefficients_witness :
    ((OnePoleLP.fresh (α := ℝ)).Init ⟨Real.exp, Real.pi⟩ 48000).CoeffOK :=
  (one_pole_coefficients ⟨Real.exp, Real.pi⟩ 48000 ⟨rfl, rfl⟩ (by norm_num)).2.2.1
    OnePoleLP.fresh

/-! ## A self-sustaining state at decay 0.8 -/

theorem bufAt_of_const {α : Type} [Zero α] {n : Nat} (buf : Fin n → α) (v : α)
    (h : ∀ j, buf j = v) {i : Nat} (hi : i < n) : bufAt buf i = v := by
  unfold bufAt
  rw [dif_pos hi]
  exact h _

theorem bufSet_const_of_const {α : Type} {n : Nat} (buf : Fin n → α) (v : α)
    (h : ∀ j, buf j = v) (i : Nat) (j : Fin n) : bufSet buf i v j = v := by
  unfold bufSet
  split
  · rfl
  · exact h j

theorem DelayLine.Read_of_const {α : Type} [Zero α] {max_size : Nat}
    (d : DelayLine α max_size) (v : α) (hC : 0 < max_size) (h : ∀ j, d.buffer_ j = v) :
    d.Read = v :=
  bufAt_of_const _ v h (Nat.mod_lt _ hC)

namespace GriesingerReverb
variable {α : Type} [LinearOrderedField α]

theorem Allpass_hum {max_size : Nat} (p : Allpass α max_size) (x : α) (hC : 0 < max_size)
    (h : ∀ j, p.delay_.buffer_ j = x * (1 + p.gain_)) :
    (p.Process x).2 = x ∧ (∀ j, (p.Process x).1.delay_.buffer_ j = x * (1 + p.gain_)) ∧
      (p.Process x).1.gain_ = p.gain_ := by
  have hread := DelayLine.Read_of_const p.delay_ _ hC h
  have hout : (p.Process x).2 = x := by
    show -p.gain_ * x + p.delay_.Read = x
    rw [hread]; ring
  refine ⟨hout, ?_, rfl⟩
  intro j
  show bufSet p.delay_.buffer_ p.delay_.write_index_ (x + p.gain_ * (p.Process x).2) j = _
  rw [hout, show x + p.gain_ * x = x * (1 + p.gain_) by ring]
  exact bufSet_const_of_const _ _ h _ j

theorem Comb_hum (c : Comb α 8192) (v : α) (hb : ∀ j, c.delay_.buffer_ j = v)
    (hz : c.damping_.z_ = v) (hf : c.feedback_ = 0.8)
    (hab : c.damping_.b_ = 1 - c.damping_.a_) :
    (c.Process (0.2 * v)).2 = v ∧ (∀ j, (c.Process (0.2 * v)).1.delay_.buffer_ j = v) ∧
      (c.Process (0.2 * v)).1.damping_.z_ = v ∧ (c.Process (0.2 * v)).1.feedback_ = 0.8 ∧
      (c.Process (0.2 * v)).1.damping_.b_ = 1 - (c.Process (0.2 * v)).1.damping_.a_ := by
  have hread := DelayLine.Read_of_const c.delay_ v (by decide) hb
  have hfil : (c.damping_.Process c.delay_.Read).2 = v := by
    show c.damping_.b_ * c.delay_.Read + c.damping_.a_ * c.damping_.z_ = v
    rw [hread, hz, hab]; ring
  refine ⟨hread, ?_, hfil, hf, hab⟩
  intro j
  show bufSet c.delay_.buffer_ c.delay_.write_index_
    (0.2 * v + (c.damping_.Process c.delay_.Read).2 * c.feedback_) j = v
  rw [hfil, hf, show (0.2 : α) * v + v * 0.8 = v by norm_num; ring]
  exact bufSet_const_of_const _ _ hb _ j

/-- A humming state reproduces itself under zero input: one `Process(0, 0)`
call leaves the network humming at the same level and returns `mix·c` on both
channels. -/
theorem Humming_Process (c : α) (s : GriesingerReverb α) (h : Humming c s) :
    Humming c (s.Process 0 0).1 ∧ (s.Process 0 0).2 = (s.mix_ * c, s.mix_ * c) := by
  obtain ⟨hpl, hpr, hdl, hdr, hcl, hcr, hal, har⟩ := h
  have hxl : (0.5 : α) * (0 + 0) + 0.2 * s.prev_r_ = 0.2 * c := by rw [hpr]; simp
  have hxr : (0.5 : α) * (0 + 0) + 0.2 * s.prev_l_ = 0.2 * c := by rw [hpl]; simp
  have dl := Allpass_hum s.in_diff_l_ (0.2 * c) (by decide) hdl
  have dr := Allpass_hum s.in_diff_r_ (0.2 * c) (by decide) hdr
  have cl := fun i => Comb_hum (s.comb_l_ i) c (hcl i).1 (hcl i).2.1 (hcl i).2.2.1 (hcl i).2.2.2
  have cr := fun i => Comb_hum (s.comb_r_ i) c (hcr i).1 (hcr i).2.1 (hcr i).2.2.1 (hcr i).2.2.2
  have cl2 := fun i => (cl i).1
  have cr2 := fun i => (cr i).1
  have hsum : ((0 : α) + c + c + c + c) * 0.25 = c := by norm_num; ring
  have al0 := Allpass_hum (s.ap_l_ 0) c (by decide) (hal 0)
  have al1 := Allpass_hum (s.ap_l_ 1) c (by decide) (hal 1)
  have ar0 := Allpass_hum (s.ap_r_ 0) c (by decide) (har 0)
  have ar1 := Allpass_hum (s.ap_r_ 1) c (by decide) (har 1)
  have ht : (s.tank 0 0).2 = (c, c) := by
    simp only [tank, hxl, hxr, dl.1, dr.1, cl2, cr2, hsum, al0.1, al1.1, ar0.1, ar1.1]
  have hw : widen s.width_ c c = (c, c) := by
    have h5 : (0.5 : α) = 1 / 2 := by norm_num
    simp only [widen, h5, sub_self, mul_zero, zero_mul, add_zero, sub_zero]
    rw [show (1 / 2 : α) * (c + c) = c by ring]
  have hp := Process_prev s 0 0
  rw [ht, hw] at hp
  have e_dl : (s.Process 0 0).1.in_diff_l_ = (s.in_diff_l_.Process (0.2 * c)).1 := by
    show (s.tank 0 0).1.in_diff_l_ = _
    simp only [tank, hxl]
  have e_dr : (s.Process 0 0).1.in_diff_r_ = (s.in_diff_r_.Process (0.2 * c)).1 := by
    show (s.tank 0 0).1.in_diff_r_ = _
    simp only [tank, hxr]
  have e_cl : ∀ i, (s.Process 0 0).1.comb_l_ i = ((s.comb_l_ i).Process (0.2 * c)).1 := by
    intro i
    show (s.tank 0 0).1.comb_l_ i = _
    simp only [tank, hxl, dl.1]
  have e_cr : ∀ i, (s.Process 0 0).1.comb_r_ i = ((s.comb_r_ i).Process (0.2 * c)).1 := by
    intro i
    show (s.tank 0 0).1.comb_r_ i = _
    simp only [tank, hxr, dr.1]
  have e_al0 : (s.Process 0 0).1.ap_l_ 0 = ((s.ap_l_ 0).Process c).1 := by
    show (s.tank 0 0).1.ap_l_ 0 = _
    simp only [tank, hxl, dl.1, cl2, hsum, Matrix.cons_val_zero]
  have e_al1 : (s.Process 0 0).1.ap_l_ 1 = ((s.ap_l_ 1).Process c).1 := by
    show (s.tank 0 0).1.ap_l_ 1 = _
    simp only [tank, hxl, dl.1, cl2, hsum, al0.1, Matrix.cons_val_one, Matrix.head_cons]
  have e_ar0 : (s.Process 0 0).1.ap_r_ 0 = ((s.ap_r_ 0).Process c).1 := by
    show (s.tank 0 0).1.ap_r_ 0 = _
    simp only [tank, hxr, dr.1, cr2, hsum, Matrix.cons_val_zero]
  have e_ar1 : (s.Process 0 0).1.ap_r_ 1 = ((s.ap_r_ 1).Process c).1 := by
    show (s.tank 0 0).1.ap_r_ 1 = _
    simp only [tank, hxr, dr.1, cr2, hsum, ar0.1, Matrix.cons_val_one, Matrix.head_cons]
  refine ⟨⟨hp.1, hp.2, ?_, ?_, ?_, ?_, ?_, ?_⟩, ?_⟩
  · intro j
    rw [e_dl, dl.2.1 j, dl.2.2]
  · intro j
    rw [e_dr, dr.2.1 j, dr.2.2]
  · intro i
    rw [e_cl i]
    exact (cl i).2
  · intro i
    rw [e_cr i]
    exact (cr i).2
  · intro i j
    fin_cases i
    · show ((s.Process 0 0).1.ap_l_ 0).delay_.buffer_ j = c * (1 + ((s.Process 0 0).1.ap_l_ 0).gain_)
      rw [e_al0, al0.2.1 j, al0.2.2]
    · show ((s.Process 0 0).1.ap_l_ 1).delay_.buffer_ j = c * (1 + ((s.Process 0 0).1.ap_l_ 1).gain_)
      rw [e_al1, al1.2.1 j, al1.2.2]
  · intro i j
    fin_cases i
    · show ((s.Process 0 0).1.ap_r_ 0).delay_.buffer_ j = c * (1 + ((s.Process 0 0).1.ap_r_ 0).gain_)
      rw [e_ar0, ar0.2.1 j, ar0.2.2]
    · show ((s.Process 0 0).1.ap_r_ 1).delay_.buffer_ j = c * (1 + ((s.Process 0 0).1.ap_r_ 1).gain_)
      rw [e_ar1, ar1.2.1 j, ar1.2.2]
  · have h1 : (s.tank 0 0).2.1 = c := by rw [ht]
    have h2 : (s.tank 0 0).2.2 = c := by rw [ht]
    have hw1 : (widen s.width_ c c).1 = c := by rw [hw]
    have hw2 : (widen s.width_ c c).2 = c := by rw [hw]
    show ((1 - s.mix_) * 0 + s.mix_ * (widen s.width_ (s.tank 0 0).2.1 (s.tank 0 0).2.2).1,
      (1 - s.mix_) * 0 + s.mix_ * (widen s.width_ (s.tank 0 0).2.1 (s.tank 0 0).2.2).2) = _
    rw [h1, h2, hw1, hw2]
    simp

theorem Humming_block (c : α) (n : Nat) (s : GriesingerReverb α) (h : Humming c s) :
    Humming c (s.ProcessBlock (List.replicate n (0, 0))).1 ∧
      (s.ProcessBlock (List.replicate n (0, 0))).2
        = List.replicate n (s.mix_ * c, s.mix_ * c) := by
  induction n generalizing s with
  | zero => exact ⟨h, rfl⟩
  | succ n ih =>
    obtain ⟨h1, h2⟩ := Humming_Process c s h
    obtain ⟨i1, i2⟩ := ih _ h1
    simp only [List.replicate_succ, ProcessBlock]
    refine ⟨i1, ?_⟩
    rw [i2, h2, Process_mix]

end GriesingerReverb

theorem humReverb_Humming : Humming 1 humReverb := by
  refine ⟨rfl, rfl, ?_, ?_, ?_, ?_, ?_, ?_⟩
  · intro j
    show (33 / 100 : ℚ) = 0.2 * 1 * (1 + 0.65)
    norm_num
  · intro j
    show (33 / 100 : ℚ) = 0.2 * 1 * (1 + 0.65)
    norm_num
  · intro i
    refine ⟨fun _ => rfl, rfl, ?_, rfl⟩
    show fclamp (4 / 5 : ℚ) 0.1 0.98 = 0.8
    rw [fclamp_of_mem (by norm_num) (by norm_num)]
    norm_num
  · intro i
    refine ⟨fun _ => rfl, rfl, ?_, rfl⟩
    show fclamp (4 / 5 : ℚ) 0.1 0.98 = 0.8
    rw [fclamp_of_mem (by norm_num) (by norm_num)]
    norm_num
  · intro i j
    show (17 / 10 : ℚ) = 1 * (1 + 0.7)
    norm_num
  · intro i j
    show (17 / 10 : ℚ) = 1 * (1 + 0.7)
    norm_num

/-! ## Sequences that tend to zero -/

section Decay
variable {α : Type} [LinearOrderedField α]

theorem TendsToZero.add {f g : Nat → α} (hf : TendsToZero f) (hg : TendsToZero g) :
    TendsToZero (fun t => f t + g t) := by
  intro ε hε
  obtain ⟨N1, h1⟩ := hf (ε / 2) (by linarith)
  obtain ⟨N2, h2⟩ := hg (ε / 2) (by linarith)
  refine ⟨max N1 N2, fun n hn => ?_⟩
  have a1 := h1 n (le_trans (le_max_left _ _) hn)
  have a2 := h2 n (le_trans (le_max_right _ _) hn)
  calc |f n + g n| ≤ |f n| + |g n| := abs_add _ _
    _ < ε := by linarith

theorem TendsToZero.const_mul {f : Nat → α} (c : α) (hf : TendsToZero f) :
    TendsToZero (fun t => c * f t) := by
  intro ε hε
  have hc : 0 < |c| + 1 := by have := abs_nonneg c; linarith
  obtain ⟨N, h⟩ := hf (ε / (|c| + 1)) (div_pos hε hc)
  refine ⟨N, fun n hn => ?_⟩
  have a := h n hn
  rw [abs_mul]
  have h1 : |c| * |f n| ≤ (|c| + 1) * |f n| := by
    have := abs_nonneg (f n)
    nlinarith
  have h2 : (|c| + 1) * |f n| < ε := by
    rw [lt_div_iff₀ hc] at a
    linarith
  linarith

theorem TendsToZero.congr {f g : Nat → α} (N : Nat) (h : ∀ t, N ≤ t → f t = g t)
    (hg : TendsToZero g) : TendsToZero f := by
  intro ε hε
  obtain ⟨N1, h1⟩ := hg ε hε
  refine ⟨max N N1, fun n hn => ?_⟩
  rw [h n (le_trans (le_max_left _ _) hn)]
  exact h1 n (le_trans (le_max_right _ _) hn)

theorem TendsToZero.zero : TendsToZero (fun _ : Nat => (0 : α)) := by
  intro ε hε
  exact ⟨0, fun n _ => by simpa using hε⟩

theorem TendsToZero.delayed {f : Nat → α} (n : Nat) (hf : TendsToZero f) :
    TendsToZero (delayed f n) := by
  intro ε hε
  obtain ⟨N, h⟩ := hf ε hε
  refine ⟨N + n, fun t ht => ?_⟩
  unfold griesinger.delayed
  rw [if_neg (by omega)]
  exact h _ (by omega)

theorem TendsToZero.shift {f : Nat → α} (k : Nat) (hf : TendsToZero f) :
    TendsToZero (fun t => f (t + k)) := by
  intro ε hε
  obtain ⟨N, h⟩ := hf ε hε
  exact ⟨N, fun t ht => h _ (by omega)⟩

theorem psum_succ (f : Nat → α) (T : Nat) : psum f (T + 1) = psum f T + f T :=
  Finset.sum_range_succ f T

theorem psum_zero (f : Nat → α) : psum f 0 = 0 := rfl

theorem psum_add (f g : Nat → α) (T : Nat) :
    psum (fun t => f t + g t) T = psum f T + psum g T :=
  Finset.sum_add_distrib

theorem psum_const_mul (c : α) (f : Nat → α) (T : Nat) :
    psum (fun t => c * f t) T = c * psum f T :=
  (Finset.mul_sum _ _ _).symm

theorem psum_congr {f g : Nat → α} (h : ∀ t, f t = g t) (T : Nat) : psum f T = psum g T :=
  Finset.sum_congr rfl (fun t _ => h t)

/-- Summing a delayed sequence: the first `T` values of `f` delayed by `n` are
the first `T - n` values of `f`. -/
theorem psum_delayed (f : Nat → α) (n T : Nat) : psum (delayed f n) T = psum f (T - n) := by
  induction T with
  | zero => rw [Nat.zero_sub]; rfl
  | succ T ih =>
    rw [psum_succ, ih]
    unfold delayed
    by_cases h : T < n
    · rw [if_pos h, add_zero, show T + 1 - n = 0 by omega, show T - n = 0 by omega]
    · rw [if_neg h, show T + 1 - n = (T - n) + 1 by omega, psum_succ]

theorem wsum_zero_width (f : Nat → α) (T : Nat) : wsum f 0 T = 0 := by
  simp [wsum]

theorem wsum_succ_width (f : Nat → α) (n T : Nat) :
    wsum f (n + 1) T = wsum f n T + delayed f (n + 1) T := by
  unfold wsum delayed
  by_cases h : T < n + 1
  · rw [if_pos h, show T - (n + 1) = 0 by omega, show T - n = 0 by omega]
    simp
  · rw [if_neg h, show T - n = (T - (n + 1)) + 1 by omega, psum_succ]
    ring

theorem TendsToZero.wsum {f : Nat → α} (n : Nat) (hf : TendsToZero f) :
    TendsToZero (wsum f n) := by
  induction n with
  | zero =>
    exact TendsToZero.congr 0 (fun t _ => wsum_zero_width f t) TendsToZero.zero
  | succ n ih =>
    exact TendsToZero.congr 0 (fun t _ => wsum_succ_width f n t)
      (ih.add (hf.delayed (n + 1)))

/-- A sequence that is eventually dominated by a vanishing term plus a
contraction of one of its last `n` values tends to zero. -/
theorem TendsToZero.of_contraction [Archimedean α] (a e : Nat → α) (ρ : α) (n : Nat)
    (h0 : 0 ≤ ρ) (h1 : ρ < 1) (he : TendsToZero e)
    (hrec : ∀ t, n ≤ t → ∃ s, t ≤ s + n ∧ s < t ∧ |a t| ≤ |e t| + ρ * |a s|) :
    TendsToZero a := by
  intro ε hε
  have h1ρ : 0 < 1 - ρ := by linarith
  obtain ⟨N0, hN0⟩ := he ((1 - ρ) * (ε / 2)) (mul_pos h1ρ (by linarith))
  obtain ⟨N, hNn, hN⟩ : ∃ N, n ≤ N ∧ ∀ t, N ≤ t → |e t| < (1 - ρ) * (ε / 2) :=
    ⟨max N0 n, le_max_right _ _, fun t ht => hN0 t (le_trans (le_max_left _ _) ht)⟩
  have hBdef : ∀ s, s < N → |a s| ≤ psum (fun s => |a s|) N := by
    intro s hs
    exact Finset.single_le_sum (f := fun s => |a s|) (fun i _ => abs_nonneg (a i))
      (Finset.mem_range.mpr hs)
  have hB0 : 0 ≤ psum (fun s => |a s|) N :=
    Finset.sum_nonneg (fun i _ => abs_nonneg (a i))
  generalize psum (fun s => |a s|) N = B at hBdef hB0
  have hall : ∀ t, |a t| ≤ ε / 2 + B := by
    intro t
    induction t using Nat.strong_induction_on with
    | _ t ih =>
      by_cases ht : t < N
      · have := hBdef t ht
        linarith
      · obtain ⟨s, _, hs2, hs3⟩ := hrec t (by omega)
        have hes := hN t (by omega)
        have hs := ih s hs2
        have : ρ * |a s| ≤ ρ * (ε / 2 + B) := mul_le_mul_of_nonneg_left hs h0
        nlinarith
  have hk : ∀ k t, N + k * n ≤ t → |a t| ≤ ε / 2 + ρ ^ k * B := by
    intro k
    induction k with
    | zero =>
      intro t _
      simpa using hall t
    | succ k ih =>
      intro t ht
      obtain ⟨s, hs1, _, hs3⟩ := hrec t (by nlinarith)
      have hs := ih s (by nlinarith)
      have hes := hN t (by nlinarith)
      have : ρ * |a s| ≤ ρ * (ε / 2 + ρ ^ k * B) := mul_le_mul_of_nonneg_left hs h0
      rw [pow_succ]
      nlinarith
  obtain ⟨k, hkpow⟩ := exists_pow_lt_of_lt_one (show 0 < ε / (2 * (B + 1)) by positivity) h1
  refine ⟨N + k * n, fun t ht => ?_⟩
  have h2 := hk k t ht
  have h3 : ρ ^ k * B < ε / 2 := by
    have hp : 0 ≤ ρ ^ k := pow_nonneg h0 k
    have hB1 : 0 < 2 * (B + 1) := by linarith
    rw [lt_div_iff₀ hB1] at hkpow
    nlinarith
  linarith

end Decay

/-! ## Single filters: sums and decay -/

theorem DelayLine.Tracks_of_AtRest {α : Type} [Zero α] {max_size : Nat} {n : Nat}
    (d : DelayLine α max_size) (h : d.AtRest n) (w : Nat → α) : d.Tracks w 0 := by
  obtain ⟨hw, _, hb, _, _, _⟩ := h
  refine ⟨by rw [hw, Nat.zero_mod], fun t ht => absurd ht (Nat.not_lt_zero t), ?_⟩
  intro j _ _
  exact bufAt_of_zero _ hb j

theorem DelayLine.AtRest_Init_SetDelay {α : Type} [Zero α] {max_size : Nat} {n : Nat}
    (d : DelayLine α max_size) (h1 : 1 ≤ n) (h2 : n ≤ max_size - 1)
    (hsz : 2 * max_size ≤ SIZE_MOD) : (d.Init.SetDelay n).AtRest n := by
  refine ⟨rfl, DelayLine.Init_SetDelay_delay d h1 h2 (by omega), ?_, h1, h2, hsz⟩
  intro j
  show zeroFill d.buffer_ max_size j = 0
  rw [zeroFill_full]

namespace Allpass
variable {α : Type} [LinearOrderedField α] {max_size : Nat}

theorem ap_outAt_of_AtRest (p : Allpass α max_size) (x : Nat → α) {n : Nat}
    (h : p.delay_.AtRest n) (t : Nat) :
    p.outAt x t = -p.gain_ * x t + delayed (p.wrAt x) n t := by
  obtain ⟨_, hd, _, h1, h2, hsz⟩ := id h
  have ht := ap_stateAt_Tracks p x t (by omega) (by omega)
    (DelayLine.Tracks_of_AtRest p.delay_ h _)
  have hd' : (p.stateAt x t).delay_.delay_ = n := by rw [(ap_stateAt_params p x t).2, hd]
  rw [outAt_eq, DelayLine.Read_of_Tracks _ _ t n hsz h1 h2 hd' ht]
  rfl

theorem wrAt_of_AtRest (p : Allpass α max_size) (x : Nat → α) {n : Nat}
    (h : p.delay_.AtRest n) (t : Nat) :
    p.wrAt x t = (1 - p.gain_ ^ 2) * x t + p.gain_ * delayed (p.wrAt x) n t := by
  have e : p.wrAt x t = x t + p.gain_ * p.outAt x t := rfl
  rw [e, ap_outAt_of_AtRest p x h t]
  ring

/-- Sum balance of an allpass run: over any number of ticks, `(1 - g)` times
the sum of the outputs is `(1 - g)` times the sum of the inputs minus what is
still stored in the delay line. -/
theorem ap_psum_outAt (p : Allpass α max_size) (x : Nat → α) {n : Nat}
    (h : p.delay_.AtRest n) (T : Nat) :
    (1 - p.gain_) * psum (p.outAt x) T
      = (1 - p.gain_) * psum x T - wsum (p.wrAt x) n T := by
  have hy : psum (p.outAt x) T = -p.gain_ * psum x T + psum (p.wrAt x) (T - n) := by
    rw [psum_congr (ap_outAt_of_AtRest p x h) T, psum_add, psum_const_mul, psum_delayed]
  have hw : psum (p.wrAt x) T = psum x T + p.gain_ * psum (p.outAt x) T := by
    rw [← psum_const_mul, ← psum_add]
    rfl
  unfold wsum
  rw [hw]
  linear_combination (1 : α) * hy

theorem ap_decay [Archimedean α] (p : Allpass α max_size) (x : Nat → α) {n : Nat}
    (h : p.delay_.AtRest n) (hg : |p.gain_| < 1) (hx : TendsToZero x) :
    TendsToZero (p.wrAt x) ∧ TendsToZero (p.outAt x) := by
  obtain ⟨_, _, _, h1, _, _⟩ := id h
  have hw : TendsToZero (p.wrAt x) := by
    apply TendsToZero.of_contraction (p.wrAt x) (fun t => (1 - p.gain_ ^ 2) * x t) |p.gain_| n
      (abs_nonneg _) hg (hx.const_mul _)
    intro t ht
    refine ⟨t - n, by omega, by omega, ?_⟩
    rw [wrAt_of_AtRest p x h t]
    unfold delayed
    rw [if_neg (by omega)]
    calc |(1 - p.gain_ ^ 2) * x t + p.gain_ * p.wrAt x (t - n)|
        ≤ |(1 - p.gain_ ^ 2) * x t| + |p.gain_ * p.wrAt x (t - n)| := abs_add _ _
      _ = |(1 - p.gain_ ^ 2) * x t| + |p.gain_| * |p.wrAt x (t - n)| := by rw [abs_mul p.gain_]
  refine ⟨hw, ?_⟩
  exact TendsToZero.congr 0 (fun t _ => ap_outAt_of_AtRest p x h t)
    ((hx.const_mul _).add (hw.delayed n))

end Allpass

namespace Comb
variable {α : Type} [LinearOrderedField α] {max_size : Nat}

theorem comb_outAt_of_AtRest (c : Comb α max_size) (x : Nat → α) {n : Nat}
    (h : c.delay_.AtRest n) (t : Nat) : c.outAt x t = delayed (c.wrAt x) n t := by
  obtain ⟨_, hd, _, h1, h2, hsz⟩ := id h
  have ht := comb_stateAt_Tracks c x t (by omega) (by omega)
    (DelayLine.Tracks_of_AtRest c.delay_ h _)
  have hd' : (c.stateAt x t).delay_.delay_ = n := by rw [(comb_stateAt_params c x t).2.2.2, hd]
  show (c.stateAt x t).delay_.Read = _
  rw [DelayLine.Read_of_Tracks _ _ t n hsz h1 h2 hd' ht]
  rfl

theorem dampAt_eq (c : Comb α max_size) (x : Nat → α) (hz : c.damping_.z_ = 0) (t : Nat) :
    c.dampAt x t = c.damping_.b_ * c.outAt x t + c.damping_.a_ * delayed (c.dampAt x) 1 t := by
  cases t with
  | zero =>
    rw [dampAt_zero, hz]
    rfl
  | succ t =>
    rw [dampAt_succ]
    unfold delayed
    rw [if_neg (by omega), Nat.add_sub_cancel]

/-- Sum balance of a comb run. -/
theorem comb_psum_outAt (c : Comb α max_size) (x : Nat → α) {n : Nat}
    (h : c.delay_.AtRest n) (hz : c.damping_.z_ = 0)
    (hb : c.damping_.b_ = 1 - c.damping_.a_) (T : Nat) :
    (1 - c.damping_.a_) * (1 - c.feedback_) * psum (c.outAt x) T
      = (1 - c.damping_.a_) * psum x T - (1 - c.damping_.a_) * wsum (c.wrAt x) n T
        - c.feedback_ * c.damping_.a_ * delayed (c.dampAt x) 1 T := by
  have hF : psum (c.dampAt x) T
      = c.damping_.b_ * psum (c.outAt x) T
        + c.damping_.a_ * psum (delayed (c.dampAt x) 1) T := by
    rw [psum_congr (dampAt_eq c x hz) T, psum_add, psum_const_mul, psum_const_mul]
  have hFz : psum (delayed (c.dampAt x) 1) T
      = psum (c.dampAt x) T - delayed (c.dampAt x) 1 T := by
    have hws := wsum_succ_width (c.dampAt x) 0 T
    rw [wsum_zero_width] at hws
    simp only [zero_add] at hws
    rw [← hws, psum_delayed]
    unfold wsum
    ring
  have hY : psum (c.outAt x) T = psum (c.wrAt x) (T - n) := by
    rw [psum_congr (comb_outAt_of_AtRest c x h) T, psum_delayed]
  have hW : psum (c.wrAt x) T = psum x T + psum (c.dampAt x) T * c.feedback_ := by
    have e : ∀ t, c.wrAt x t = x t + c.feedback_ * c.dampAt x t := fun t => by
      show x t + c.dampAt x t * c.feedback_ = _
      ring
    rw [psum_congr e T, psum_add, psum_const_mul]
    ring
  unfold wsum
  rw [hW, ← hY]
  rw [hFz, hb] at hF
  linear_combination c.feedback_ * hF

theorem comb_decay [Archimedean α] (c : Comb α max_size) (x : Nat → α) {n : Nat}
    (h : c.delay_.AtRest n) (hz : c.damping_.z_ = 0)
    (hb : c.damping_.b_ = 1 - c.damping_.a_) (ha0 : 0 ≤ c.damping_.a_)
    (ha1 : c.damping_.a_ < 1) (hg0 : 0 ≤ c.feedback_) (hg1 : c.feedback_ < 1)
    (hx : TendsToZero x) :
    TendsToZero (c.dampAt x) ∧ TendsToZero (c.wrAt x) ∧ TendsToZero (c.outAt x) := by
  obtain ⟨_, _, _, h1, _, _⟩ := id h
  have hb0 : 0 ≤ c.damping_.b_ := by rw [hb]; linarith
  have hf : TendsToZero (c.dampAt x) := by
    apply TendsToZero.of_contraction (c.dampAt x) (fun t => c.damping_.b_ * delayed x n t)
      (c.damping_.a_ + c.damping_.b_ * c.feedback_) n
      (add_nonneg ha0 (mul_nonneg hb0 hg0)) (by rw [hb]; nlinarith)
      ((hx.delayed n).const_mul _)
    intro t ht
    have e : c.dampAt x t
        = c.damping_.b_ * x (t - n) + c.damping_.b_ * c.feedback_ * c.dampAt x (t - n)
          + c.damping_.a_ * c.dampAt x (t - 1) := by
      rw [dampAt_eq c x hz t, comb_outAt_of_AtRest c x h t]
      unfold delayed
      rw [if_neg (by omega), if_neg (by omega)]
      show c.damping_.b_ * (x (t - n) + c.dampAt x (t - n) * c.feedback_) + _ = _
      ring
    have hbound : |c.dampAt x t|
        ≤ |c.damping_.b_ * x (t - n)| + c.damping_.b_ * c.feedback_ * |c.dampAt x (t - n)|
          + c.damping_.a_ * |c.dampAt x (t - 1)| := by
      rw [e]
      calc |c.damping_.b_ * x (t - n) + c.damping_.b_ * c.feedback_ * c.dampAt x (t - n)
              + c.damping_.a_ * c.dampAt x (t - 1)|
          ≤ |c.damping_.b_ * x (t - n) + c.damping_.b_ * c.feedback_ * c.dampAt x (t - n)|
              + |c.damping_.a_ * c.dampAt x (t - 1)| := abs_add _ _
        _ ≤ |c.damping_.b_ * x (t - n)| + |c.damping_.b_ * c.feedback_ * c.dampAt x (t - n)|
              + |c.damping_.a_ * c.dampAt x (t - 1)| := by
            have := abs_add (c.damping_.b_ * x (t - n))
              (c.damping_.b_ * c.feedback_ * c.dampAt x (t - n))
            linarith
        _ = |c.damping_.b_ * x (t - n)| + c.damping_.b_ * c.feedback_ * |c.dampAt x (t - n)|
              + c.damping_.a_ * |c.dampAt x (t - 1)| := by
            rw [abs_mul (c.damping_.b_ * c.feedback_), abs_mul c.damping_.a_,
              abs_of_nonneg (mul_nonneg hb0 hg0), abs_of_nonneg ha0]
    have hdel : delayed x n t = x (t - n) := by
      unfold delayed
      rw [if_neg (by omega)]
    have hbg : 0 ≤ c.damping_.b_ * c.feedback_ := mul_nonneg hb0 hg0
    by_cases hcmp : |c.dampAt x (t - 1)| ≤ |c.dampAt x (t - n)|
    · refine ⟨t - n, by omega, by omega, ?_⟩
      show |c.dampAt x t| ≤ |c.damping_.b_ * delayed x n t| + _
      rw [hdel]
      have := mul_le_mul_of_nonneg_left hcmp ha0
      linarith
    · refine ⟨t - 1, by omega, by omega, ?_⟩
      show |c.dampAt x t| ≤ |c.damping_.b_ * delayed x n t| + _
      rw [hdel]
      have := mul_le_mul_of_nonneg_left (le_of_lt (not_le.mp hcmp)) hbg
      linarith
  have hw : TendsToZero (c.wrAt x) := by
    have e : ∀ t, c.wrAt x t = x t + c.feedback_ * c.dampAt x t := fun t => by
      show x t + c.dampAt x t * c.feedback_ = _
      ring
    exact TendsToZero.congr 0 (fun t _ => e t) (hx.add (hf.const_mul _))
  exact ⟨hf, hw, TendsToZero.congr 0 (fun t _ => comb_outAt_of_AtRest c x h t) (hw.delayed n)⟩

end Comb

/-! ## The network run, filter by filter -/

namespace GriesingerReverb
variable {α : Type} [LinearOrderedField α]

/-- Along a run, every filter of the network goes through its own run on the
signal that reaches it, and mix and width stay as they are. -/
theorem stateAt_components (s : GriesingerReverb α) (u : Nat → α × α) (t : Nat) :
    (s.stateAt u t).in_diff_l_ = s.in_diff_l_.stateAt (s.xlAt u) t ∧
      (s.stateAt u t).in_diff_r_ = s.in_diff_r_.stateAt (s.xrAt u) t ∧
      (∀ i, (s.stateAt u t).comb_l_ i = (s.comb_l_ i).stateAt (s.dlAt u) t) ∧
      (∀ i, (s.stateAt u t).comb_r_ i = (s.comb_r_ i).stateAt (s.drAt u) t) ∧
      (s.stateAt u t).ap_l_ 0 = (s.ap_l_ 0).stateAt (s.cslAt u) t ∧
      (s.stateAt u t).ap_l_ 1 = (s.ap_l_ 1).stateAt (s.tlAt u) t ∧
      (s.stateAt u t).ap_r_ 0 = (s.ap_r_ 0).stateAt (s.csrAt u) t ∧
      (s.stateAt u t).ap_r_ 1 = (s.ap_r_ 1).stateAt (s.trAt u) t ∧
      (s.stateAt u t).width_ = s.width_ ∧ (s.stateAt u t).mix_ = s.mix_ := by
  induction t with
  | zero => exact ⟨rfl, rfl, fun _ => rfl, fun _ => rfl, rfl, rfl, rfl, rfl, rfl, rfl⟩
  | succ t ih =>
    obtain ⟨idl, idr, icl, icr, il0, il1, ir0, ir1, iw, im⟩ := ih
    have hdl : ((s.stateAt u t).in_diff_l_.Process (s.xlAt u t)).2 = s.dlAt u t := by
      rw [idl]; rfl
    have hdr : ((s.stateAt u t).in_diff_r_.Process (s.xrAt u t)).2 = s.drAt u t := by
      rw [idr]; rfl
    have hcl : ∀ i, (((s.stateAt u t).comb_l_ i).Process (s.dlAt u t)).2 = s.clAt u i t := by
      intro i; rw [icl i]; rfl
    have hcr : ∀ i, (((s.stateAt u t).comb_r_ i).Process (s.drAt u t)).2 = s.crAt u i t := by
      intro i; rw [icr i]; rfl
    have htl : (((s.stateAt u t).ap_l_ 0).Process (s.cslAt u t)).2 = s.tlAt u t := by
      rw [il0]; rfl
    have htr : (((s.stateAt u t).ap_r_ 0).Process (s.csrAt u t)).2 = s.trAt u t := by
      rw [ir0]; rfl
    refine ⟨?_, ?_, ?_, ?_, ?_, ?_, ?_, ?_, iw, im⟩
    · show ((s.stateAt u t).in_diff_l_.Process (s.xlAt u t)).1 = _
      rw [idl]; rfl
    · show ((s.stateAt u t).in_diff_r_.Process (s.xrAt u t)).1 = _
      rw [idr]; rfl
    · intro i
      show (((s.stateAt u t).comb_l_ i).Process
        ((s.stateAt u t).in_diff_l_.Process (s.xlAt u t)).2).1 = _
      rw [hdl, icl i]; rfl
    · intro i
      show (((s.stateAt u t).comb_r_ i).Process
        ((s.stateAt u t).in_diff_r_.Process (s.xrAt u t)).2).1 = _
      rw [hdr, icr i]; rfl
    · show (((s.stateAt u t).ap_l_ 0).Process
        ((0 + (((s.stateAt u t).comb_l_ 0).Process
            ((s.stateAt u t).in_diff_l_.Process (s.xlAt u t)).2).2
          + (((s.stateAt u t).comb_l_ 1).Process
            ((s.stateAt u t).in_diff_l_.Process (s.xlAt u t)).2).2
          + (((s.stateAt u t).comb_l_ 2).Process
            ((s.stateAt u t).in_diff_l_.Process (s.xlAt u t)).2).2
          + (((s.stateAt u t).comb_l_ 3).Process
            ((s.stateAt u t).in_diff_l_.Process (s.xlAt u t)).2).2) * 0.25)).1 = _
      rw [hdl, hcl, hcl, hcl, hcl, il0]; rfl
    · show (((s.stateAt u t).ap_l_ 1).Process (((s.stateAt u t).ap_l_ 0).Process
        ((0 + (((s.stateAt u t).comb_l_ 0).Process
            ((s.stateAt u t).in_diff_l_.Process (s.xlAt u t)).2).2
          + (((s.stateAt u t).comb_l_ 1).Process
            ((s.stateAt u t).in_diff_l_.Process (s.xlAt u t)).2).2
          + (((s.stateAt u t).comb_l_ 2).Process
            ((s.stateAt u t).in_diff_l_.Process (s.xlAt u t)).2).2
          + (((s.stateAt u t).comb_l_ 3).Process
            ((s.stateAt u t).in_diff_l_.Process (s.xlAt u t)).2).2) * 0.25)).2).1 = _
      rw [hdl, hcl, hcl, hcl, hcl]
      show (((s.stateAt u t).ap_l_ 1).Process
        (((s.stateAt u t).ap_l_ 0).Process (s.cslAt u t)).2).1 = _
      rw [htl, il1]; rfl
    · show (((s.stateAt u t).ap_r_ 0).Process
        ((0 + (((s.stateAt u t).comb_r_ 0).Process
            ((s.stateAt u t).in_diff_r_.Process (s.xrAt u t)).2).2
          + (((s.stateAt u t).comb_r_ 1).Process
            ((s.stateAt u t).in_diff_r_.Process (s.xrAt u t)).2).2
          + (((s.stateAt u t).comb_r_ 2).Process
            ((s.stateAt u t).in_diff_r_.Process (s.xrAt u t)).2).2
          + (((s.stateAt u t).comb_r_ 3).Process
            ((s.stateAt u t).in_diff_r_.Process (s.xrAt u t)).2).2) * 0.25)).1 = _
      rw [hdr, hcr, hcr, hcr, hcr, ir0]; rfl
    · show (((s.stateAt u t).ap_r_ 1).Process (((s.stateAt u t).ap_r_ 0).Process
        ((0 + (((s.stateAt u t).comb_r_ 0).Process
            ((s.stateAt u t).in_diff_r_.Process (s.xrAt u t)).2).2
          + (((s.stateAt u t).comb_r_ 1).Process
            ((s.stateAt u t).in_diff_r_.Process (s.xrAt u t)).2).2
          + (((s.stateAt u t).comb_r_ 2).Process
            ((s.stateAt u t).in_diff_r_.Process (s.xrAt u t)).2).2
          + (((s.stateAt u t).comb_r_ 3).Process
            ((s.stateAt u t).in_diff_r_.Process (s.xrAt u t)).2).2) * 0.25)).2).1 = _
      rw [hdr, hcr, hcr, hcr, hcr]
      show (((s.stateAt u t).ap_r_ 1).Process
        (((s.stateAt u t).ap_r_ 0).Process (s.csrAt u t)).2).1 = _
      rw [htr, ir1]; rfl

/-- The pre-width wet pair of tick `t` of a run. -/
theorem tank_stateAt (s : GriesingerReverb α) (u : Nat → α × α) (t : Nat) :
    ((s.stateAt u t).tank (u t).1 (u t).2).2 = (s.wetLAt u t, s.wetRAt u t) := by
  obtain ⟨idl, idr, icl, icr, il0, il1, ir0, ir1, _, _⟩ := stateAt_components s u t
  have hdl : ((s.stateAt u t).in_diff_l_.Process (s.xlAt u t)).2 = s.dlAt u t := by
    rw [idl]; rfl
  have hdr : ((s.stateAt u t).in_diff_r_.Process (s.xrAt u t)).2 = s.drAt u t := by
    rw [idr]; rfl
  have hcl : ∀ i, (((s.stateAt u t).comb_l_ i).Process (s.dlAt u t)).2 = s.clAt u i t := by
    intro i; rw [icl i]; rfl
  have hcr : ∀ i, (((s.stateAt u t).comb_r_ i).Process (s.drAt u t)).2 = s.crAt u i t := by
    intro i; rw [icr i]; rfl
  have htl : (((s.stateAt u t).ap_l_ 0).Process (s.cslAt u t)).2 = s.tlAt u t := by
    rw [il0]; rfl
  have htr : (((s.stateAt u t).ap_r_ 0).Process (s.csrAt u t)).2 = s.trAt u t := by
    rw [ir0]; rfl
  have hwl : (((s.stateAt u t).ap_l_ 1).Process (s.tlAt u t)).2 = s.wetLAt u t := by
    rw [il1]; rfl
  have hwr : (((s.stateAt u t).ap_r_ 1).Process (s.trAt u t)).2 = s.wetRAt u t := by
    rw [ir1]; rfl
  show ((((s.stateAt u t).ap_l_ 1).Process (((s.stateAt u t).ap_l_ 0).Process
        ((0 + (((s.stateAt u t).comb_l_ 0).Process
            ((s.stateAt u t).in_diff_l_.Process (s.xlAt u t)).2).2
          + (((s.stateAt u t).comb_l_ 1).Process
            ((s.stateAt u t).in_diff_l_.Process (s.xlAt u t)).2).2
          + (((s.stateAt u t).comb_l_ 2).Process
            ((s.stateAt u t).in_diff_l_.Process (s.xlAt u t)).2).2
          + (((s.stateAt u t).comb_l_ 3).Process
            ((s.stateAt u t).in_diff_l_.Process (s.xlAt u t)).2).2) * 0.25)).2).2,
      (((s.stateAt u t).ap_r_ 1).Process (((s.stateAt u t).ap_r_ 0).Process
        ((0 + (((s.stateAt u t).comb_r_ 0).Process
            ((s.stateAt u t).in_diff_r_.Process (s.xrAt u t)).2).2
          + (((s.stateAt u t).comb_r_ 1).Process
            ((s.stateAt u t).in_diff_r_.Process (s.xrAt u t)).2).2
          + (((s.stateAt u t).comb_r_ 2).Process
            ((s.stateAt u t).in_diff_r_.Process (s.xrAt u t)).2).2
          + (((s.stateAt u t).comb_r_ 3).Process
            ((s.stateAt u t).in_diff_r_.Process (s.xrAt u t)).2).2) * 0.25)).2).2) = _
  rw [hdl, hdr, hcl, hcl, hcl, hcl, hcr, hcr, hcr, hcr]
  show ((((s.stateAt u t).ap_l_ 1).Process
      (((s.stateAt u t).ap_l_ 0).Process (s.cslAt u t)).2).2,
    (((s.stateAt u t).ap_r_ 1).Process
      (((s.stateAt u t).ap_r_ 0).Process (s.csrAt u t)).2).2) = _
  rw [htl, htr, hwl, hwr]

end GriesingerReverb

theorem GriesingerReverb.widen_one {α : Type} [LinearOrderedField α] (a b : α) :
    GriesingerReverb.widen 1 a b = (a, b) := by
  have h5 : (0.5 : α) = 1 / 2 := by norm_num
  simp only [GriesingerReverb.widen, h5, mul_one]
  rw [show (1 / 2 : α) * (a + b) + 1 / 2 * (a - b) = a by ring,
    show (1 / 2 : α) * (a + b) - 1 / 2 * (a - b) = b by ring]
/-! ## Sum balance of the whole network at decay 0.8 -/

theorem Allpass.ap_balance {α : Type} [LinearOrderedField α] [Archimedean α] {max_size : Nat}
    (p : Allpass α max_size) (x : Nat → α) (h : AllpassReady p) (hx : TendsToZero x) :
    TendsToZero (p.outAt x) ∧
      ∃ R : Nat → α, TendsToZero R ∧ ∀ T, psum (p.outAt x) T = psum x T - R T := by
  obtain ⟨⟨n, hn⟩, hg⟩ := h
  obtain ⟨hw, hy⟩ := Allpass.ap_decay p x hn hg hx
  have hg1 : (1 : α) - p.gain_ ≠ 0 := by
    have := (abs_lt.mp hg).2
    linarith
  refine ⟨hy, fun T => (1 - p.gain_)⁻¹ * wsum (p.wrAt x) n T, (hw.wsum n).const_mul _, ?_⟩
  intro T
  have hb := Allpass.ap_psum_outAt p x hn T
  field_simp
  linear_combination hb

theorem Comb.comb_balance {α : Type} [LinearOrderedField α] [Archimedean α] {max_size : Nat}
    (c : Comb α max_size) (x : Nat → α) (h : CombReady c) (hx : TendsToZero x) :
    TendsToZero (c.outAt x) ∧
      ∃ Q : Nat → α, TendsToZero Q ∧ ∀ T, psum (c.outAt x) T = 5 * (psum x T - Q T) := by
  obtain ⟨⟨n, hn⟩, hz, hb, ha0, ha1, hf⟩ := h
  have hg0 : (0 : α) ≤ c.feedback_ := by rw [hf]; norm_num
  have hg1 : c.feedback_ < 1 := by rw [hf]; norm_num
  obtain ⟨hfd, hw, hy⟩ := Comb.comb_decay c x hn hz hb ha0 ha1 hg0 hg1 hx
  have h1a : (1 : α) - c.damping_.a_ ≠ 0 := by linarith
  refine ⟨hy, fun T => wsum (c.wrAt x) n T
    + (1 - c.damping_.a_)⁻¹ * (c.feedback_ * c.damping_.a_ * delayed (c.dampAt x) 1 T),
    (hw.wsum n).add (((hfd.delayed 1).const_mul _).const_mul _), ?_⟩
  intro T
  have hbal := Comb.comb_psum_outAt c x hn hz hb T
  rw [hf] at hbal ⊢
  field_simp
  linear_combination (5 : α) * hbal

namespace GriesingerReverb
variable {α : Type} [LinearOrderedField α]

theorem stateAt_prev (s : GriesingerReverb α) (u : Nat → α × α) (hw : s.width_ = 1)
    (hl : s.prev_l_ = 0) (hr : s.prev_r_ = 0) (t : Nat) :
    (s.stateAt u t).prev_l_ = delayed (s.wetLAt u) 1 t ∧
      (s.stateAt u t).prev_r_ = delayed (s.wetRAt u) 1 t := by
  cases t with
  | zero => exact ⟨hl, hr⟩
  | succ t =>
    have hp := Process_prev (s.stateAt u t) (u t).1 (u t).2
    have hwt : (s.stateAt u t).width_ = 1 := by
      rw [(stateAt_components s u t).2.2.2.2.2.2.2.2.1, hw]
    have hpres := widen_one (s.wetLAt u t) (s.wetRAt u t)
    rw [tank_stateAt, hwt, hpres] at hp
    unfold delayed
    rw [if_neg (by omega), Nat.add_sub_cancel]
    exact hp

theorem outputAt_eq (s : GriesingerReverb α) (u : Nat → α × α) (hw : s.width_ = 1) (t : Nat) :
    s.outputAt u t = ((1 - s.mix_) * (u t).1 + s.mix_ * s.wetLAt u t,
      (1 - s.mix_) * (u t).2 + s.mix_ * s.wetRAt u t) := by
  have hwt : (s.stateAt u t).width_ = 1 := by
    rw [(stateAt_components s u t).2.2.2.2.2.2.2.2.1, hw]
  have hm : (s.stateAt u t).mix_ = s.mix_ := (stateAt_components s u t).2.2.2.2.2.2.2.2.2
  have ht := tank_stateAt s u t
  have h1 : ((s.stateAt u t).tank (u t).1 (u t).2).2.1 = s.wetLAt u t := by rw [ht]
  have h2 : ((s.stateAt u t).tank (u t).1 (u t).2).2.2 = s.wetRAt u t := by rw [ht]
  have hpres := widen_one (s.wetLAt u t) (s.wetRAt u t)
  show ((1 - (s.stateAt u t).mix_) * (u t).1
      + (s.stateAt u t).mix_ * (widen (s.stateAt u t).width_
          ((s.stateAt u t).tank (u t).1 (u t).2).2.1
          ((s.stateAt u t).tank (u t).1 (u t).2).2.2).1,
    (1 - (s.stateAt u t).mix_) * (u t).2
      + (s.stateAt u t).mix_ * (widen (s.stateAt u t).width_
          ((s.stateAt u t).tank (u t).1 (u t).2).2.1
          ((s.stateAt u t).tank (u t).1 (u t).2).2.2).2) = _
  rw [h1, h2, hwt, hpres, hm]

end GriesingerReverb

/-! ## No decay under zero input at decay 0.8 -/

theorem psum_delayed_one {α : Type} [LinearOrderedField α] (f : Nat → α) (T : Nat) :
    psum (delayed f 1) T = psum f T - delayed f 1 T := by
  have hws := wsum_succ_width f 0 T
  rw [wsum_zero_width] at hws
  simp only [zero_add] at hws
  rw [← hws, psum_delayed]
  unfold wsum
  ring

theorem psum_of_eventually_zero {α : Type} [LinearOrderedField α] (f : Nat → α)
    (h : ∀ t, 1 ≤ t → f t = 0) (T : Nat) : psum f (T + 1) = f 0 := by
  induction T with
  | zero => simp [psum]
  | succ T ih => rw [psum_succ, ih, h (T + 1) (by omega), add_zero]

namespace GriesingerReverb
variable {α : Type} [LinearOrderedField α]

/-- Sum balance of the left channel at decay 0.8: if the input of the left
input diffuser tends to zero, the sum of the pre-width `wet_l` over the first
`T` ticks is 5 times the sum of the diffuser inputs, up to a remainder (what
is still stored in the filters) that tends to zero. -/
theorem channel_l [Archimedean α] (s : GriesingerReverb α) (u : Nat → α × α) (hP : Primed s)
    (hx : TendsToZero (s.xlAt u)) :
    ∃ Rem : Nat → α, TendsToZero Rem ∧
      ∀ T, psum (s.wetLAt u) T = 5 * psum (s.xlAt u) T - Rem T := by
  obtain ⟨_, _, _, _, hdl, hdr, hal, har, hcl, hcr⟩ := hP
  obtain ⟨hd, Rd, hRd, eRd⟩ := Allpass.ap_balance s.in_diff_l_ (s.xlAt u) hdl hx
  obtain ⟨hc0, Q0, hQ0, eQ0⟩ := Comb.comb_balance (s.comb_l_ 0) (s.dlAt u) (hcl 0) hd
  obtain ⟨hc1, Q1, hQ1, eQ1⟩ := Comb.comb_balance (s.comb_l_ 1) (s.dlAt u) (hcl 1) hd
  obtain ⟨hc2, Q2, hQ2, eQ2⟩ := Comb.comb_balance (s.comb_l_ 2) (s.dlAt u) (hcl 2) hd
  obtain ⟨hc3, Q3, hQ3, eQ3⟩ := Comb.comb_balance (s.comb_l_ 3) (s.dlAt u) (hcl 3) hd
  have ecs : ∀ t, s.cslAt u t
      = 0.25 * s.clAt u 0 t + (0.25 * s.clAt u 1 t
        + (0.25 * s.clAt u 2 t + 0.25 * s.clAt u 3 t)) := by
    intro t
    unfold cslAt
    ring
  have hcs : TendsToZero (s.cslAt u) :=
    TendsToZero.congr 0 (fun t _ => ecs t)
      ((hc0.const_mul _).add ((hc1.const_mul _).add ((hc2.const_mul _).add (hc3.const_mul _))))
  have pcs : ∀ T, psum (s.cslAt u) T
      = 0.25 * psum (s.clAt u 0) T + (0.25 * psum (s.clAt u 1) T
        + (0.25 * psum (s.clAt u 2) T + 0.25 * psum (s.clAt u 3) T)) := by
    intro T
    rw [psum_congr ecs T, psum_add, psum_add, psum_add, psum_const_mul, psum_const_mul,
      psum_const_mul, psum_const_mul]
  obtain ⟨ht, R0, hR0, eR0⟩ := Allpass.ap_balance (s.ap_l_ 0) (s.cslAt u) (hal 0) hcs
  obtain ⟨_, R1, hR1, eR1⟩ := Allpass.ap_balance (s.ap_l_ 1) (s.tlAt u) (hal 1) ht
  refine ⟨fun T => 5 * Rd T + (1.25 * Q0 T + (1.25 * Q1 T + (1.25 * Q2 T
      + (1.25 * Q3 T + (R0 T + R1 T))))),
    (hRd.const_mul _).add ((hQ0.const_mul _).add ((hQ1.const_mul _).add
      ((hQ2.const_mul _).add ((hQ3.const_mul _).add (hR0.add hR1))))), ?_⟩
  intro T
  have a1 : psum (s.wetLAt u) T = psum (s.tlAt u) T - R1 T := eR1 T
  have a2 : psum (s.tlAt u) T = psum (s.cslAt u) T - R0 T := eR0 T
  have a3 : psum (s.dlAt u) T = psum (s.xlAt u) T - Rd T := eRd T
  have b0 : psum (s.clAt u 0) T = 5 * (psum (s.dlAt u) T - Q0 T) := eQ0 T
  have b1 : psum (s.clAt u 1) T = 5 * (psum (s.dlAt u) T - Q1 T) := eQ1 T
  have b2 : psum (s.clAt u 2) T = 5 * (psum (s.dlAt u) T - Q2 T) := eQ2 T
  have b3 : psum (s.clAt u 3) T = 5 * (psum (s.dlAt u) T - Q3 T) := eQ3 T
  rw [a1, a2, pcs T, b0, b1, b2, b3, a3]
  norm_num
  ring

/-- Sum balance of the right channel at decay 0.8: if the input of the right
input diffuser tends to zero, the sum of the pre-width `wet_r` over the first
`T` ticks is 5 times the sum of the diffuser inputs, up to a remainder (what
is still stored in the filters) that tends to zero. -/
theorem channel_r [Archimedean α] (s : GriesingerReverb α) (u : Nat → α × α) (hP : Primed s)
    (hx : TendsToZero (s.xrAt u)) :
    ∃ Rem : Nat → α, TendsToZero Rem ∧
      ∀ T, psum (s.wetRAt u) T = 5 * psum (s.xrAt u) T - Rem T := by
  obtain ⟨_, _, _, _, hdl, hdr, hal, har, hcl, hcr⟩ := hP
  obtain ⟨hd, Rd, hRd, eRd⟩ := Allpass.ap_balance s.in_diff_r_ (s.xrAt u) hdr hx
  obtain ⟨hc0, Q0, hQ0, eQ0⟩ := Comb.comb_balance (s.comb_r_ 0) (s.drAt u) (hcr 0) hd
  obtain ⟨hc1, Q1, hQ1, eQ1⟩ := Comb.comb_balance (s.comb_r_ 1) (s.drAt u) (hcr 1) hd
  obtain ⟨hc2, Q2, hQ2, eQ2⟩ := Comb.comb_balance (s.comb_r_ 2) (s.drAt u) (hcr 2) hd
  obtain ⟨hc3, Q3, hQ3, eQ3⟩ := Comb.comb_balance (s.comb_r_ 3) (s.drAt u) (hcr 3) hd
  have ecs : ∀ t, s.csrAt u t
      = 0.25 * s.crAt u 0 t + (0.25 * s.crAt u 1 t
        + (0.25 * s.crAt u 2 t + 0.25 * s.crAt u 3 t)) := by
    intro t
    unfold csrAt
    ring
  have hcs : TendsToZero (s.csrAt u) :=
    TendsToZero.congr 0 (fun t _ => ecs t)
      ((hc0.const_mul _).add ((hc1.const_mul _).add ((hc2.const_mul _).add (hc3.const_mul _))))
  have pcs : ∀ T, psum (s.csrAt u) T
      = 0.25 * psum (s.crAt u 0) T + (0.25 * psum (s.crAt u 1) T
        + (0.25 * psum (s.crAt u 2) T + 0.25 * psum (s.crAt u 3) T)) := by
    intro T
    rw [psum_congr ecs T, psum_add, psum_add, psum_add, psum_const_mul, psum_const_mul,
      psum_const_mul, psum_const_mul]
  obtain ⟨ht, R0, hR0, eR0⟩ := Allpass.ap_balance (s.ap_r_ 0) (s.csrAt u) (har 0) hcs
  obtain ⟨_, R1, hR1, eR1⟩ := Allpass.ap_balance (s.ap_r_ 1) (s.trAt u) (har 1) ht
  refine ⟨fun T => 5 * Rd T + (1.25 * Q0 T + (1.25 * Q1 T + (1.25 * Q2 T
      + (1.25 * Q3 T + (R0 T + R1 T))))),
    (hRd.const_mul _).add ((hQ0.const_mul _).add ((hQ1.const_mul _).add
      ((hQ2.const_mul _).add ((hQ3.const_mul _).add (hR0.add hR1))))), ?_⟩
  intro T
  have a1 : psum (s.wetRAt u) T = psum (s.trAt u) T - R1 T := eR1 T
  have a2 : psum (s.trAt u) T = psum (s.csrAt u) T - R0 T := eR0 T
  have a3 : psum (s.drAt u) T = psum (s.xrAt u) T - Rd T := eRd T
  have b0 : psum (s.crAt u 0) T = 5 * (psum (s.drAt u) T - Q0 T) := eQ0 T
  have b1 : psum (s.crAt u 1) T = 5 * (psum (s.drAt u) T - Q1 T) := eQ1 T
  have b2 : psum (s.crAt u 2) T = 5 * (psum (s.drAt u) T - Q2 T) := eQ2 T
  have b3 : psum (s.crAt u 3) T = 5 * (psum (s.drAt u) T - Q3 T) := eQ3 T
  rw [a1, a2, pcs T, b0, b1, b2, b3, a3]
  norm_num
  ring

end GriesingerReverb

namespace GriesingerReverb
variable {α : Type} [LinearOrderedField α]

/-- A primed network (decay 0.8) that is fed one sample with non-zero mono sum
and silence afterwards never falls silent: its output pair does not tend to
zero. -/
theorem no_decay_of_Primed [Archimedean α] (s : GriesingerReverb α) (u : Nat → α × α)
    (hP : Primed s) (hu : ∀ t, 1 ≤ t → u t = (0, 0)) (hu0 : (u 0).1 + (u 0).2 ≠ 0) :
    ¬ (TendsToZero (fun t => (s.outputAt u t).1) ∧
        TendsToZero (fun t => (s.outputAt u t).2)) := by
  rintro ⟨ho1, ho2⟩
  obtain ⟨hw, hmix, hpl, hpr, _⟩ := id hP
  have hwl : TendsToZero (s.wetLAt u) := by
    apply TendsToZero.congr 1 _ (ho1.const_mul s.mix_⁻¹)
    intro t ht
    show s.wetLAt u t = s.mix_⁻¹ * (s.outputAt u t).1
    rw [outputAt_eq s u hw t, hu t ht]
    field_simp
  have hwr : TendsToZero (s.wetRAt u) := by
    apply TendsToZero.congr 1 _ (ho2.const_mul s.mix_⁻¹)
    intro t ht
    show s.wetRAt u t = s.mix_⁻¹ * (s.outputAt u t).2
    rw [outputAt_eq s u hw t, hu t ht]
    field_simp
  have hmono : ∀ t, 1 ≤ t → (0.5 : α) * ((u t).1 + (u t).2) = 0 := by
    intro t ht
    rw [hu t ht]
    simp
  have exl : ∀ t, s.xlAt u t
      = 0.5 * ((u t).1 + (u t).2) + 0.2 * delayed (s.wetRAt u) 1 t := by
    intro t
    unfold xlAt
    rw [(stateAt_prev s u hw hpl hpr t).2]
  have exr : ∀ t, s.xrAt u t
      = 0.5 * ((u t).1 + (u t).2) + 0.2 * delayed (s.wetLAt u) 1 t := by
    intro t
    unfold xrAt
    rw [(stateAt_prev s u hw hpl hpr t).1]
  have hxl : TendsToZero (s.xlAt u) := by
    apply TendsToZero.congr 1 _ ((hwr.delayed 1).const_mul 0.2)
    intro t ht
    rw [exl t, hmono t ht, zero_add]
  have hxr : TendsToZero (s.xrAt u) := by
    apply TendsToZero.congr 1 _ ((hwl.delayed 1).const_mul 0.2)
    intro t ht
    rw [exr t, hmono t ht, zero_add]
  obtain ⟨Rl, hRl, eRl⟩ := channel_l s u hP hxl
  obtain ⟨Rr, hRr, eRr⟩ := channel_r s u hP hxr
  have hE : TendsToZero (fun T => delayed (s.wetRAt u) 1 T + (delayed (s.wetLAt u) 1 T
      + (Rl T + Rr T))) :=
    (hwr.delayed 1).add ((hwl.delayed 1).add (hRl.add hRr))
  have hM : (0 : α) < |10 * (0.5 * ((u 0).1 + (u 0).2))| := by
    apply abs_pos.mpr
    have : (10 : α) * (0.5 * ((u 0).1 + (u 0).2)) = 5 * ((u 0).1 + (u 0).2) := by
      norm_num
      ring
    rw [this]
    exact mul_ne_zero (by norm_num) hu0
  obtain ⟨N, hN⟩ := hE _ hM
  have hbad := hN (N + 1) (by omega)
  have pxl : psum (s.xlAt u) (N + 1)
      = 0.5 * ((u 0).1 + (u 0).2)
        + 0.2 * (psum (s.wetRAt u) (N + 1) - delayed (s.wetRAt u) 1 (N + 1)) := by
    rw [psum_congr exl (N + 1), psum_add, psum_const_mul 0.2 (delayed (s.wetRAt u) 1),
      psum_delayed_one, psum_of_eventually_zero _ hmono N]
  have pxr : psum (s.xrAt u) (N + 1)
      = 0.5 * ((u 0).1 + (u 0).2)
        + 0.2 * (psum (s.wetLAt u) (N + 1) - delayed (s.wetLAt u) 1 (N + 1)) := by
    rw [psum_congr exr (N + 1), psum_add, psum_const_mul 0.2 (delayed (s.wetLAt u) 1),
      psum_delayed_one, psum_of_eventually_zero _ hmono N]
  have e1 := eRl (N + 1)
  have e2 := eRr (N + 1)
  rw [pxl] at e1
  rw [pxr] at e2
  have hval : delayed (s.wetRAt u) 1 (N + 1) + (delayed (s.wetLAt u) 1 (N + 1)
      + (Rl (N + 1) + Rr (N + 1))) = 10 * (0.5 * ((u 0).1 + (u 0).2)) := by
    have h02 : (5 : α) * 0.2 = 1 := by norm_num
    linear_combination e1 + e2
      + (psum (s.wetRAt u) (N + 1) - delayed (s.wetRAt u) 1 (N + 1)
        + (psum (s.wetLAt u) (N + 1) - delayed (s.wetLAt u) 1 (N + 1))) * h02
  have hbad' : |delayed (s.wetRAt u) 1 (N + 1) + (delayed (s.wetLAt u) 1 (N + 1)
      + (Rl (N + 1) + Rr (N + 1)))| < |10 * (0.5 * ((u 0).1 + (u 0).2))| := hbad
  rw [hval] at hbad'
  exact lt_irrefl _ hbad'

end GriesingerReverb

theorem primedReverb_Primed : Primed primedReverb := by
  have h1 : 2 * 1024 ≤ SIZE_MOD := by decide
  have h2 : 2 * 2048 ≤ SIZE_MOD := by decide
  have h8 : 2 * 8192 ≤ SIZE_MOD := by decide
  have hg65 : |(0.65 : ℚ)| < 1 := by rw [abs_of_nonneg (by norm_num)]; norm_num
  have hg7 : |(0.7 : ℚ)| < 1 := by rw [abs_of_nonneg (by norm_num)]; norm_num
  have hdamp : fclamp (4800 : ℚ) 800 12000 = 4800 :=
    fclamp_of_mem (by norm_num) (by norm_num)
  have hdec : fclamp (4 / 5 : ℚ) 0.1 0.98 = 0.8 := by
    rw [fclamp_of_mem (by norm_num) (by norm_num)]
    norm_num
  have ha : exampleLib.expf (-2 * exampleLib.PI_F * fclamp (4800 : ℚ) 800 12000 / 48000)
      = 113 / 184 := by
    rw [hdamp]
    norm_num [exampleLib]
  refine ⟨?_, ?_, rfl, rfl, ⟨⟨113, ?_⟩, hg65⟩, ⟨⟨149, ?_⟩, hg65⟩, ?_, ?_, ?_, ?_⟩
  · show fclamp (1.0 : ℚ) 0 1 = 1
    rw [fclamp_of_mem (by norm_num) (by norm_num)]
    norm_num
  · show fclamp (0.35 : ℚ) 0 1 ≠ 0
    rw [fclamp_of_mem (by norm_num) (by norm_num)]
    norm_num
  · exact DelayLine.AtRest_Init_SetDelay _ (by omega) (by omega) h1
  · exact DelayLine.AtRest_Init_SetDelay _ (by omega) (by omega) h1
  · intro i
    exact ⟨⟨ap_l_delays i, DelayLine.AtRest_Init_SetDelay _ (ap_l_delays_range i).1
      (ap_l_delays_range i).2 h2⟩, hg7⟩
  · intro i
    exact ⟨⟨ap_r_delays i, DelayLine.AtRest_Init_SetDelay _ (ap_r_delays_range i).1
      (ap_r_delays_range i).2 h2⟩, hg7⟩
  · intro i
    refine ⟨⟨comb_l_delays i, DelayLine.AtRest_Init_SetDelay _
      (by have := comb_l_delays_range i; omega) (by have := comb_l_delays_range i; omega) h8⟩,
      rfl, rfl, ?_, ?_, hdec⟩
    · show (0 : ℚ) ≤ exampleLib.expf (-2 * exampleLib.PI_F * fclamp (4800 : ℚ) 800 12000 / 48000)
      rw [ha]; norm_num
    · show exampleLib.expf (-2 * exampleLib.PI_F * fclamp (4800 : ℚ) 800 12000 / 48000) < 1
      rw [ha]; norm_num
  · intro i
    refine ⟨⟨comb_r_delays i, DelayLine.AtRest_Init_SetDelay _
      (by have := comb_r_delays_range i; omega) (by have := comb_r_delays_range i; omega) h8⟩,
      rfl, rfl, ?_, ?_, hdec⟩
    · show (0 : ℚ) ≤ exampleLib.expf (-2 * exampleLib.PI_F * fclamp (4800 : ℚ) 800 12000 / 48000)
      rw [ha]; norm_num
    · show exampleLib.expf (-2 * exampleLib.PI_F * fclamp (4800 : ℚ) 800 12000 / 48000) < 1
      rw [ha]; norm_num

/-- C11 at its failing inputs (decay 0.8, inside the clamped range).
(a) The network after `Init(48000)` and `SetDecay(0.8)`, fed the impulse
`(1, 1)` and all-zero input ever after, has an output pair that does not tend
to zero.  (b) The humming state `humReverb` (all parameters as the interface
leaves them) reproduces itself under zero input: for every `n`, `n` calls
`Process(0, 0)` leave it humming and return `(7/20, 7/20)` each time. -/
theorem zero_input_does_not_decay :
    (primedReverb.decay_ = 4 / 5 ∧ (0.1 : ℚ) ≤ primedReverb.decay_ ∧
        primedReverb.decay_ ≤ 0.98 ∧ humReverb.decay_ = 4 / 5) ∧
      ¬ (TendsToZero (fun t => (primedReverb.outputAt impulse t).1) ∧
          TendsToZero (fun t => (primedReverb.outputAt impulse t).2)) ∧
      ∀ n : Nat, Humming 1 (humReverb.ProcessBlock (List.replicate n (0, 0))).1 ∧
        (humReverb.ProcessBlock (List.replicate n (0, 0))).2
          = List.replicate n (7 / 20, 7 / 20) := by
  have hdec : fclamp (4 / 5 : ℚ) 0.1 0.98 = 4 / 5 :=
    fclamp_of_mem (by norm_num) (by norm_num)
  have hd1 : primedReverb.decay_ = 4 / 5 := hdec
  have hd2 : humReverb.decay_ = 4 / 5 := hdec
  refine ⟨⟨hd1, by rw [hd1]; norm_num, by rw [hd1]; norm_num, hd2⟩, ?_, ?_⟩
  · apply GriesingerReverb.no_decay_of_Primed primedReverb impulse primedReverb_Primed
    · intro t ht
      unfold impulse
      rw [if_neg (by omega)]
    · unfold impulse
      norm_num
  · intro n
    have h := GriesingerReverb.Humming_block 1 n humReverb humReverb_Humming
    have hmix : humReverb.mix_ * 1 = 7 / 20 := by
      show fclamp (0.35 : ℚ) 0 1 * 1 = 7 / 20
      rw [fclamp_of_mem (by norm_num) (by norm_num)]
      norm_num
    rw [hmix] at h
    exact h

/-! ## Rounding to binary32 -/

namespace F32

theorem roundEven_of_near (m : ℚ) (n : ℤ) (h : |m - n| < 1 / 2) : roundEven m = n := by
  have h1 := (abs_lt.mp h).1
  have h2 := (abs_lt.mp h).2
  unfold roundEven
  rcases le_or_lt (n : ℚ) m with hnm | hnm
  · have hf : ⌊m⌋ = n := Int.floor_eq_iff.mpr ⟨hnm, by linarith⟩
    rw [hf, if_pos (by linarith)]
  · have hf : ⌊m⌋ = n - 1 := Int.floor_eq_iff.mpr ⟨by push_cast; linarith, by push_cast; linarith⟩
    rw [hf, if_neg (by push_cast; linarith), if_pos (by push_cast; linarith)]
    ring

theorem roundEven_intCast (n : ℤ) : roundEven (n : ℚ) = n :=
  roundEven_of_near _ n (by simp)

theorem roundEven_tie (m : ℚ) (f : ℤ) (h : m = f + 1 / 2) :
    roundEven m = if f % 2 = 0 then f else f + 1 := by
  have hf : ⌊m⌋ = f := Int.floor_eq_iff.mpr ⟨by linarith, by linarith⟩
  unfold roundEven
  rw [hf, if_neg (by linarith), if_neg (by linarith)]

theorem floor_le_roundEven (m : ℚ) : ⌊m⌋ ≤ roundEven m := by
  unfold roundEven
  split_ifs <;> omega

theorem roundEven_le_floor_add_one (m : ℚ) : roundEven m ≤ ⌊m⌋ + 1 := by
  unfold roundEven
  split_ifs <;> omega

theorem expo_ge (q : ℚ) : -126 ≤ expo q := le_max_right _ _

theorem expo_eq (q : ℚ) (e : ℤ) (h1 : (2 : ℚ) ^ e ≤ |q|) (h2 : |q| < (2 : ℚ) ^ (e + 1))
    (he : -126 ≤ e) : expo q = e := by
  have hpos : 0 < |q| := lt_of_lt_of_le (by positivity) h1
  have hlog : Int.log 2 |q| = e := by
    apply le_antisymm
    · have := (Int.lt_zpow_iff_log_lt (b := 2) (by norm_num) hpos (x := e + 1)).mp
        (by exact_mod_cast h2)
      omega
    · exact (Int.zpow_le_iff_le_log (b := 2) (by norm_num) hpos).mp (by exact_mod_cast h1)
  unfold expo
  rw [hlog]
  exact max_eq_left he

theorem abs_lt_of_expo (q : ℚ) : |q| < (2 : ℚ) ^ (expo q + 1) := by
  rcases eq_or_ne q 0 with rfl | hq
  · simp; positivity
  · have hpos : 0 < |q| := abs_pos.mpr hq
    have h := Int.lt_zpow_succ_log_self (b := 2) (by norm_num) |q|
    have hle : Int.log 2 |q| + 1 ≤ expo q + 1 := by
      have := le_max_left (Int.log 2 |q|) (-126)
      unfold expo; omega
    calc |q| < ((2 : ℕ) : ℚ) ^ (Int.log 2 |q| + 1) := h
      _ = (2 : ℚ) ^ (Int.log 2 |q| + 1) := by norm_num
      _ ≤ (2 : ℚ) ^ (expo q + 1) := zpow_le_zpow_right₀ (by norm_num) hle

theorem ulp_pos (q : ℚ) : 0 < ulp q := by unfold ulp; positivity

theorem rnd_of_parts (q r : ℚ) (hr : (roundEven (q / ulp q) : ℚ) * ulp q = r)
    (h1 : r < 2 ^ 128) (h2 : -2 ^ 128 < r) : rnd q = fin r := by
  unfold rnd
  simp only [hr]
  rw [if_neg (not_le.mpr h1), if_neg (not_le.mpr h2)]

theorem rnd_eval (q : ℚ) (e n : ℤ) (h1 : (2 : ℚ) ^ e ≤ |q|) (h2 : |q| < (2 : ℚ) ^ (e + 1))
    (he : -126 ≤ e) (hn : |q / 2 ^ (e - 23) - n| < 1 / 2)
    (hb : |(n : ℚ) * 2 ^ (e - 23)| < 2 ^ 128) : rnd q = fin (n * 2 ^ (e - 23)) := by
  have hu : ulp q = 2 ^ (e - 23) := by unfold ulp; rw [expo_eq q e h1 h2 he]
  apply rnd_of_parts
  · rw [hu, roundEven_of_near _ n hn]
  · exact (abs_lt.mp hb).2
  · exact (abs_lt.mp hb).1

theorem rnd_zero : rnd 0 = fin 0 := by
  apply rnd_of_parts
  · rw [zero_div]
    have := roundEven_intCast 0
    simp only [Int.cast_zero] at this
    rw [this]; simp
  · positivity
  · have : (0 : ℚ) < 2 ^ 128 := by positivity
    linarith

theorem rnd_ne_nan (q : ℚ) : rnd q ≠ nan := by
  unfold rnd
  simp only
  split_ifs <;> simp

theorem two_zpow_split (e : ℤ) : (2 : ℚ) ^ (e + 1) = 2 ^ 24 * 2 ^ (e - 23) := by
  have h : e + 1 = 24 + (e - 23) := by ring
  rw [h, zpow_add₀ (by norm_num : (2 : ℚ) ≠ 0)]
  norm_num

theorem roundEven_abs_le (q : ℚ) : |roundEven (q / ulp q)| ≤ 2 ^ 24 := by
  have hu := ulp_pos q
  have hq := abs_lt_of_expo q
  rw [two_zpow_split] at hq
  have hm : |q / ulp q| < 2 ^ 24 := by
    rw [abs_div, abs_of_pos hu, div_lt_iff₀ hu]
    exact hq
  have hm1 := (abs_lt.mp hm).1
  have hm2 := (abs_lt.mp hm).2
  have hf1 : (-2 ^ 24 : ℤ) ≤ ⌊q / ulp q⌋ := Int.le_floor.mpr (by push_cast; linarith)
  have hf2 : ⌊q / ulp q⌋ < (2 ^ 24 : ℤ) := Int.floor_lt.mpr (by push_cast; linarith)
  have h1 := floor_le_roundEven (q / ulp q)
  have h2 := roundEven_le_floor_add_one (q / ulp q)
  rw [abs_le]
  constructor <;> omega

theorem rnd_eq_fin (q r : ℚ) (h : rnd q = fin r) :
    r = (roundEven (q / ulp q) : ℚ) * ulp q ∧ |r| < 2 ^ 128 := by
  unfold rnd at h
  simp only at h
  split_ifs at h with h1 h2
  injection h with h
  refine ⟨h.symm, ?_⟩
  rw [← h, abs_lt]
  exact ⟨by linarith, by linarith⟩

theorem rnd_of_int_mul (r : ℚ) (k : ℤ) (hk : r = k * ulp r) (hb : |r| < 2 ^ 128) :
    rnd r = fin r := by
  apply rnd_of_parts
  · have hu := ulp_pos r
    have : r / ulp r = k := by
      rw [div_eq_iff hu.ne']
      exact hk
    rw [this, roundEven_intCast]
    exact hk.symm
  · exact (abs_lt.mp hb).2
  · exact (abs_lt.mp hb).1

/-- Rounding is idempotent: a rounded value is a binary32 value. -/
theorem rnd_idem (q r : ℚ) (h : rnd q = fin r) : rnd r = fin r := by
  obtain ⟨hr, hb⟩ := rnd_eq_fin q r h
  rcases eq_or_ne r 0 with h0 | h0
  · rw [h0]; exact rnd_zero
  have hn := roundEven_abs_le q
  set n := roundEven (q / ulp q) with hndef
  have hupos : (0 : ℚ) < 2 ^ (expo q - 23) := by positivity
  have habs : |r| = |(n : ℚ)| * 2 ^ (expo q - 23) := by
    rw [hr, abs_mul]
    unfold ulp
    rw [abs_of_pos hupos]
  have hnq : |(n : ℚ)| ≤ 2 ^ 24 := by
    have : ((|n| : ℤ) : ℚ) ≤ ((2 ^ 24 : ℤ) : ℚ) := Int.cast_le.mpr hn
    simpa using this
  have hrpos : 0 < |r| := abs_pos.mpr h0
  rcases lt_or_eq_of_le hnq with hlt | heq
  · -- the exponent does not grow
    have hrlt : |r| < (2 : ℚ) ^ (expo q + 1) := by
      rw [habs, two_zpow_split]
      exact mul_lt_mul_of_pos_right hlt hupos
    have hlog : Int.log 2 |r| < expo q + 1 :=
      (Int.lt_zpow_iff_log_lt (b := 2) (by norm_num) hrpos).mp (by exact_mod_cast hrlt)
    have hle : expo r ≤ expo q := by
      have := expo_ge q
      unfold expo at *
      exact max_le (by omega) this
    obtain ⟨d, hd⟩ := Int.eq_ofNat_of_zero_le (sub_nonneg.mpr hle)
    have hsplit : (2 : ℚ) ^ (expo q - 23) = 2 ^ d * 2 ^ (expo r - 23) := by
      have : expo q - 23 = (d : ℤ) + (expo r - 23) := by omega
      rw [this, zpow_add₀ (by norm_num : (2 : ℚ) ≠ 0), zpow_natCast]
    have key : r = ((n * 2 ^ d : ℤ) : ℚ) * 2 ^ (expo r - 23) := by
      calc r = (n : ℚ) * ulp q := hr
        _ = ((n * 2 ^ d : ℤ) : ℚ) * 2 ^ (expo r - 23) := by
          unfold ulp
          rw [hsplit]
          push_cast
          ring
    exact rnd_of_int_mul r _ key hb
  · -- the mantissa rounded up to the next power of two
    have hrval : |r| = (2 : ℚ) ^ (expo q + 1) := by
      rw [habs, heq, two_zpow_split]
    have he : expo r = expo q + 1 := by
      apply expo_eq
      · rw [hrval]
      · rw [hrval]
        exact zpow_lt_zpow_right₀ (by norm_num) (by omega)
      · have := expo_ge q; omega
    have hsplit : (2 : ℚ) ^ (expo q - 23) = 2⁻¹ * 2 ^ (expo r - 23) := by
      have : expo r - 23 = 1 + (expo q - 23) := by omega
      rw [this, zpow_add₀ (by norm_num : (2 : ℚ) ≠ 0), zpow_one]
      ring
    rcases abs_choice (n : ℚ) with hc | hc
    · have key : r = ((2 ^ 23 : ℤ) : ℚ) * 2 ^ (expo r - 23) := by
        calc r = (n : ℚ) * ulp q := hr
          _ = ((2 ^ 23 : ℤ) : ℚ) * 2 ^ (expo r - 23) := by
            unfold ulp
            rw [hsplit, ← hc, heq]
            push_cast
            ring
      exact rnd_of_int_mul r _ key hb
    · have hnval : (n : ℚ) = -2 ^ 24 := by
        rw [heq] at hc
        linarith
      have key : r = ((-2 ^ 23 : ℤ) : ℚ) * 2 ^ (expo r - 23) := by
        calc r = (n : ℚ) * ulp q := hr
          _ = ((-2 ^ 23 : ℤ) : ℚ) * 2 ^ (expo r - 23) := by
            unfold ulp
            rw [hsplit, hnval]
            push_cast
            ring
      exact rnd_of_int_mul r _ key hb

theorem rnd_exact (q : ℚ) (e n : ℤ) (h1 : (2 : ℚ) ^ e ≤ |q|) (h2 : |q| < (2 : ℚ) ^ (e + 1))
    (he : -126 ≤ e) (hq : q = n * 2 ^ (e - 23)) (hb : |q| < 2 ^ 128) : rnd q = fin q := by
  have hpos : (0 : ℚ) < 2 ^ (e - 23) := by positivity
  have h := rnd_eval q e n h1 h2 he
    (by rw [hq, mul_div_cancel_right₀ _ hpos.ne', sub_self, abs_zero]; norm_num)
    (by rw [← hq]; exact hb)
  rw [h, ← hq]

theorem rnd_tie (q : ℚ) (e f : ℤ) (h1 : (2 : ℚ) ^ e ≤ |q|) (h2 : |q| < (2 : ℚ) ^ (e + 1))
    (he : -126 ≤ e) (hq : q / 2 ^ (e - 23) = f + 1 / 2)
    (hb : |((if f % 2 = 0 then f else f + 1 : ℤ) : ℚ) * 2 ^ (e - 23)| < 2 ^ 128) :
    rnd q = fin (((if f % 2 = 0 then f else f + 1 : ℤ) : ℚ) * 2 ^ (e - 23)) := by
  have hu : ulp q = 2 ^ (e - 23) := by unfold ulp; rw [expo_eq q e h1 h2 he]
  apply rnd_of_parts
  · rw [hu, roundEven_tie _ f hq]
  · exact (abs_lt.mp hb).2
  · exact (abs_lt.mp hb).1

theorem rnd_exact_pos (q : ℚ) (e n : ℤ) (h0 : 0 < q) (h1 : (2 : ℚ) ^ e ≤ q)
    (h2 : q < (2 : ℚ) ^ (e + 1)) (he : -126 ≤ e) (hq : q = n * 2 ^ (e - 23))
    (hb : q < 2 ^ 128) : rnd q = fin q :=
  rnd_exact q e n (by rw [abs_of_pos h0]; exact h1) (by rw [abs_of_pos h0]; exact h2) he hq
    (by rw [abs_of_pos h0]; exact hb)

theorem rnd_exact_neg (q : ℚ) (e n : ℤ) (h0 : q < 0) (h1 : (2 : ℚ) ^ e ≤ -q)
    (h2 : -q < (2 : ℚ) ^ (e + 1)) (he : -126 ≤ e) (hq : q = n * 2 ^ (e - 23))
    (hb : -q < 2 ^ 128) : rnd q = fin q :=
  rnd_exact q e n (by rw [abs_of_neg h0]; exact h1) (by rw [abs_of_neg h0]; exact h2) he hq
    (by rw [abs_of_neg h0]; exact hb)

theorem rnd_eval_pos (q : ℚ) (e n : ℤ) (h0 : 0 < q) (h1 : (2 : ℚ) ^ e ≤ q)
    (h2 : q < (2 : ℚ) ^ (e + 1)) (he : -126 ≤ e) (hn : |q / 2 ^ (e - 23) - n| < 1 / 2)
    (hb : |(n : ℚ) * 2 ^ (e - 23)| < 2 ^ 128) : rnd q = fin (n * 2 ^ (e - 23)) :=
  rnd_eval q e n (by rw [abs_of_pos h0]; exact h1) (by rw [abs_of_pos h0]; exact h2) he hn hb

theorem rnd_eval_neg (q : ℚ) (e n : ℤ) (h0 : q < 0) (h1 : (2 : ℚ) ^ e ≤ -q)
    (h2 : -q < (2 : ℚ) ^ (e + 1)) (he : -126 ≤ e) (hn : |q / 2 ^ (e - 23) - n| < 1 / 2)
    (hb : |(n : ℚ) * 2 ^ (e - 23)| < 2 ^ 128) : rnd q = fin (n * 2 ^ (e - 23)) :=
  rnd_eval q e n (by rw [abs_of_neg h0]; exact h1) (by rw [abs_of_neg h0]; exact h2) he hn hb

theorem rnd_tie_pos (q : ℚ) (e f : ℤ) (h0 : 0 < q) (h1 : (2 : ℚ) ^ e ≤ q)
    (h2 : q < (2 : ℚ) ^ (e + 1)) (he : -126 ≤ e) (hq : q / 2 ^ (e - 23) = f + 1 / 2)
    (hb : |((if f % 2 = 0 then f else f + 1 : ℤ) : ℚ) * 2 ^ (e - 23)| < 2 ^ 128) :
    rnd q = fin (((if f % 2 = 0 then f else f + 1 : ℤ) : ℚ) * 2 ^ (e - 23)) :=
  rnd_tie q e f (by rw [abs_of_pos h0]; exact h1) (by rw [abs_of_pos h0]; exact h2) he hq hb

theorem expo_le_of_abs_lt (q : ℚ) (e : ℤ) (he : 0 ≤ e) (h : |q| < (2 : ℚ) ^ (e + 1)) :
    expo q ≤ e := by
  unfold expo
  apply max_le _ (by omega)
  rcases eq_or_ne q 0 with rfl | hq
  · rw [abs_zero, Int.log_of_right_le_zero _ le_rfl]; omega
  · have hpos : 0 < |q| := abs_pos.mpr hq
    have := (Int.lt_zpow_iff_log_lt (b := 2) (by norm_num) hpos (x := e + 1)).mp
      (by exact_mod_cast h)
    omega

/-- A value of magnitude below `2^127` does not overflow when rounded. -/
theorem rnd_fin_of_abs_lt (q : ℚ) (h : |q| < 2 ^ 127) : ∃ r, rnd q = fin r := by
  have e1 : ((126 : ℤ) + 1) = ((127 : ℕ) : ℤ) := by norm_num
  have he : expo q ≤ 126 :=
    expo_le_of_abs_lt q 126 (by norm_num) (by rw [e1, zpow_natCast]; exact h)
  have hn := roundEven_abs_le q
  have hnq : |(roundEven (q / ulp q) : ℚ)| ≤ 2 ^ 24 := by
    have : ((|roundEven (q / ulp q)| : ℤ) : ℚ) ≤ ((2 ^ 24 : ℤ) : ℚ) := Int.cast_le.mpr hn
    simpa using this
  have hu : ulp q ≤ 2 ^ (103 : ℤ) := by
    unfold ulp
    exact zpow_le_zpow_right₀ (by norm_num) (by omega)
  have hupos := ulp_pos q
  have hr : |(roundEven (q / ulp q) : ℚ) * ulp q| < 2 ^ 128 := by
    rw [abs_mul, abs_of_pos hupos]
    calc |(roundEven (q / ulp q) : ℚ)| * ulp q ≤ 2 ^ 24 * 2 ^ (103 : ℤ) :=
          mul_le_mul hnq hu hupos.le (by positivity)
      _ < 2 ^ 128 := by norm_num
  exact ⟨_, rnd_of_parts q _ rfl (abs_lt.mp hr).2 (abs_lt.mp hr).1⟩

theorem exact_zero : Exact 0 := rnd_zero

theorem exact_one : Exact 1 :=
  rnd_exact_pos 1 0 (2 ^ 23) (by norm_num) (by norm_num) (by norm_num) (by norm_num)
    (by norm_num) (by norm_num)

theorem zero_def : (0 : F32) = fin 0 := rfl

theorem one_def : (1 : F32) = fin 1 := rfl

theorem add_def (x y : F32) : x + y = add x y := rfl

theorem sub_def (x y : F32) : x - y = add x (neg y) := rfl

theorem mul_def (x y : F32) : x * y = mul x y := rfl

theorem neg_def (x : F32) : -x = neg x := rfl

theorem lit_def (m : ℕ) (s : Bool) (e : ℕ) :
    (OfScientific.ofScientific m s e : F32) = rnd (OfScientific.ofScientific m s e) := rfl

/-- The literal `0.5f`. -/
theorem lit_half : (0.5 : F32) = fin (1 / 2) := by
  rw [lit_def]
  have h : (OfScientific.ofScientific 5 true 1 : ℚ) = 1 / 2 := by norm_num
  rw [h]
  exact rnd_exact_pos _ (-1) (2 ^ 23) (by norm_num) (by norm_num) (by norm_num) (by norm_num)
    (by norm_num) (by norm_num)

/-- The literal `0.25f`. -/
theorem lit_quarter : (0.25 : F32) = fin (1 / 4) := by
  rw [lit_def]
  have h : (OfScientific.ofScientific 25 true 2 : ℚ) = 1 / 4 := by norm_num
  rw [h]
  exact rnd_exact_pos _ (-2) (2 ^ 23) (by norm_num) (by norm_num) (by norm_num) (by norm_num)
    (by norm_num) (by norm_num)

/-- The literal `0.7f` is `11744051 / 2^24`. -/
theorem lit_07 : (0.7 : F32) = fin (11744051 / 16777216) := by
  rw [lit_def]
  have h : (OfScientific.ofScientific 7 true 1 : ℚ) = 7 / 10 := by norm_num
  rw [h]
  have := rnd_eval_pos (7 / 10) (-1) 11744051 (by norm_num) (by norm_num) (by norm_num)
    (by norm_num)
    (by norm_num [abs_lt]) (by norm_num [abs_lt])
  rw [this]
  norm_num

/-- The literal `0.65f` is `5452595 / 2^23`. -/
theorem lit_065 : (0.65 : F32) = fin (5452595 / 8388608) := by
  rw [lit_def]
  have h : (OfScientific.ofScientific 65 true 2 : ℚ) = 13 / 20 := by norm_num
  rw [h]
  have := rnd_eval_pos (13 / 20) (-1) 10905190 (by norm_num) (by norm_num) (by norm_num)
    (by norm_num)
    (by norm_num [abs_lt]) (by norm_num [abs_lt])
  rw [this]
  norm_num

theorem isValue_rnd (q : ℚ) : IsValue (rnd q) := by
  cases h : rnd q with
  | fin r => exact rnd_idem q r h
  | pinf => trivial
  | ninf => trivial
  | nan => trivial

theorem isValue_add (x y : F32) : IsValue (x + y) := by
  cases x <;> cases y <;> first | exact isValue_rnd _ | trivial

theorem isValue_sub (x y : F32) : IsValue (x - y) := by
  cases x <;> cases y <;> first | exact isValue_rnd _ | trivial

theorem isValue_mul (x y : F32) : IsValue (x * y) := by
  cases x <;> cases y <;>
    first
    | exact isValue_rnd _
    | trivial
    | (simp only [mul_def, mul]; split_ifs <;> trivial)

theorem add_fin_zero (x : F32) (h : IsValue x) : x + fin 0 = x := by
  cases x with
  | fin a => simp only [add_def, add, add_zero]; exact h
  | pinf => rfl
  | ninf => rfl
  | nan => rfl

theorem fin_zero_add (x : F32) (h : IsValue x) : fin 0 + x = x := by
  cases x with
  | fin a => simp only [add_def, add, zero_add]; exact h
  | pinf => rfl
  | ninf => rfl
  | nan => rfl

theorem sub_fin_zero (x : F32) (h : IsValue x) : x - fin 0 = x := by
  cases x with
  | fin a => simp only [sub_def, add, neg, neg_zero, add_zero]; exact h
  | pinf => rfl
  | ninf => rfl
  | nan => rfl

theorem fin_one_mul (x : F32) (h : IsValue x) : fin 1 * x = x := by
  cases x with
  | fin a => simp only [mul_def, mul, one_mul]; exact h
  | pinf => simp [mul_def, mul]
  | ninf => simp [mul_def, mul]
  | nan => rfl

theorem fin_mul_fin_zero (a : ℚ) : fin a * fin 0 = fin 0 := by
  simp only [mul_def, mul, mul_zero]; exact rnd_zero

theorem fin_zero_mul_fin (a : ℚ) : fin 0 * fin a = fin 0 := by
  simp only [mul_def, mul, zero_mul]; exact rnd_zero

/-- Every `n * 2^k` with `|n| < 2^24`, `k ≥ -149` and magnitude below `2^128`
is a binary32 value. -/
theorem exact_of_dyadic (q : ℚ) (n k : ℤ) (hq : q = n * 2 ^ k) (hn : |(n : ℚ)| < 2 ^ 24)
    (hk : -149 ≤ k) (hb : |q| < 2 ^ 128) : Exact q := by
  rcases eq_or_ne q 0 with h0 | h0
  · rw [h0]; exact rnd_zero
  have hkpos : (0 : ℚ) < 2 ^ k := by positivity
  have hlt : |q| < (2 : ℚ) ^ (k + 23 + 1) := by
    have e : k + 23 + 1 = 24 + k := by ring
    rw [e, zpow_add₀ (by norm_num : (2 : ℚ) ≠ 0), hq, abs_mul, abs_of_pos hkpos]
    have : (2 : ℚ) ^ (24 : ℤ) = 2 ^ 24 := by norm_num
    rw [this]
    exact mul_lt_mul_of_pos_right hn hkpos
  have hle : expo q ≤ k + 23 := by
    unfold expo
    apply max_le _ (by omega)
    have hpos : 0 < |q| := abs_pos.mpr h0
    have := (Int.lt_zpow_iff_log_lt (b := 2) (by norm_num) hpos (x := k + 23 + 1)).mp
      (by exact_mod_cast hlt)
    omega
  obtain ⟨d, hd⟩ := Int.eq_ofNat_of_zero_le (sub_nonneg.mpr hle)
  have hsplit : (2 : ℚ) ^ k = 2 ^ d * 2 ^ (expo q - 23) := by
    have : k = (d : ℤ) + (expo q - 23) := by omega
    rw [this, zpow_add₀ (by norm_num : (2 : ℚ) ≠ 0), zpow_natCast]
  have key : q = ((n * 2 ^ d : ℤ) : ℚ) * 2 ^ (expo q - 23) := by
    calc q = (n : ℚ) * 2 ^ k := hq
      _ = ((n * 2 ^ d : ℤ) : ℚ) * 2 ^ (expo q - 23) := by
        rw [hsplit]
        push_cast
        ring
  exact rnd_of_int_mul q _ key hb

theorem expo_of_small (q : ℚ) (h0 : q ≠ 0) (h : |q| < (2 : ℚ) ^ (-126 : ℤ)) :
    expo q = -126 := by
  have hpos : 0 < |q| := abs_pos.mpr h0
  have hlog := (Int.lt_zpow_iff_log_lt (b := 2) (by norm_num) hpos (x := -126)).mp
    (by exact_mod_cast h)
  unfold expo
  exact max_eq_right (by omega)

end F32

/-! ## The network in binary32 -/

namespace GriesingerReverb
open F32

/-- The pre-width wet pair of a call is made of the values read from the comb
and tail allpass delay lines and of the tail gains; the inputs of the call do
not enter it. -/
theorem tank_wet (s : GriesingerReverb F32) (a b : F32) :
    (s.tank a b).2 =
      (-(s.ap_l_ 1).gain_ *
          (-(s.ap_l_ 0).gain_ *
              ((0 + (s.comb_l_ 0).delay_.Read + (s.comb_l_ 1).delay_.Read +
                (s.comb_l_ 2).delay_.Read + (s.comb_l_ 3).delay_.Read) * 0.25) +
            (s.ap_l_ 0).delay_.Read) +
        (s.ap_l_ 1).delay_.Read,
       -(s.ap_r_ 1).gain_ *
          (-(s.ap_r_ 0).gain_ *
              ((0 + (s.comb_r_ 0).delay_.Read + (s.comb_r_ 1).delay_.Read +
                (s.comb_r_ 2).delay_.Read + (s.comb_r_ 3).delay_.Read) * 0.25) +
            (s.ap_r_ 0).delay_.Read) +
        (s.ap_r_ 1).delay_.Read) := rfl

theorem Process_out32 (s : GriesingerReverb F32) (a b : F32) :
    (s.Process a b).2 =
      ((1 - s.mix_) * a + s.mix_ * (s.Process a b).1.prev_l_,
       (1 - s.mix_) * b + s.mix_ * (s.Process a b).1.prev_r_) := rfl

theorem Process_prev32 (s : GriesingerReverb F32) (a b : F32) :
    ((s.Process a b).1.prev_l_, (s.Process a b).1.prev_r_) =
      widen s.width_ (s.tank a b).2.1 (s.tank a b).2.2 := rfl

theorem Process_mix32 (s : GriesingerReverb F32) (a b : F32) :
    (s.Process a b).1.mix_ = s.mix_ := rfl

theorem widen_def32 (w x y : F32) :
    widen w x y = (0.5 * (x + y) + 0.5 * (x - y) * w, 0.5 * (x + y) - 0.5 * (x - y) * w) := rfl

theorem tank_isValue (s : GriesingerReverb F32) (a b : F32) :
    IsValue (s.tank a b).2.1 ∧ IsValue (s.tank a b).2.2 := by
  rw [tank_wet]
  exact ⟨isValue_add _ _, isValue_add _ _⟩

/-- The dry path at mix 0: `(1 - 0) * x + 0 * w` is `x` for a finite `w`. -/
theorem dry_mix (x : F32) (w : F32) (hx : IsValue x) (hw : IsFinite w) :
    (1 - 0 : F32) * x + 0 * w = x := by
  have h1 : (1 - 0 : F32) = fin 1 := by
    show rnd (1 + -0) = fin 1
    rw [neg_zero, add_zero]
    exact exact_one
  cases w with
  | fin c =>
    rw [h1, fin_one_mul x hx, zero_def, fin_zero_mul_fin, add_fin_zero x hx]
  | pinf => exact hw.elim
  | ninf => exact hw.elim
  | nan => exact hw.elim

end GriesingerReverb

/-! ## The first ticks after `Init` in binary32 -/

namespace F32

theorem isFinite_iff (x : F32) : IsFinite x ↔ ∃ q, x = fin q := by
  cases x with
  | fin q => exact ⟨fun _ => ⟨q, rfl⟩, fun _ => trivial⟩
  | pinf => exact ⟨fun h => h.elim, fun ⟨q, hq⟩ => F32.noConfusion hq⟩
  | ninf => exact ⟨fun h => h.elim, fun ⟨q, hq⟩ => F32.noConfusion hq⟩
  | nan => exact ⟨fun h => h.elim, fun ⟨q, hq⟩ => F32.noConfusion hq⟩

theorem mul_zero_of_finite (x : F32) (h : IsFinite x) : x * 0 = 0 := by
  obtain ⟨q, rfl⟩ := (isFinite_iff x).mp h
  exact fin_mul_fin_zero q

theorem zero_mul_of_finite (x : F32) (h : IsFinite x) : 0 * x = 0 := by
  obtain ⟨q, rfl⟩ := (isFinite_iff x).mp h
  exact fin_zero_mul_fin q

theorem neg_mul_zero_of_finite (x : F32) (h : IsFinite x) : -x * 0 = 0 := by
  obtain ⟨q, rfl⟩ := (isFinite_iff x).mp h
  exact fin_mul_fin_zero (-q)

theorem zero_add_zero : (0 : F32) + 0 = 0 := by
  show rnd (0 + 0) = fin 0
  rw [add_zero]
  exact rnd_zero

theorem zero_sub_zero : (0 : F32) - 0 = 0 := by
  show rnd (0 + -0) = fin 0
  rw [neg_zero, add_zero]
  exact rnd_zero

theorem lit_finite (m : ℕ) (e : ℕ) (h : |(OfScientific.ofScientific m true e : ℚ)| < 2 ^ 127) :
    IsFinite (OfScientific.ofScientific m true e : F32) := by
  rw [lit_def]
  obtain ⟨r, hr⟩ := rnd_fin_of_abs_lt _ h
  rw [hr]
  trivial

end F32

namespace Comb
open F32

theorem Process_quiet32 (c : Comb F32 8192) (x : F32) {k D : Nat} (h : CombQuiet32 k D c)
    (hk : k < D) (hD : D ≤ 1617) :
    (c.Process x).2 = 0 ∧ CombQuiet32 (k + 1) D (c.Process x).1 ∧
      bufAt (c.Process x).1.delay_.buffer_ k = x + 0 ∧
      ∀ j, j ≠ k → bufAt (c.Process x).1.delay_.buffer_ j = bufAt c.delay_.buffer_ j := by
  obtain ⟨hz, ha, hb', hfb, hw, hd, hb⟩ := h
  have hidx : c.delay_.read_index = k + 8192 - D := by
    unfold DelayLine.read_index uadd usub SIZE_MOD
    rw [hw, hd]
    omega
  have hread : c.delay_.Read = 0 := by
    unfold DelayLine.Read bufAt
    rw [hidx]
    split
    · exact hb _ (by simp only; omega)
    · rfl
  have hf : (c.damping_.Process c.delay_.Read).2 = 0 := by
    show c.damping_.b_ * c.delay_.Read + c.damping_.a_ * c.damping_.z_ = 0
    rw [hread, hz, mul_zero_of_finite _ hb', mul_zero_of_finite _ ha, zero_add_zero]
  have hf1 : (c.damping_.Process c.delay_.Read).1.z_ = 0 := hf
  have hwr : (c.Process x).1.delay_ = c.delay_.Write (x + 0) := by
    show c.delay_.Write (x + (c.damping_.Process c.delay_.Read).2 * c.feedback_) = _
    rw [hf, zero_mul_of_finite _ hfb]
  refine ⟨hread, ⟨hf1, ha, hb', hfb, ?_, hd, ?_⟩, ?_, ?_⟩
  · show uadd c.delay_.write_index_ 1 % 8192 = k + 1
    unfold uadd SIZE_MOD
    rw [hw]
    omega
  · intro j hj
    show bufSet c.delay_.buffer_ c.delay_.write_index_ _ j = 0
    unfold bufSet
    rw [hw]
    have : ¬ j.val = k := by omega
    simp only [this, if_false]
    exact hb j (by omega)
  · rw [hwr]
    show bufAt (bufSet c.delay_.buffer_ c.delay_.write_index_ _) k = _
    rw [hw]
    exact bufAt_bufSet_same _ _ (by omega)
  · intro j hj
    show bufAt (bufSet c.delay_.buffer_ c.delay_.write_index_ _) j = _
    rw [hw]
    exact bufAt_bufSet_ne _ _ hj

theorem Process_first_echo32 (c : Comb F32 8192) (x : F32) {D : Nat} (h : CombQuiet32 D D c) :
    (c.Process x).2 = bufAt c.delay_.buffer_ 0 := by
  obtain ⟨_, _, _, _, hw, hd, _⟩ := h
  have hidx : c.delay_.read_index = 0 := by
    unfold DelayLine.read_index uadd usub SIZE_MOD
    rw [hw, hd]
    omega
  show bufAt c.delay_.buffer_ c.delay_.read_index = _
  rw [hidx]

end Comb

namespace Allpass
open F32

theorem gain_07_finite : IsFinite (0.7 : F32) := by
  rw [lit_07]; trivial

theorem Process_silent32 (p : Allpass F32 2048) (h : AllpassSilent32 p) :
    (p.Process 0).2 = 0 ∧ AllpassSilent32 (p.Process 0).1 ∧
      ∀ x, (p.Process x).2 = -(0.7 : F32) * x + 0 := by
  obtain ⟨hg, hb⟩ := h
  have hread : p.delay_.Read = 0 := bufAt_of_zero _ hb _
  have hout : (p.Process 0).2 = 0 := by
    show -p.gain_ * 0 + p.delay_.Read = 0
    rw [hread, hg, neg_mul_zero_of_finite _ gain_07_finite, zero_add_zero]
  refine ⟨hout, ⟨hg, ?_⟩, ?_⟩
  · intro j
    show bufSet p.delay_.buffer_ p.delay_.write_index_ (0 + p.gain_ * (p.Process 0).2) j = 0
    rw [hout, hg, mul_zero_of_finite _ gain_07_finite, zero_add_zero]
    exact bufSet_zero_of_zero _ hb _ j
  · intro x
    show -p.gain_ * x + p.delay_.Read = _
    rw [hread, hg]

end Allpass

namespace GriesingerReverb
open F32

theorem widen_zero32 (width : F32) (h : IsFinite width) : widen width 0 0 = (0, 0) := by
  have h5 : IsFinite (0.5 : F32) := by rw [lit_half]; trivial
  rw [widen_def32, zero_add_zero, zero_sub_zero, mul_zero_of_finite _ h5,
    zero_mul_of_finite _ h, zero_add_zero, zero_sub_zero]

theorem quarter_finite : IsFinite (0.25 : F32) := by
  rw [lit_quarter]; trivial

/-- While every comb is still quiet, a `Process` call has zero pre-width wet
signal and keeps the tail allpasses silent. -/
theorem tank_quiet32 (s : GriesingerReverb F32) (in_l in_r : F32) {k : Nat} (h : Quiet32 k s)
    (hk : k < 1116) :
    (s.tank in_l in_r).2 = (0, 0) ∧
      (∀ i, AllpassSilent32 ((s.tank in_l in_r).1.ap_l_ i)) ∧
      ∀ i, AllpassSilent32 ((s.tank in_l in_r).1.ap_r_ i) := by
  obtain ⟨_, _, _, hcl, hcr, hal, har⟩ := h
  have hl : ∀ i x, ((s.comb_l_ i).Process x).2 = 0 := fun i x =>
    (Comb.Process_quiet32 _ x (hcl i) (by have := comb_l_delays_range i; omega)
      (comb_l_delays_range i).2).1
  have hr : ∀ i x, ((s.comb_r_ i).Process x).2 = 0 := fun i x =>
    (Comb.Process_quiet32 _ x (hcr i) (by have := comb_r_delays_range i; omega)
      (comb_r_delays_range i).2.1).1
  have hsum : ((0 : F32) + 0 + 0 + 0 + 0) * 0.25 = 0 := by
    rw [zero_add_zero, zero_add_zero, zero_add_zero, zero_add_zero,
      zero_mul_of_finite _ quarter_finite]
  have hsl : (s.tank in_l in_r).1.ap_l_ 0 = ((s.ap_l_ 0).Process 0).1 := by
    simp only [tank, hl, hsum, Matrix.cons_val_zero]
  have hsr : (s.tank in_l in_r).1.ap_r_ 0 = ((s.ap_r_ 0).Process 0).1 := by
    simp only [tank, hr, hsum, Matrix.cons_val_zero]
  have h0l := Allpass.Process_silent32 (s.ap_l_ 0) (hal 0)
  have h0r := Allpass.Process_silent32 (s.ap_r_ 0) (har 0)
  have h1l := Allpass.Process_silent32 (s.ap_l_ 1) (hal 1)
  have h1r := Allpass.Process_silent32 (s.ap_r_ 1) (har 1)
  have hsl1 : (s.tank in_l in_r).1.ap_l_ 1 = ((s.ap_l_ 1).Process 0).1 := by
    simp only [tank, hl, hsum, h0l.1, Matrix.cons_val_one, Matrix.head_cons]
  have hsr1 : (s.tank in_l in_r).1.ap_r_ 1 = ((s.ap_r_ 1).Process 0).1 := by
    simp only [tank, hr, hsum, h0r.1, Matrix.cons_val_one, Matrix.head_cons]
  refine ⟨?_, ?_, ?_⟩
  · simp only [tank, hl, hr, hsum, h0l.1, h0r.1, h1l.1, h1r.1]
  · intro i
    fin_cases i
    · show AllpassSilent32 ((s.tank in_l in_r).1.ap_l_ 0)
      rw [hsl]; exact h0l.2.1
    · show AllpassSilent32 ((s.tank in_l in_r).1.ap_l_ 1)
      rw [hsl1]; exact h1l.2.1
  · intro i
    fin_cases i
    · show AllpassSilent32 ((s.tank in_l in_r).1.ap_r_ 0)
      rw [hsr]; exact h0r.2.1
    · show AllpassSilent32 ((s.tank in_l in_r).1.ap_r_ 1)
      rw [hsr1]; exact h1r.2.1

theorem Quiet32_Process (s : GriesingerReverb F32) (in_l in_r : F32) {k : Nat}
    (h : Quiet32 k s) (hk : k < 1116) : Quiet32 (k + 1) (s.Process in_l in_r).1 := by
  have ht := tank_quiet32 s in_l in_r h hk
  obtain ⟨hw, _, _, hcl, hcr, _, _⟩ := h
  have hp := Process_prev32 s in_l in_r
  rw [ht.1, widen_zero32 _ hw] at hp
  refine ⟨hw, congrArg Prod.fst hp, congrArg Prod.snd hp, ?_, ?_, ht.2.1, ht.2.2⟩
  · intro i
    exact (Comb.Process_quiet32 _ _ (hcl i) (by have := comb_l_delays_range i; omega)
      (comb_l_delays_range i).2).2.1
  · intro i
    exact (Comb.Process_quiet32 _ _ (hcr i) (by have := comb_r_delays_range i; omega)
      (comb_r_delays_range i).2.1).2.1

/-- The `Process` call at tick 0 stores the right diffuser's output in slot 0
of the shortest comb, `comb_r_[3]`. -/
theorem slot_first32 (s : GriesingerReverb F32) (in_l in_r : F32) (h : Quiet32 0 s) :
    bufAt ((s.Process in_l in_r).1.comb_r_ 3).delay_.buffer_ 0
      = (s.in_diff_r_.Process (0.5 * (in_l + in_r) + 0.2 * s.prev_l_)).2 + 0 :=
  (Comb.Process_quiet32 _ _ (h.2.2.2.2.1 3) (by simp [comb_r_delays])
    (by simp [comb_r_delays])).2.2.1

/-- Later quiet ticks leave slot 0 of `comb_r_[3]` alone. -/
theorem slot_keep32 (s : GriesingerReverb F32) (in_l in_r : F32) {k : Nat} (h : Quiet32 k s)
    (hk0 : 0 < k) (hk : k < 1116) :
    bufAt ((s.Process in_l in_r).1.comb_r_ 3).delay_.buffer_ 0
      = bufAt (s.comb_r_ 3).delay_.buffer_ 0 :=
  (Comb.Process_quiet32 _ _ (h.2.2.2.2.1 3) (by simp [comb_r_delays]; omega)
    (by simp [comb_r_delays])).2.2.2 0 (by omega)

theorem ProcessBlock_cons_state (s : GriesingerReverb F32) (x : F32 × F32)
    (xs : List (F32 × F32)) :
    (s.ProcessBlock (x :: xs)).1 = ((s.Process x.1 x.2).1.ProcessBlock xs).1 := rfl

theorem Quiet32_block (ins : List (F32 × F32)) (s : GriesingerReverb F32) (k : Nat)
    (h : Quiet32 k s) (hk0 : 0 < k) (hk : k + ins.length ≤ 1116) :
    Quiet32 (k + ins.length) (s.ProcessBlock ins).1 ∧
      bufAt ((s.ProcessBlock ins).1.comb_r_ 3).delay_.buffer_ 0
        = bufAt (s.comb_r_ 3).delay_.buffer_ 0 ∧
      (s.ProcessBlock ins).1.width_ = s.width_ ∧ (s.ProcessBlock ins).1.mix_ = s.mix_ := by
  induction ins generalizing s k with
  | nil => exact ⟨h, rfl, rfl, rfl⟩
  | cons x xs ih =>
    simp only [List.length_cons] at hk
    have h1 := Quiet32_Process s x.1 x.2 h (by omega)
    have h2 := slot_keep32 s x.1 x.2 h hk0 (by omega)
    obtain ⟨i1, i2, i3, i4⟩ := ih (s.Process x.1 x.2).1 (k + 1) h1 (by omega) (by omega)
    rw [ProcessBlock_cons_state]
    refine ⟨?_, ?_, ?_, ?_⟩
    · rw [List.length_cons, show k + (xs.length + 1) = k + 1 + xs.length by omega]; exact i1
    · rw [i2, h2]
    · rw [i3]; rfl
    · rw [i4]; rfl

/-- At tick 1116 the sample stored at tick 0 leaves `comb_r_[3]` and passes the
right tail allpasses; the left wet signal is still zero. -/
theorem tank_first_echo32 (s : GriesingerReverb F32) (in_l in_r : F32) (h : Quiet32 1116 s) :
    (s.tank in_l in_r).2 =
      (0, -(0.7 : F32) * (-(0.7 : F32) *
          (((0 : F32) + 0 + 0 + 0 + bufAt (s.comb_r_ 3).delay_.buffer_ 0) * 0.25) + 0) + 0) := by
  obtain ⟨_, _, _, hcl, hcr, hal, har⟩ := h
  have hl : ∀ i x, ((s.comb_l_ i).Process x).2 = 0 := fun i x =>
    (Comb.Process_quiet32 _ x (hcl i) (comb_l_delays_range i).1 (comb_l_delays_range i).2).1
  have hr : ∀ i x, i ≠ 3 → ((s.comb_r_ i).Process x).2 = 0 := fun i x hi =>
    (Comb.Process_quiet32 _ x (hcr i) ((comb_r_delays_range i).2.2 hi)
      (comb_r_delays_range i).2.1).1
  have hr3 : ∀ x, ((s.comb_r_ 3).Process x).2 = bufAt (s.comb_r_ 3).delay_.buffer_ 0 :=
    fun x => Comb.Process_first_echo32 _ x (hcr 3)
  have hsum : ((0 : F32) + 0 + 0 + 0 + 0) * 0.25 = 0 := by
    rw [zero_add_zero, zero_add_zero, zero_add_zero, zero_add_zero,
      zero_mul_of_finite _ quarter_finite]
  have h0l := Allpass.Process_silent32 (s.ap_l_ 0) (hal 0)
  have h1l := Allpass.Process_silent32 (s.ap_l_ 1) (hal 1)
  have h0r := (Allpass.Process_silent32 (s.ap_r_ 0) (har 0)).2.2
  have h1r := (Allpass.Process_silent32 (s.ap_r_ 1) (har 1)).2.2
  have e0 := hr 0 (s.in_diff_r_.Process (0.5 * (in_l + in_r) + 0.2 * s.prev_l_)).2 (by decide)
  have e1 := hr 1 (s.in_diff_r_.Process (0.5 * (in_l + in_r) + 0.2 * s.prev_l_)).2 (by decide)
  have e2 := hr 2 (s.in_diff_r_.Process (0.5 * (in_l + in_r) + 0.2 * s.prev_l_)).2 (by decide)
  simp only [tank, hl, hsum, h0l.1, h1l.1, e0, e1, e2, hr3, h0r, h1r]

end GriesingerReverb

namespace GriesingerReverb
open F32

theorem SetDelay_delay32 {n : Nat} (d : DelayLine F32 n) (D : Nat) (h1 : 1 ≤ D) (h2 : D < n) :
    (d.SetDelay D).delay_ = D := by
  show (if D < 1 then 1 else if D ≥ n then usub n 1 else D) = D
  rw [if_neg (by omega), if_neg (by omega)]

theorem lit_082_finite : IsFinite (0.82 : F32) :=
  lit_finite 82 2 (by norm_num [abs_lt])

theorem lit_02_finite : IsFinite (0.2 : F32) :=
  lit_finite 2 1 (by norm_num [abs_lt])

theorem half_finite : IsFinite (0.5 : F32) := by
  rw [lit_half]; trivial

/-- The start state is quiet at tick 0. -/
theorem Quiet32_start (mix width : F32) (hw : IsFinite width) :
    Quiet32 0 (startReverb32 mix width) := by
  refine ⟨hw, rfl, rfl, ?_, ?_, ?_, ?_⟩
  · intro i
    refine ⟨rfl, half_finite, half_finite, lit_082_finite, rfl, ?_, fun _ _ => rfl⟩
    have h := comb_l_delays_range i
    exact SetDelay_delay32 _ _ (by omega) (by omega)
  · intro i
    refine ⟨rfl, half_finite, half_finite, lit_082_finite, rfl, ?_, fun _ _ => rfl⟩
    have h := comb_r_delays_range i
    exact SetDelay_delay32 _ _ (by omega) (by omega)
  · intro i
    exact ⟨rfl, fun _ => rfl⟩
  · intro i
    exact ⟨rfl, fun _ => rfl⟩

theorem exact_big : Exact (2 ^ 127) :=
  exact_of_dyadic _ 1 127 (by norm_num) (by norm_num) (by norm_num)
    (by rw [abs_of_pos (by norm_num)]; norm_num)

/-- The sum `2^127 + 2^127` overflows. -/
theorem rnd_big_add_big : rnd (2 ^ 127 + 2 ^ 127) = pinf := by
  have hq : (2 ^ 127 + 2 ^ 127 : ℚ) = 2 ^ (128 : ℤ) := by norm_num
  have he : expo (2 ^ 127 + 2 ^ 127) = 128 := by
    apply expo_eq
    · rw [hq, abs_of_pos (by positivity)]
    · rw [hq, abs_of_pos (by positivity)]
      exact zpow_lt_zpow_right₀ (by norm_num) (by norm_num)
    · norm_num
  have hu : ulp (2 ^ 127 + 2 ^ 127) = 2 ^ (105 : ℤ) := by
    unfold ulp
    rw [he]
    norm_num
  have hm : (2 ^ 127 + 2 ^ 127 : ℚ) / 2 ^ (105 : ℤ) = ((8388608 : ℤ) : ℚ) := by norm_num
  unfold rnd
  simp only
  rw [hu, hm, roundEven_intCast, if_pos (by norm_num)]

/-- The first call of the block stores `-inf` in slot 0 of `comb_r_[3]`. -/
theorem slot_overflow (mix width : F32) (hw : IsFinite width) :
    bufAt (((startReverb32 mix width).Process (fin (2 ^ 127)) (fin (2 ^ 127))).1.comb_r_
      3).delay_.buffer_ 0 = ninf := by
  rw [slot_first32 _ _ _ (Quiet32_start mix width hw)]
  have hread : (startReverb32 mix width).in_diff_r_.delay_.Read = 0 :=
    bufAt_of_zero _ (fun _ => rfl) _
  have hgain : (startReverb32 mix width).in_diff_r_.gain_ = fin (5452595 / 8388608) := lit_065
  have hprev : (startReverb32 mix width).prev_l_ = 0 := rfl
  have hsum : fin (2 ^ 127) + fin (2 ^ 127) = pinf := rnd_big_add_big
  have hmono : (0.5 : F32) * pinf = pinf := by
    rw [lit_half]
    norm_num [mul_def, mul]
  have hx : pinf + (0.2 : F32) * 0 = pinf := by
    rw [mul_zero_of_finite _ lit_02_finite]
    rfl
  show -(startReverb32 mix width).in_diff_r_.gain_ *
      (0.5 * (fin (2 ^ 127) + fin (2 ^ 127)) + 0.2 * (startReverb32 mix width).prev_l_) +
        (startReverb32 mix width).in_diff_r_.delay_.Read + 0 = ninf
  rw [hread, hgain, hprev, hsum, hmono, hx]
  norm_num [zero_def, add_def, mul_def, neg_def, add, mul, neg]

theorem overflowReverb32_eq (mix width : F32) :
    overflowReverb32 mix width =
      (((startReverb32 mix width).Process (fin (2 ^ 127)) (fin (2 ^ 127))).1.ProcessBlock
        (List.replicate 1115 (0, 0))).1 :=
  ProcessBlock_cons_state _ _ _

/-- The state after the block: quiet at tick 1116, with `-inf` in slot 0 of
`comb_r_[3]` and the mix and width of the start state. -/
theorem overflowReverb32_spec (mix width : F32) (hw : IsFinite width) :
    Quiet32 1116 (overflowReverb32 mix width) ∧
      bufAt ((overflowReverb32 mix width).comb_r_ 3).delay_.buffer_ 0 = ninf ∧
      (overflowReverb32 mix width).width_ = width ∧ (overflowReverb32 mix width).mix_ = mix := by
  have h1 := Quiet32_Process _ (fin (2 ^ 127)) (fin (2 ^ 127)) (Quiet32_start mix width hw)
    (by norm_num)
  have h := Quiet32_block (List.replicate 1115 (0, 0)) _ 1 h1 (by norm_num)
    (by rw [List.length_replicate])
  rw [List.length_replicate] at h
  rw [overflowReverb32_eq]
  exact ⟨h.1, h.2.1.trans (slot_overflow mix width hw), h.2.2.1, h.2.2.2⟩

/-- The pre-width wet pair of the call after the block is `(0, -inf)`. -/
theorem tank_overflowReverb32 (mix width : F32) (hw : IsFinite width) (a b : F32) :
    ((overflowReverb32 mix width).tank a b).2 = (fin 0, ninf) := by
  have h := overflowReverb32_spec mix width hw
  rw [tank_first_echo32 _ a b h.1, h.2.1]
  norm_num [lit_quarter, lit_07, zero_def, add_def, mul_def, neg_def, add, mul, neg, rnd_zero]
  rfl

end GriesingerReverb

namespace GriesingerReverb
open F32

theorem dry_block (s : GriesingerReverb F32) (hmix : s.mix_ = 0)
    (hstep : ∀ t : GriesingerReverb F32, t.mix_ = 0 → ∀ in_l in_r : F32,
      IsValue in_l → IsValue in_r →
      IsFinite (t.Process in_l in_r).1.prev_l_ → IsFinite (t.Process in_l in_r).1.prev_r_ →
      (t.Process in_l in_r).2 = (in_l, in_r))
    (ins : List (F32 × F32)) (hin : ∀ x ∈ ins, IsValue x.1 ∧ IsValue x.2)
    (hwet : s.WetFiniteAlong ins) : (s.ProcessBlock ins).2 = ins := by
  induction ins generalizing s with
  | nil => rfl
  | cons x xs ih =>
    obtain ⟨hl, hr, hrest⟩ := hwet
    have hx := hin x (List.mem_cons_self _ _)
    have h1 := hstep s hmix x.1 x.2 hx.1 hx.2 hl hr
    have h2 := ih (s.Process x.1 x.2).1 ((Process_mix32 s x.1 x.2).trans hmix)
      (fun y hy => hin y (List.mem_cons_of_mem _ hy)) hrest
    show (s.Process x.1 x.2).2 :: ((s.Process x.1 x.2).1.ProcessBlock xs).2 = x :: xs
    rw [h1, h2]

theorem bufAt_zero32 {n : Nat} (i : Nat) : bufAt (fun _ : Fin n => (0 : F32)) i = 0 := by
  unfold bufAt
  split <;> rfl

theorem read_rest_comb_l (i : Fin 4) : (restReverb32.comb_l_ i).delay_.Read = 0 :=
  bufAt_zero32 _

theorem read_rest_comb_r (i : Fin 4) : (restReverb32.comb_r_ i).delay_.Read = 0 :=
  bufAt_zero32 _

theorem read_rest_ap_l (i : Fin 2) : (restReverb32.ap_l_ i).delay_.Read = 0 :=
  bufAt_zero32 _

theorem read_rest_ap_r (i : Fin 2) : (restReverb32.ap_r_ i).delay_.Read = 0 :=
  bufAt_zero32 _

theorem Read_filled32 {n : Nat} (d : DelayLine F32 n) (v : F32) (hn : 0 < n) :
    (d.filled v).Read = v := by
  have h : (d.filled v).read_index < n := Nat.mod_lt _ hn
  unfold DelayLine.Read bufAt
  rw [dif_pos h]
  rfl

theorem gain_rest_ap_l (i : Fin 2) : (restReverb32.ap_l_ i).gain_ = fin (11744051 / 16777216) :=
  lit_07

theorem gain_rest_ap_r (i : Fin 2) : (restReverb32.ap_r_ i).gain_ = fin (11744051 / 16777216) :=
  lit_07

/-- The rest part of a channel: zero comb reads through the two tail gains
give zero in front of the last delay line. -/
theorem rest_chain :
    -fin (11744051 / 16777216) *
        (-fin (11744051 / 16777216) * (((0 : F32) + 0 + 0 + 0 + 0) * 0.25) + 0) = fin 0 := by
  simp [lit_quarter, zero_def, add_def, mul_def, neg_def, add, mul, neg, rnd_zero]

/-- The pre-width wet pair of the next call of `tailReverb32` is `(wl, wr)`. -/
theorem tank_tailReverb32 (mix width wl wr : F32) (hl : IsValue wl) (hr : IsValue wr)
    (a b : F32) : ((tailReverb32 mix width wl wr).tank a b).2 = (wl, wr) := by
  have h0l : ((tailReverb32 mix width wl wr).ap_l_ 1).delay_.Read = wl :=
    Read_filled32 _ wl (by norm_num)
  have h0r : ((tailReverb32 mix width wl wr).ap_r_ 1).delay_.Read = wr :=
    Read_filled32 _ wr (by norm_num)
  rw [tank_wet, h0l, h0r]
  have e1 : (tailReverb32 mix width wl wr).comb_l_ = restReverb32.comb_l_ := rfl
  have e2 : (tailReverb32 mix width wl wr).comb_r_ = restReverb32.comb_r_ := rfl
  have e3 : (tailReverb32 mix width wl wr).ap_l_ 0 = restReverb32.ap_l_ 0 := rfl
  have e4 : (tailReverb32 mix width wl wr).ap_r_ 0 = restReverb32.ap_r_ 0 := rfl
  have e5 : ((tailReverb32 mix width wl wr).ap_l_ 1).gain_ = (restReverb32.ap_l_ 1).gain_ := rfl
  have e6 : ((tailReverb32 mix width wl wr).ap_r_ 1).gain_ = (restReverb32.ap_r_ 1).gain_ := rfl
  rw [e1, e2, e3, e4, e5, e6]
  simp only [read_rest_comb_l, read_rest_comb_r, read_rest_ap_l, read_rest_ap_r,
    gain_rest_ap_l, gain_rest_ap_r, rest_chain]
  rw [fin_zero_add wl hl, fin_zero_add wr hr]

end GriesingerReverb

namespace GriesingerReverb
open F32

/-- The width stage at width 1 when neither the sum, the difference nor their
halves are rounded. -/
theorem widen_one_of_exact (a b : ℚ) (ha : Exact a) (hb : Exact b) (hs : Exact (a + b))
    (hd : Exact (a - b)) (hhs : Exact ((a + b) / 2)) (hhd : Exact ((a - b) / 2)) :
    widen 1 (fin a) (fin b) = (fin a, fin b) := by
  have e1 : fin a + fin b = fin (a + b) := hs
  have e2 : fin a - fin b = fin (a - b) := by
    show rnd (a + -b) = _
    rw [← sub_eq_add_neg]
    exact hd
  have e3 : (0.5 : F32) * fin (a + b) = fin ((a + b) / 2) := by
    rw [lit_half]
    show rnd (1 / 2 * (a + b)) = _
    rw [show (1 / 2 * (a + b) : ℚ) = (a + b) / 2 by ring]
    exact hhs
  have e4 : (0.5 : F32) * fin (a - b) = fin ((a - b) / 2) := by
    rw [lit_half]
    show rnd (1 / 2 * (a - b)) = _
    rw [show (1 / 2 * (a - b) : ℚ) = (a - b) / 2 by ring]
    exact hhd
  have e5 : fin ((a - b) / 2) * 1 = fin ((a - b) / 2) := by
    show rnd ((a - b) / 2 * 1) = _
    rw [mul_one]
    exact hhd
  have e6 : fin ((a + b) / 2) + fin ((a - b) / 2) = fin a := by
    show rnd ((a + b) / 2 + (a - b) / 2) = _
    rw [show ((a + b) / 2 + (a - b) / 2 : ℚ) = a by ring]
    exact ha
  have e7 : fin ((a + b) / 2) - fin ((a - b) / 2) = fin b := by
    show rnd ((a + b) / 2 + -((a - b) / 2)) = _
    rw [show ((a + b) / 2 + -((a - b) / 2) : ℚ) = b by ring]
    exact hb
  rw [widen_def32, e1, e2, e3, e4, e5, e6, e7]

/-- The binary32 mean `0.5f * (x + y)` of two finite values is not NaN. -/
theorem mean_ne_nan (a b : ℚ) : (0.5 : F32) * (fin a + fin b) ≠ nan := by
  rw [lit_half]
  show mul (fin (1 / 2)) (rnd (a + b)) ≠ nan
  cases h : rnd (a + b) with
  | fin c => exact rnd_ne_nan _
  | pinf =>
    norm_num [mul]
    exact fun hc => F32.noConfusion hc
  | ninf =>
    norm_num [mul]
    exact fun hc => F32.noConfusion hc
  | nan => exact absurd h (rnd_ne_nan _)

/-- The width stage at width 0 when the difference of the pair is finite: both
values are the binary32 mean. -/
theorem widen_zero_of_finite (x y : F32) (hfin : IsFinite (x - y)) :
    widen 0 x y = (0.5 * (x + y), 0.5 * (x + y)) ∧ 0.5 * (x + y) ≠ nan := by
  cases x with
  | fin a =>
    cases y with
    | fin b =>
      have hsub : fin a - fin b = rnd (a + -b) := rfl
      rw [hsub] at hfin
      cases hr : rnd (a + -b) with
      | fin d =>
        have hdb := (rnd_eq_fin _ _ hr).2
        have hhalf : |1 / 2 * d| < 2 ^ 127 := by
          rw [abs_mul, abs_of_pos (by norm_num : (0 : ℚ) < 1 / 2)]
          linarith
        obtain ⟨h, hh⟩ := rnd_fin_of_abs_lt _ hhalf
        have e1 : (0.5 : F32) * fin d = fin h := by rw [lit_half]; exact hh
        have e2 : fin h * (0 : F32) = fin 0 := fin_mul_fin_zero h
        have hm : IsValue ((0.5 : F32) * (fin a + fin b)) := isValue_mul _ _
        refine ⟨?_, mean_ne_nan a b⟩
        rw [widen_def32, hsub, hr, e1, e2, add_fin_zero _ hm, sub_fin_zero _ hm]
      | pinf => rw [hr] at hfin; exact hfin.elim
      | ninf => rw [hr] at hfin; exact hfin.elim
      | nan => rw [hr] at hfin; exact hfin.elim
    | pinf => exact hfin.elim
    | ninf => exact hfin.elim
    | nan => exact hfin.elim
  | pinf => cases y <;> exact hfin.elim
  | ninf => cases y <;> exact hfin.elim
  | nan => cases y <;> exact hfin.elim

/-- The wet path at mix 1: `(1 - 1) * x + 1 * w` is `w` for a finite `x`. -/
theorem wet_mix (x w : F32) (hx : IsFinite x) (hw : IsValue w) :
    (1 - 1 : F32) * x + 1 * w = w := by
  have h1 : (1 - 1 : F32) = fin 0 := by
    show rnd (1 + -1) = fin 0
    rw [add_neg_cancel]
    exact rnd_zero
  cases x with
  | fin c => rw [h1, fin_zero_mul_fin, one_def, fin_one_mul w hw, fin_zero_add w hw]
  | pinf => exact hx.elim
  | ninf => exact hx.elim
  | nan => exact hx.elim

theorem exact_two : Exact 2 :=
  exact_of_dyadic 2 1 1 (by norm_num) (by norm_num) (by norm_num) (by norm_num)

theorem exact_three : Exact 3 :=
  exact_of_dyadic 3 3 0 (by norm_num) (by norm_num) (by norm_num) (by norm_num)

theorem exact_four : Exact 4 :=
  exact_of_dyadic 4 1 2 (by norm_num) (by norm_num) (by norm_num) (by norm_num)

theorem exact_five : Exact 5 :=
  exact_of_dyadic 5 5 0 (by norm_num) (by norm_num) (by norm_num) (by norm_num)

theorem exact_neg_seven : Exact (-7) :=
  exact_of_dyadic (-7) (-7) 0 (by norm_num) (by norm_num) (by norm_num) (by norm_num)

/-- The width stage at width 1 on the pair `(3, 1)`. -/
theorem widen_three_one : widen 1 (fin 3) (fin 1) = (fin 3, fin 1) :=
  widen_one_of_exact 3 1 exact_three exact_one (by norm_num; exact exact_four)
    (by norm_num; exact exact_two) (by norm_num; exact exact_two) (by norm_num; exact exact_one)

end GriesingerReverb

namespace GriesingerReverb
open F32

/-- The width stage at width 1 on the pair `(0, -inf)`. -/
theorem widen_one_overflow : widen 1 (fin 0) ninf = (nan, ninf) := by
  norm_num [widen_def32, lit_half, one_def, add_def, sub_def, mul_def, add, mul, neg]

/-- The width stage at width 0 on the pair `(0, -inf)`. -/
theorem widen_zero_overflow : widen 0 (fin 0) ninf = (nan, nan) := by
  norm_num [widen_def32, lit_half, zero_def, add_def, sub_def, mul_def, add, mul, neg]

/-- The binary32 mean of the pair `(0, -inf)`. -/
theorem mean_overflow : (0.5 : F32) * (fin 0 + ninf) = ninf := by
  norm_num [lit_half, add_def, mul_def, add, mul]

theorem one_finite : IsFinite (1 : F32) := trivial

theorem zero_finite : IsFinite (0 : F32) := trivial

theorem prev_overflow_one (mix a b : F32) :
    ((overflowReverb32 mix 1).Process a b).1.prev_l_ = nan ∧
      ((overflowReverb32 mix 1).Process a b).1.prev_r_ = ninf := by
  have h := Process_prev32 (overflowReverb32 mix 1) a b
  rw [tank_overflowReverb32 mix 1 one_finite, (overflowReverb32_spec mix 1 one_finite).2.2.1,
    widen_one_overflow] at h
  exact ⟨congrArg Prod.fst h, congrArg Prod.snd h⟩

theorem prev_overflow_zero (mix a b : F32) :
    ((overflowReverb32 mix 0).Process a b).1.prev_l_ = nan ∧
      ((overflowReverb32 mix 0).Process a b).1.prev_r_ = nan := by
  have h := Process_prev32 (overflowReverb32 mix 0) a b
  rw [tank_overflowReverb32 mix 0 zero_finite, (overflowReverb32_spec mix 0 zero_finite).2.2.1,
    widen_zero_overflow] at h
  exact ⟨congrArg Prod.fst h, congrArg Prod.snd h⟩

theorem prev_tail_three_one (mix a b : F32) :
    ((tailReverb32 mix 1 (fin 3) (fin 1)).Process a b).1.prev_l_ = fin 3 ∧
      ((tailReverb32 mix 1 (fin 3) (fin 1)).Process a b).1.prev_r_ = fin 1 := by
  have h := Process_prev32 (tailReverb32 mix 1 (fin 3) (fin 1)) a b
  rw [tank_tailReverb32 mix 1 (fin 3) (fin 1) exact_three exact_one] at h
  have hw : widen (tailReverb32 mix 1 (fin 3) (fin 1)).width_ (fin 3) (fin 1) = (fin 3, fin 1) :=
    widen_three_one
  rw [hw] at h
  exact ⟨congrArg Prod.fst h, congrArg Prod.snd h⟩

end GriesingerReverb

namespace GriesingerReverb
open F32

theorem exact_ulp_half : Exact (1 / 16777216) :=
  exact_of_dyadic _ 1 (-24) (by norm_num) (by norm_num) (by norm_num)
    (by rw [abs_of_pos (by norm_num)]; norm_num)

/-- The sum `1 + 2^-24` lies halfway between the neighbours `1` and
`1 + 2^-23` and rounds to the even one, `1`. -/
theorem rnd_one_add_ulp_half : rnd (1 + 1 / 16777216) = fin 1 := by
  have h := rnd_tie_pos (1 + 1 / 16777216) 0 8388608 (by norm_num) (by norm_num)
    (by norm_num) (by norm_num) (by norm_num) (by norm_num [abs_lt])
  rw [h]
  norm_num

/-- The sum `1/2 + (1/2 - 2^-25)` lies halfway between the neighbours
`1 - 2^-24` and `1` and rounds to the even one, `1`. -/
theorem rnd_one_sub_ulp_quarter : rnd (1 / 2 + 16777215 / 33554432) = fin 1 := by
  have h := rnd_tie_pos (1 / 2 + 16777215 / 33554432) (-1) 16777215 (by norm_num)
    (by norm_num) (by norm_num) (by norm_num) (by norm_num) (by norm_num [abs_lt])
  rw [h]
  norm_num

/-- The width stage at width 1 on the pair `(1, 2^-24)` returns
`(1, 2^-25)`. -/
theorem widen_one_rounds :
    widen 1 (fin 1) (fin (1 / 16777216)) = (fin 1, fin (1 / 33554432)) := by
  have e1 : fin 1 + fin (1 / 16777216) = fin 1 := rnd_one_add_ulp_half
  have e2 : fin 1 - fin (1 / 16777216) = fin (16777215 / 16777216) := by
    show rnd (1 + -(1 / 16777216)) = _
    have : (1 + -(1 / 16777216) : ℚ) = 16777215 / 16777216 := by norm_num
    rw [this]
    exact exact_of_dyadic _ 16777215 (-24) (by norm_num) (by norm_num) (by norm_num)
      (by rw [abs_of_pos (by norm_num)]; norm_num)
  have e3 : (0.5 : F32) * fin 1 = fin (1 / 2) := by
    rw [lit_half]
    show rnd (1 / 2 * 1) = _
    rw [mul_one]
    exact exact_of_dyadic _ 1 (-1) (by norm_num) (by norm_num) (by norm_num)
      (by rw [abs_of_pos (by norm_num)]; norm_num)
  have hx : Exact (16777215 / 33554432) :=
    exact_of_dyadic _ 16777215 (-25) (by norm_num) (by norm_num) (by norm_num)
      (by rw [abs_of_pos (by norm_num)]; norm_num)
  have e4 : (0.5 : F32) * fin (16777215 / 16777216) = fin (16777215 / 33554432) := by
    rw [lit_half]
    show rnd (1 / 2 * (16777215 / 16777216)) = _
    have : (1 / 2 * (16777215 / 16777216) : ℚ) = 16777215 / 33554432 := by norm_num
    rw [this]
    exact hx
  have e5 : fin (16777215 / 33554432) * 1 = fin (16777215 / 33554432) := by
    show rnd (16777215 / 33554432 * 1) = _
    rw [mul_one]
    exact hx
  have e6 : fin (1 / 2) + fin (16777215 / 33554432) = fin 1 := rnd_one_sub_ulp_quarter
  have e7 : fin (1 / 2) - fin (16777215 / 33554432) = fin (1 / 33554432) := by
    show rnd (1 / 2 + -(16777215 / 33554432)) = _
    have : (1 / 2 + -(16777215 / 33554432) : ℚ) = 1 / 33554432 := by norm_num
    rw [this]
    exact exact_of_dyadic _ 1 (-25) (by norm_num) (by norm_num) (by norm_num)
      (by rw [abs_of_pos (by norm_num)]; norm_num)
  rw [widen_def32, e1, e2, e3, e4, e5, e6, e7]

/-- The width stage at width 0 on the pair `(1, 2^-24)` returns `(1/2, 1/2)`:
the sum `1 + 2^-24` is rounded to `1` before it is halved. -/
theorem widen_zero_rounds :
    widen 0 (fin 1) (fin (1 / 16777216)) = (fin (1 / 2), fin (1 / 2)) := by
  have hd : fin 1 - fin (1 / 16777216) = fin (16777215 / 16777216) := by
    show rnd (1 + -(1 / 16777216)) = _
    have : (1 + -(1 / 16777216) : ℚ) = 16777215 / 16777216 := by norm_num
    rw [this]
    exact exact_of_dyadic _ 16777215 (-24) (by norm_num) (by norm_num) (by norm_num)
      (by rw [abs_of_pos (by norm_num)]; norm_num)
  have hfin : IsFinite (fin 1 - fin (1 / 16777216)) := by rw [hd]; trivial
  have e1 : fin 1 + fin (1 / 16777216) = fin 1 := rnd_one_add_ulp_half
  have e3 : (0.5 : F32) * fin 1 = fin (1 / 2) := by
    rw [lit_half]
    show rnd (1 / 2 * 1) = _
    rw [mul_one]
    exact exact_of_dyadic _ 1 (-1) (by norm_num) (by norm_num) (by norm_num)
      (by rw [abs_of_pos (by norm_num)]; norm_num)
  rw [(widen_zero_of_finite _ _ hfin).1, e1, e3]

theorem exact_min_subnormal : Exact (1 / 2 ^ 149) :=
  exact_of_dyadic _ 1 (-149) (by rw [zpow_neg]; norm_num) (by norm_num) (by norm_num)
    (by rw [abs_of_pos (by positivity)]; norm_num)

/-- Half of the smallest subnormal value lies halfway between `0` and that
value and rounds to the even one, `0`. -/
theorem rnd_half_min_subnormal : rnd (1 / 2 * (1 / 2 ^ 149)) = fin 0 := by
  have he : expo (1 / 2 * (1 / 2 ^ 149)) = -126 :=
    expo_of_small _ (by norm_num) (by rw [abs_of_pos (by positivity), zpow_neg]; norm_num)
  have hu : ulp (1 / 2 * (1 / 2 ^ 149)) = 1 / 2 ^ 149 := by
    unfold ulp
    rw [he, show (-126 - 23 : ℤ) = -149 by norm_num, zpow_neg]
    norm_num
  apply rnd_of_parts
  · rw [hu, roundEven_tie (1 / 2 * (1 / 2 ^ 149) / (1 / 2 ^ 149)) 0 (by norm_num)]
    norm_num
  · norm_num
  · norm_num

/-- The width stage at width 1 on the pair `(2^-149, 0)` returns `(0, 0)`. -/
theorem widen_one_underflows : widen 1 (fin (1 / 2 ^ 149)) (fin 0) = (fin 0, fin 0) := by
  have e1 : fin (1 / 2 ^ 149) + fin 0 = fin (1 / 2 ^ 149) :=
    add_fin_zero _ exact_min_subnormal
  have e2 : fin (1 / 2 ^ 149) - fin 0 = fin (1 / 2 ^ 149) :=
    sub_fin_zero _ exact_min_subnormal
  have e3 : (0.5 : F32) * fin (1 / 2 ^ 149) = fin 0 := by
    rw [lit_half]
    exact rnd_half_min_subnormal
  have e4 : fin 0 * (1 : F32) = fin 0 := fin_zero_mul_fin 1
  have e5 : fin 0 + fin 0 = fin 0 := add_fin_zero _ exact_zero
  have e6 : fin 0 - fin 0 = fin 0 := sub_fin_zero _ exact_zero
  rw [widen_def32, e1, e2, e3, e4, e5, e6]

end GriesingerReverb

/-! ## Dry pass, width stage and allpass energy in binary32 -/

/-- C2 (dry-pass identity), as it holds of the binary32 program: when the
stored mix is 0, for every internal state and every input pair of `float`
values for which the post-width wet pair of the call (the values stored in
`prev_l_`, `prev_r_`) is finite, `Process` returns `out_l = in_l` and
`out_r = in_r` (the same values, so `out_l == in_l` and `out_r == in_r` hold
unless the input itself is NaN); hence a block returns its input sample for
sample as long as the wet pair of every call is finite. -/
theorem dry_pass_of_finite_wet (s : GriesingerReverb F32) (hmix : s.mix_ = 0) :
    (∀ in_l in_r : F32, F32.IsValue in_l → F32.IsValue in_r →
        F32.IsFinite (s.Process in_l in_r).1.prev_l_ →
        F32.IsFinite (s.Process in_l in_r).1.prev_r_ →
        (s.Process in_l in_r).2 = (in_l, in_r) ∧
          (in_l ≠ F32.nan → F32.feq (s.Process in_l in_r).2.1 in_l) ∧
          (in_r ≠ F32.nan → F32.feq (s.Process in_l in_r).2.2 in_r)) ∧
      ∀ ins : List (F32 × F32), (∀ x ∈ ins, F32.IsValue x.1 ∧ F32.IsValue x.2) →
        s.WetFiniteAlong ins → (s.ProcessBlock ins).2 = ins := by
  have hstep : ∀ t : GriesingerReverb F32, t.mix_ = 0 → ∀ in_l in_r : F32,
      F32.IsValue in_l → F32.IsValue in_r →
      F32.IsFinite (t.Process in_l in_r).1.prev_l_ →
      F32.IsFinite (t.Process in_l in_r).1.prev_r_ →
      (t.Process in_l in_r).2 = (in_l, in_r) := by
    intro t ht in_l in_r hl hr hwl hwr
    rw [GriesingerReverb.Process_out32, ht, GriesingerReverb.dry_mix in_l _ hl hwl,
      GriesingerReverb.dry_mix in_r _ hr hwr]
  refine ⟨?_, fun ins hin hwet => GriesingerReverb.dry_block s hmix hstep ins hin hwet⟩
  intro in_l in_r hl hr hwl hwr
  have h := hstep s hmix in_l in_r hl hr hwl hwr
  refine ⟨h, fun hn => ?_, fun hn => ?_⟩
  · rw [h]; exact ⟨hn, hn, rfl⟩
  · rw [h]; exact ⟨hn, hn, rfl⟩

/-- C2 (dry-pass identity) fails as stated.  The state `overflowReverb32 0 1`
is reached from the state after `Init` and `SetMix(0)` by the block
`overflowBlock` of 1116 finite input pairs, the first of which is
`(2^127, 2^127)`: its mix is 0, the next call `Process(1, 1)` has the pre-width
wet pair `(0, -inf)` (the `-inf` of the overflowed mono sum leaves
`comb_r_[3]`), and it returns `(NaN, NaN)` instead of `(1, 1)`. -/
theorem dry_pass_fails_on_nonfinite_wet :
    (overflowReverb32 0 1).mix_ = 0 ∧
      ((overflowReverb32 0 1).tank (F32.fin 1) (F32.fin 1)).2 = (F32.fin 0, F32.ninf) ∧
      ((overflowReverb32 0 1).Process (F32.fin 1) (F32.fin 1)).2 = (F32.nan, F32.nan) ∧
      ((overflowReverb32 0 1).Process (F32.fin 1) (F32.fin 1)).2 ≠ (F32.fin 1, F32.fin 1) := by
  have hs := GriesingerReverb.overflowReverb32_spec 0 1 GriesingerReverb.one_finite
  have hp := GriesingerReverb.prev_overflow_one 0 (F32.fin 1) (F32.fin 1)
  have hout : ((overflowReverb32 0 1).Process (F32.fin 1) (F32.fin 1)).2 =
      (F32.nan, F32.nan) := by
    rw [GriesingerReverb.Process_out32, hp.1, hp.2, hs.2.2.2]
    have h1 : (1 : F32) - 0 = F32.fin 1 := by
      show F32.rnd (1 + -0) = F32.fin 1
      rw [neg_zero, add_zero]
      exact F32.exact_one
    rw [h1, F32.fin_one_mul (F32.fin 1) F32.exact_one]
    norm_num [F32.zero_def, F32.add_def, F32.mul_def, F32.add, F32.mul]
  refine ⟨hs.2.2.2, GriesingerReverb.tank_overflowReverb32 0 1 GriesingerReverb.one_finite _ _,
    hout, ?_⟩
  rw [hout]
  intro h
  exact F32.noConfusion (congrArg Prod.fst h)

/-- C2, an instance: with mix 0 and the finite wet pair `(3, 1)` the call
`Process(5, -7)` returns `(5, -7)`, and so does the block of that one call. -/
theorem dry_pass_of_finite_wet_witness :
    (tailReverb32 0 1 (F32.fin 3) (F32.fin 1)).mix_ = 0 ∧
      ((tailReverb32 0 1 (F32.fin 3) (F32.fin 1)).Process (F32.fin 5) (F32.fin (-7))).1.prev_l_ =
        F32.fin 3 ∧
      ((tailReverb32 0 1 (F32.fin 3) (F32.fin 1)).Process (F32.fin 5) (F32.fin (-7))).1.prev_r_ =
        F32.fin 1 ∧
      ((tailReverb32 0 1 (F32.fin 3) (F32.fin 1)).Process (F32.fin 5) (F32.fin (-7))).2 =
        (F32.fin 5, F32.fin (-7)) ∧
      ((tailReverb32 0 1 (F32.fin 3) (F32.fin 1)).ProcessBlock [(F32.fin 5, F32.fin (-7))]).2 =
        [(F32.fin 5, F32.fin (-7))] := by
  have hp := GriesingerReverb.prev_tail_three_one 0 (F32.fin 5) (F32.fin (-7))
  have hl : F32.IsFinite
      ((tailReverb32 0 1 (F32.fin 3) (F32.fin 1)).Process (F32.fin 5) (F32.fin (-7))).1.prev_l_ := by
    rw [hp.1]; trivial
  have hr : F32.IsFinite
      ((tailReverb32 0 1 (F32.fin 3) (F32.fin 1)).Process (F32.fin 5) (F32.fin (-7))).1.prev_r_ := by
    rw [hp.2]; trivial
  refine ⟨rfl, hp.1, hp.2, ?_, ?_⟩
  · exact ((dry_pass_of_finite_wet (tailReverb32 0 1 (F32.fin 3) (F32.fin 1)) rfl).1
      (F32.fin 5) (F32.fin (-7)) GriesingerReverb.exact_five GriesingerReverb.exact_neg_seven
      hl hr).1
  · apply (dry_pass_of_finite_wet (tailReverb32 0 1 (F32.fin 3) (F32.fin 1)) rfl).2
    · intro x hx
      rw [List.mem_singleton] at hx
      rw [hx]
      exact ⟨GriesingerReverb.exact_five, GriesingerReverb.exact_neg_seven⟩
    · exact ⟨hl, hr, trivial⟩

/-- C4 (width collapse), as it holds of the binary32 program: when the stored
width is 0, for every internal state and every input pair for which the
pre-width difference `wet_l - wet_r` is finite, the post-width `wet_l` and
`wet_r` (stored in `prev_l_`, `prev_r_`) are both `0.5f * (wet_l + wet_r)`, the
binary32 mean of the pre-width pair, which is not NaN; consequently with
mix = 1 and finite inputs `out_l` and `out_r` are both that mean. -/
theorem width_collapse_of_finite_difference (s : GriesingerReverb F32)
    (hwidth : s.width_ = 0) (in_l in_r : F32)
    (hfin : F32.IsFinite ((s.tank in_l in_r).2.1 - (s.tank in_l in_r).2.2)) :
    (s.Process in_l in_r).1.prev_l_ = 0.5 * ((s.tank in_l in_r).2.1 + (s.tank in_l in_r).2.2) ∧
      (s.Process in_l in_r).1.prev_r_ =
        0.5 * ((s.tank in_l in_r).2.1 + (s.tank in_l in_r).2.2) ∧
      (0.5 : F32) * ((s.tank in_l in_r).2.1 + (s.tank in_l in_r).2.2) ≠ F32.nan ∧
      (s.mix_ = 1 → F32.IsFinite in_l → F32.IsFinite in_r →
        (s.Process in_l in_r).2 =
          (0.5 * ((s.tank in_l in_r).2.1 + (s.tank in_l in_r).2.2),
           0.5 * ((s.tank in_l in_r).2.1 + (s.tank in_l in_r).2.2))) := by
  have hw := GriesingerReverb.widen_zero_of_finite _ _ hfin
  have hp := GriesingerReverb.Process_prev32 s in_l in_r
  rw [hwidth, hw.1] at hp
  have hl : (s.Process in_l in_r).1.prev_l_ =
      0.5 * ((s.tank in_l in_r).2.1 + (s.tank in_l in_r).2.2) := congrArg Prod.fst hp
  have hr : (s.Process in_l in_r).1.prev_r_ =
      0.5 * ((s.tank in_l in_r).2.1 + (s.tank in_l in_r).2.2) := congrArg Prod.snd hp
  refine ⟨hl, hr, hw.2, ?_⟩
  intro hmix hil hir
  have hm : F32.IsValue ((0.5 : F32) * ((s.tank in_l in_r).2.1 + (s.tank in_l in_r).2.2)) :=
    F32.isValue_mul _ _
  rw [GriesingerReverb.Process_out32, hl, hr, hmix, GriesingerReverb.wet_mix in_l _ hil hm,
    GriesingerReverb.wet_mix in_r _ hir hm]

/-- C4 (width collapse) fails as stated.  The state `overflowReverb32 1 0` is
reached from the state after `Init`, `SetMix(1)` and `SetWidth(0)` by the
block `overflowBlock` of 1116 finite input pairs: its width is 0 and its mix
is 1, the next call `Process(1, 1)` has the pre-width wet pair `(0, -inf)`,
whose mean `0.5f * (0 + -inf)` is `-inf`, but the post-width pair is
`(NaN, NaN)`; the outputs are `(NaN, NaN)`, so `out_l == out_r` is false.
And for finite values the mean is a rounded one: in the state
`tailReverb32 1 0 1 2^-24` (width 0) the pre-width pair is `(1, 2^-24)` and the
post-width `wet_l` is `1/2`, not the arithmetic mean `(1 + 2^-24) / 2`. -/
theorem width_collapse_fails_on_nonfinite_wet :
    ((overflowReverb32 1 0).width_ = 0 ∧ (overflowReverb32 1 0).mix_ = 1 ∧
      ((overflowReverb32 1 0).tank (F32.fin 1) (F32.fin 1)).2 = (F32.fin 0, F32.ninf) ∧
      (0.5 : F32) * (F32.fin 0 + F32.ninf) = F32.ninf ∧
      ((overflowReverb32 1 0).Process (F32.fin 1) (F32.fin 1)).1.prev_l_ = F32.nan ∧
      ((overflowReverb32 1 0).Process (F32.fin 1) (F32.fin 1)).1.prev_r_ = F32.nan ∧
      ((overflowReverb32 1 0).Process (F32.fin 1) (F32.fin 1)).2 = (F32.nan, F32.nan) ∧
      ¬ F32.feq ((overflowReverb32 1 0).Process (F32.fin 1) (F32.fin 1)).2.1
          ((overflowReverb32 1 0).Process (F32.fin 1) (F32.fin 1)).2.2) ∧
      (tailReverb32 1 0 (F32.fin 1) (F32.fin (1 / 16777216))).width_ = 0 ∧
      ((tailReverb32 1 0 (F32.fin 1) (F32.fin (1 / 16777216))).tank (F32.fin 1)
          (F32.fin 1)).2 = (F32.fin 1, F32.fin (1 / 16777216)) ∧
      ((tailReverb32 1 0 (F32.fin 1) (F32.fin (1 / 16777216))).Process (F32.fin 1)
          (F32.fin 1)).1.prev_l_ = F32.fin (1 / 2) ∧
      (1 / 2 : ℚ) ≠ (1 + 1 / 16777216) / 2 := by
  have hs := GriesingerReverb.overflowReverb32_spec 1 0 GriesingerReverb.zero_finite
  have hp := GriesingerReverb.prev_overflow_zero 1 (F32.fin 1) (F32.fin 1)
  have hout : ((overflowReverb32 1 0).Process (F32.fin 1) (F32.fin 1)).2 =
      (F32.nan, F32.nan) := by
    rw [GriesingerReverb.Process_out32, hp.1, hp.2, hs.2.2.2]
    have h0 : (1 : F32) - 1 = F32.fin 0 := by
      show F32.rnd (1 + -1) = F32.fin 0
      rw [add_neg_cancel]
      exact F32.rnd_zero
    rw [h0, F32.fin_zero_mul_fin]
    norm_num [F32.one_def, F32.add_def, F32.mul_def, F32.add, F32.mul]
  have ht := GriesingerReverb.tank_tailReverb32 1 0 (F32.fin 1) (F32.fin (1 / 16777216))
    F32.exact_one GriesingerReverb.exact_ulp_half (F32.fin 1) (F32.fin 1)
  have hq := GriesingerReverb.Process_prev32
    (tailReverb32 1 0 (F32.fin 1) (F32.fin (1 / 16777216))) (F32.fin 1) (F32.fin 1)
  rw [ht] at hq
  have hw : GriesingerReverb.widen
      (tailReverb32 1 0 (F32.fin 1) (F32.fin (1 / 16777216))).width_ (F32.fin 1)
      (F32.fin (1 / 16777216)) = (F32.fin (1 / 2), F32.fin (1 / 2)) :=
    GriesingerReverb.widen_zero_rounds
  rw [hw] at hq
  refine ⟨⟨hs.2.2.1, hs.2.2.2,
    GriesingerReverb.tank_overflowReverb32 1 0 GriesingerReverb.zero_finite _ _,
    GriesingerReverb.mean_overflow, hp.1, hp.2, hout, ?_⟩, rfl, ht, congrArg Prod.fst hq,
    by norm_num⟩
  rw [hout]
  intro h
  exact h.1 rfl

/-- C4, an instance: with width 0, mix 1 and the pre-width pair `(3, 1)` the
call `Process(5, -7)` stores the post-width pair `(2, 2)` and returns
`(2, 2)`. -/
theorem width_collapse_of_finite_difference_witness :
    (tailReverb32 1 0 (F32.fin 3) (F32.fin 1)).width_ = 0 ∧
      ((tailReverb32 1 0 (F32.fin 3) (F32.fin 1)).tank (F32.fin 5) (F32.fin (-7))).2 =
        (F32.fin 3, F32.fin 1) ∧
      ((tailReverb32 1 0 (F32.fin 3) (F32.fin 1)).Process (F32.fin 5) (F32.fin (-7))).1.prev_l_ =
        F32.fin 2 ∧
      ((tailReverb32 1 0 (F32.fin 3) (F32.fin 1)).Process (F32.fin 5) (F32.fin (-7))).1.prev_r_ =
        F32.fin 2 ∧
      ((tailReverb32 1 0 (F32.fin 3) (F32.fin 1)).Process (F32.fin 5) (F32.fin (-7))).2 =
        (F32.fin 2, F32.fin 2) := by
  have ht := GriesingerReverb.tank_tailReverb32 1 0 (F32.fin 3) (F32.fin 1)
    GriesingerReverb.exact_three F32.exact_one (F32.fin 5) (F32.fin (-7))
  have hd : (F32.fin 3 : F32) - F32.fin 1 = F32.fin 2 := by
    show F32.rnd (3 + -1) = F32.fin 2
    norm_num
    exact GriesingerReverb.exact_two
  have hmean : (0.5 : F32) * (F32.fin 3 + F32.fin 1) = F32.fin 2 := by
    have h4 : (F32.fin 3 : F32) + F32.fin 1 = F32.fin 4 := by
      show F32.rnd (3 + 1) = F32.fin 4
      norm_num
      exact GriesingerReverb.exact_four
    rw [h4, F32.lit_half]
    show F32.rnd (1 / 2 * 4) = F32.fin 2
    norm_num
    exact GriesingerReverb.exact_two
  have hfin : F32.IsFinite
      (((tailReverb32 1 0 (F32.fin 3) (F32.fin 1)).tank (F32.fin 5) (F32.fin (-7))).2.1 -
        ((tailReverb32 1 0 (F32.fin 3) (F32.fin 1)).tank (F32.fin 5) (F32.fin (-7))).2.2) := by
    rw [ht, hd]
    trivial
  have h := width_collapse_of_finite_difference (tailReverb32 1 0 (F32.fin 3) (F32.fin 1)) rfl
    (F32.fin 5) (F32.fin (-7)) hfin
  rw [ht, hmean] at h
  exact ⟨rfl, ht, h.1, h.2.1, h.2.2.2 rfl trivial trivial⟩

/-- C5 (width preservation), as it holds of the binary32 program: when the
stored width is 1, for every internal state and every input pair whose finite
pre-width pair `(a, b)` has a sum `a + b`, a difference `a - b` and halves
`(a + b) / 2`, `(a - b) / 2` that are binary32 values (lines 224-225 round
nothing), the post-width `wet_l` and `wet_r` (mid + side and mid - side,
stored in `prev_l_`, `prev_r_`) are `a` and `b` unchanged. -/
theorem width_preservation_of_exact_sums (s : GriesingerReverb F32) (hwidth : s.width_ = 1)
    (in_l in_r : F32) (a b : ℚ) (hpre : (s.tank in_l in_r).2 = (F32.fin a, F32.fin b))
    (hs : F32.Exact (a + b)) (hd : F32.Exact (a - b)) (hhs : F32.Exact ((a + b) / 2))
    (hhd : F32.Exact ((a - b) / 2)) :
    GriesingerReverb.widen s.width_ (s.tank in_l in_r).2.1 (s.tank in_l in_r).2.2 =
        (F32.fin a, F32.fin b) ∧
      (s.Process in_l in_r).1.prev_l_ = F32.fin a ∧
      (s.Process in_l in_r).1.prev_r_ = F32.fin b := by
  have hv := GriesingerReverb.tank_isValue s in_l in_r
  rw [hpre] at hv
  have hw : GriesingerReverb.widen s.width_ (s.tank in_l in_r).2.1 (s.tank in_l in_r).2.2 =
      (F32.fin a, F32.fin b) := by
    rw [hwidth, hpre]
    exact GriesingerReverb.widen_one_of_exact a b hv.1 hv.2 hs hd hhs hhd
  have hp := GriesingerReverb.Process_prev32 s in_l in_r
  rw [hw] at hp
  exact ⟨hw, congrArg Prod.fst hp, congrArg Prod.snd hp⟩

/-- C5, an instance: with width 1 and the pre-width pair `(3, 1)` the call
`Process(5, -7)` stores the post-width pair `(3, 1)`. -/
theorem width_preservation_of_exact_sums_witness :
    (tailReverb32 0.35 1 (F32.fin 3) (F32.fin 1)).width_ = 1 ∧
      ((tailReverb32 0.35 1 (F32.fin 3) (F32.fin 1)).tank (F32.fin 5) (F32.fin (-7))).2 =
        (F32.fin 3, F32.fin 1) ∧
      ((tailReverb32 0.35 1 (F32.fin 3) (F32.fin 1)).Process (F32.fin 5)
          (F32.fin (-7))).1.prev_l_ = F32.fin 3 ∧
      ((tailReverb32 0.35 1 (F32.fin 3) (F32.fin 1)).Process (F32.fin 5)
          (F32.fin (-7))).1.prev_r_ = F32.fin 1 := by
  have ht := GriesingerReverb.tank_tailReverb32 0.35 1 (F32.fin 3) (F32.fin 1)
    GriesingerReverb.exact_three F32.exact_one (F32.fin 5) (F32.fin (-7))
  have h := width_preservation_of_exact_sums (tailReverb32 0.35 1 (F32.fin 3) (F32.fin 1)) rfl
    (F32.fin 5) (F32.fin (-7)) 3 1 ht (by norm_num; exact GriesingerReverb.exact_four)
    (by norm_num; exact GriesingerReverb.exact_two)
    (by norm_num; exact GriesingerReverb.exact_two) (by norm_num; exact F32.exact_one)
  exact ⟨rfl, ht, h.2.1, h.2.2⟩

/-- C5 (width preservation) fails as stated: in the state
`tailReverb32 0.35 1 1 2^-24` (width 1) the call `Process(0, 0)` has the
pre-width wet pair `(1, 2^-24)` and the post-width pair `(1, 2^-25)`: the sum
`1 + 2^-24` is rounded to `1`, so `mid - side` is `2^-25`, not the pre-width
`wet_r`.  And a half can be rounded: in the state
`tailReverb32 0.35 1 2^-149 0` the pre-width pair is `(2^-149, 0)`, both
halves `0.5f * 2^-149` underflow to `0`, and the post-width pair is
`(0, 0)`. -/
theorem width_preservation_fails_by_rounding :
    ((tailReverb32 0.35 1 (F32.fin 1) (F32.fin (1 / 16777216))).width_ = 1 ∧
      ((tailReverb32 0.35 1 (F32.fin 1) (F32.fin (1 / 16777216))).tank 0 0).2 =
        (F32.fin 1, F32.fin (1 / 16777216)) ∧
      ((tailReverb32 0.35 1 (F32.fin 1) (F32.fin (1 / 16777216))).Process 0 0).1.prev_l_ =
        F32.fin 1 ∧
      ((tailReverb32 0.35 1 (F32.fin 1) (F32.fin (1 / 16777216))).Process 0 0).1.prev_r_ =
        F32.fin (1 / 33554432) ∧
      ((tailReverb32 0.35 1 (F32.fin 1) (F32.fin (1 / 16777216))).Process 0 0).1.prev_r_ ≠
        ((tailReverb32 0.35 1 (F32.fin 1) (F32.fin (1 / 16777216))).tank 0 0).2.2) ∧
      (tailReverb32 0.35 1 (F32.fin (1 / 2 ^ 149)) (F32.fin 0)).width_ = 1 ∧
      ((tailReverb32 0.35 1 (F32.fin (1 / 2 ^ 149)) (F32.fin 0)).tank 0 0).2 =
        (F32.fin (1 / 2 ^ 149), F32.fin 0) ∧
      ((tailReverb32 0.35 1 (F32.fin (1 / 2 ^ 149)) (F32.fin 0)).Process 0 0).1.prev_l_ =
        F32.fin 0 ∧
      ((tailReverb32 0.35 1 (F32.fin (1 / 2 ^ 149)) (F32.fin 0)).Process 0 0).1.prev_l_ ≠
        ((tailReverb32 0.35 1 (F32.fin (1 / 2 ^ 149)) (F32.fin 0)).tank 0 0).2.1 := by
  have ht := GriesingerReverb.tank_tailReverb32 0.35 1 (F32.fin 1) (F32.fin (1 / 16777216))
    F32.exact_one GriesingerReverb.exact_ulp_half 0 0
  have hp := GriesingerReverb.Process_prev32
    (tailReverb32 0.35 1 (F32.fin 1) (F32.fin (1 / 16777216))) 0 0
  rw [ht] at hp
  have hw : GriesingerReverb.widen
      (tailReverb32 0.35 1 (F32.fin 1) (F32.fin (1 / 16777216))).width_ (F32.fin 1)
      (F32.fin (1 / 16777216)) = (F32.fin 1, F32.fin (1 / 33554432)) :=
    GriesingerReverb.widen_one_rounds
  rw [hw] at hp
  have hr : ((tailReverb32 0.35 1 (F32.fin 1) (F32.fin (1 / 16777216))).Process 0 0).1.prev_r_ =
      F32.fin (1 / 33554432) := congrArg Prod.snd hp
  have ht2 := GriesingerReverb.tank_tailReverb32 0.35 1 (F32.fin (1 / 2 ^ 149)) (F32.fin 0)
    GriesingerReverb.exact_min_subnormal F32.exact_zero 0 0
  have hp2 := GriesingerReverb.Process_prev32
    (tailReverb32 0.35 1 (F32.fin (1 / 2 ^ 149)) (F32.fin 0)) 0 0
  rw [ht2] at hp2
  have hw2 : GriesingerReverb.widen
      (tailReverb32 0.35 1 (F32.fin (1 / 2 ^ 149)) (F32.fin 0)).width_ (F32.fin (1 / 2 ^ 149))
      (F32.fin 0) = (F32.fin 0, F32.fin 0) :=
    GriesingerReverb.widen_one_underflows
  rw [hw2] at hp2
  have hl2 : ((tailReverb32 0.35 1 (F32.fin (1 / 2 ^ 149)) (F32.fin 0)).Process 0 0).1.prev_l_ =
      F32.fin 0 := congrArg Prod.fst hp2
  refine ⟨⟨rfl, ht, congrArg Prod.fst hp, hr, ?_⟩, rfl, ht2, hl2, ?_⟩
  · rw [hr, ht]
    intro h
    injection h with h
    norm_num at h
  · rw [hl2, ht2]
    intro h
    injection h with h
    norm_num at h

/-- C16 (allpass losslessness), as it holds of the binary32 program: for every
allpass state with a finite gain `g`, `g^2 ≠ 1`, a finite sample `d` read from
the delay line and a finite input `x`, if none of the four operations of
`Process` rounds (`-g * x`, `-g * x + d`, `g * out` and `x + g * out` are
binary32 values), then `Process` returns `out = -g * x + d`, writes
`w = x + g * out`, and `out^2 + w^2 / (1 - g^2) = x^2 + d^2 / (1 - g^2)`. -/
theorem allpass_energy_balance_of_exact_steps {max_size : Nat} (p : Allpass F32 max_size)
    (g x d : ℚ) (hgain : p.gain_ = F32.fin g) (hread : p.delay_.Read = F32.fin d)
    (hg : g ^ 2 ≠ 1) (h1 : F32.Exact (-g * x)) (h2 : F32.Exact (-g * x + d))
    (h3 : F32.Exact (g * (-g * x + d))) (h4 : F32.Exact (x + g * (-g * x + d))) :
    (p.Process (F32.fin x)).2 = F32.fin (-g * x + d) ∧
      (p.Process (F32.fin x)).1.delay_ = p.delay_.Write (F32.fin (x + g * (-g * x + d))) ∧
      (-g * x + d) ^ 2 + (x + g * (-g * x + d)) ^ 2 / (1 - g ^ 2) =
        x ^ 2 + d ^ 2 / (1 - g ^ 2) := by
  have hout : (p.Process (F32.fin x)).2 = F32.fin (-g * x + d) := by
    show -p.gain_ * F32.fin x + p.delay_.Read = _
    rw [hgain, hread]
    have e1 : -F32.fin g * F32.fin x = F32.fin (-g * x) := h1
    rw [e1]
    exact h2
  have hw : F32.fin x + p.gain_ * (p.Process (F32.fin x)).2 =
      F32.fin (x + g * (-g * x + d)) := by
    rw [hout, hgain]
    have e3 : F32.fin g * F32.fin (-g * x + d) = F32.fin (g * (-g * x + d)) := h3
    rw [e3]
    exact h4
  refine ⟨hout, ?_, ?_⟩
  · show p.delay_.Write (F32.fin x + p.gain_ * (p.Process (F32.fin x)).2) = _
    rw [hw]
  · have hne : (1 - g ^ 2) ≠ 0 := fun h => hg (by linarith)
    field_simp
    ring

/-- C16 (allpass losslessness) fails as stated: the left input diffuser after
`Init`, `roundingAllpass32` (gain `0.65f = 5452595 / 2^23`, empty delay line,
so `d = 0`), on the input `x = 3` returns `out = -16357785 / 2^23` and writes
`w = 908329 / 2^19` (the product `g * out` is rounded), and
`out^2 + w^2 / (1 - g^2)` differs from `x^2 + d^2 / (1 - g^2) = 9`. -/
theorem allpass_energy_fails_by_rounding :
    roundingAllpass32.gain_ = F32.fin (5452595 / 8388608) ∧
      roundingAllpass32.delay_.Read = F32.fin 0 ∧
      (roundingAllpass32.Process (F32.fin 3)).2 = F32.fin (-16357785 / 8388608) ∧
      (roundingAllpass32.Process (F32.fin 3)).1.delay_ =
        roundingAllpass32.delay_.Write (F32.fin (908329 / 524288)) ∧
      ((5452595 / 8388608 : ℚ)) ^ 2 ≠ 1 ∧
      ((-16357785 / 8388608 : ℚ)) ^ 2 +
          (908329 / 524288) ^ 2 / (1 - (5452595 / 8388608) ^ 2) ≠
        3 ^ 2 + 0 ^ 2 / (1 - (5452595 / 8388608) ^ 2) := by
  have hgain : roundingAllpass32.gain_ = F32.fin (5452595 / 8388608) := F32.lit_065
  have hread : roundingAllpass32.delay_.Read = F32.fin 0 := GriesingerReverb.bufAt_zero32 _
  have hx1 : F32.Exact (-16357785 / 8388608) :=
    F32.exact_of_dyadic _ (-16357785) (-23) (by norm_num) (by norm_num [abs_lt]) (by norm_num)
      (by norm_num [abs_lt])
  have e1 : -F32.fin (5452595 / 8388608) * F32.fin 3 = F32.fin (-16357785 / 8388608) := by
    show F32.rnd (-(5452595 / 8388608) * 3) = _
    have : (-(5452595 / 8388608) * 3 : ℚ) = -16357785 / 8388608 := by norm_num
    rw [this]
    exact hx1
  have hout : (roundingAllpass32.Process (F32.fin 3)).2 = F32.fin (-16357785 / 8388608) := by
    show -roundingAllpass32.gain_ * F32.fin 3 + roundingAllpass32.delay_.Read = _
    rw [hgain, hread, e1]
    exact F32.add_fin_zero _ hx1
  have e2 : F32.fin (5452595 / 8388608) * F32.fin (-16357785 / 8388608) =
      F32.fin (-664535 / 524288) := by
    show F32.rnd (5452595 / 8388608 * (-16357785 / 8388608)) = _
    have h := F32.rnd_eval_neg (5452595 / 8388608 * (-16357785 / 8388608)) 0 (-10632560)
      (by norm_num) (by norm_num) (by norm_num) (by norm_num) (by norm_num [abs_lt])
      (by norm_num [abs_lt])
    rw [h]
    norm_num
  have e3 : F32.fin 3 + F32.fin (-664535 / 524288) = F32.fin (908329 / 524288) := by
    show F32.rnd (3 + -664535 / 524288) = _
    have : (3 + -664535 / 524288 : ℚ) = 908329 / 524288 := by norm_num
    rw [this]
    exact F32.exact_of_dyadic _ 908329 (-19) (by norm_num) (by norm_num [abs_lt])
      (by norm_num) (by norm_num [abs_lt])
  refine ⟨hgain, hread, hout, ?_, by norm_num, by norm_num⟩
  show roundingAllpass32.delay_.Write
      (F32.fin 3 + roundingAllpass32.gain_ * (roundingAllpass32.Process (F32.fin 3)).2) = _
  rw [hout, hgain, e2, e3]

/-- C16, an instance: the diffuser `dyadicAllpass32` (gain 0.5, `d = 1`) on the
input `x = 3` returns `out = -1/2`, writes `w = 11/4`, and
`out^2 + w^2 / (1 - g^2) = x^2 + d^2 / (1 - g^2)`. -/
theorem allpass_energy_balance_of_exact_steps_witness :
    dyadicAllpass32.gain_ = F32.fin (1 / 2) ∧ dyadicAllpass32.delay_.Read = F32.fin 1 ∧
      (dyadicAllpass32.Process (F32.fin 3)).2 = F32.fin (-(1 / 2) * 3 + 1) ∧
      (dyadicAllpass32.Process (F32.fin 3)).1.delay_ =
        dyadicAllpass32.delay_.Write (F32.fin (3 + 1 / 2 * (-(1 / 2) * 3 + 1))) ∧
      (-(1 / 2) * 3 + 1 : ℚ) ^ 2 + (3 + 1 / 2 * (-(1 / 2) * 3 + 1)) ^ 2 / (1 - (1 / 2) ^ 2) =
        3 ^ 2 + 1 ^ 2 / (1 - (1 / 2) ^ 2) := by
  have hgain : dyadicAllpass32.gain_ = F32.fin (1 / 2) := F32.lit_half
  have hread : dyadicAllpass32.delay_.Read = F32.fin 1 :=
    GriesingerReverb.Read_filled32 _ _ (by norm_num)
  exact ⟨hgain, hread,
    allpass_energy_balance_of_exact_steps dyadicAllpass32 (1 / 2) 3 1 hgain hread (by norm_num)
      (by
        have : (-(1 / 2) * 3 : ℚ) = -3 / 2 := by norm_num
        rw [this]
        exact F32.exact_of_dyadic _ (-3) (-1) (by norm_num) (by norm_num [abs_lt])
          (by norm_num) (by norm_num [abs_lt]))
      (by
        have : (-(1 / 2) * 3 + 1 : ℚ) = -1 / 2 := by norm_num
        rw [this]
        exact F32.exact_of_dyadic _ (-1) (-1) (by norm_num) (by norm_num [abs_lt])
          (by norm_num) (by norm_num [abs_lt]))
      (by
        have : (1 / 2 * (-(1 / 2) * 3 + 1) : ℚ) = -1 / 4 := by norm_num
        rw [this]
        exact F32.exact_of_dyadic _ (-1) (-2) (by norm_num) (by norm_num [abs_lt])
          (by norm_num) (by norm_num [abs_lt]))
      (by
        have : (3 + 1 / 2 * (-(1 / 2) * 3 + 1) : ℚ) = 11 / 4 := by norm_num
        rw [this]
        exact F32.exact_of_dyadic _ 11 (-2) (by norm_num) (by norm_num [abs_lt])
          (by norm_num) (by norm_num [abs_lt]))⟩

end griesinger
